import Mathlib

/-!
Verification of the my_ffs flash file system (src/my_ffs.c, src/my_ffs.h).

The development is a shallow embedding of the C sources.  Machine integers
(unsigned long) are modelled as Nat with explicit reduction modulo 2^32 at
the points where the C code can wrap; flash media is modelled as a list of
sectors, each sector a list of byte values; the sector-header and file-node
structs are serialised with the little-endian layout of the C structs
(header 24 bytes, file node 80 bytes including 2 alignment padding bytes);
the section drivers (out of scope per the spec) are given standard
read/write/erase semantics over that byte store, and every driver write is
also recorded in an event trace so that ordering claims can be stated.
Option-valued results mark executions the embedding does not capture
(out-of-bounds file-descriptor table accesses, exhausted loop fuel on
ill-formed media); negative Int results are the FFS return codes.
-/

namespace Myffs

/-- Bytes are natural numbers; well-formed stores keep them below 256. -/
abbrev Bytes := List Nat

/-- Value of 2^32: arithmetic on unsigned long wraps at this modulus. -/
def SZ32 : Nat := 4294967296

/-- Representation of (unsigned long)(-1), the end-of-chain marker. -/
def NULLSEC : Nat := 4294967295

/-- Unsigned 32-bit subtraction a - b as the C code computes it. -/
def sub32 (a b : Nat) : Nat := (a + (SZ32 - b % SZ32)) % SZ32

/-- Byte size of FFS_SECTOR_HEADER (6 words, word aligned). -/
def HDRSIZE : Nat := 24

/-- Byte size of FFS_FILE_NODE (1 + 65 + 2 pad + 4 + 4 + 4). -/
def FNODESIZE : Nat := 80

/-- FFS_SECTOR_HEADER_KEY, the sanity key "mffs". -/
def FFS_SECTOR_HEADER_KEY : Nat := 0x6d666673

def FFS_SECTOR_HEADER_INUSE : Nat := 0x0f
def FFS_SECTOR_HEADER_INUSE_FILENODE : Nat := 0xf0
def FFS_SECTOR_HEADER_FREE : Nat := 0xff
def FFS_SECTOR_HEADER_FREE_DIRTY : Nat := 0x00

def FFS_MAX_FILENAME_LENGTH : Nat := 64
def FFS_FILE_SYSTEM_VERSION : Nat := 1
def FFS_MAX_FILE_DESCRIPTORS : Nat := 2

def FFS_RDONLY : Nat := 0x0000
def FFS_WRONLY : Nat := 0x0001
def FFS_RDWR : Nat := 0x0002
def FFS_CREATE : Nat := 0x0100

def CHECK_SECTOR_BAD : Nat := 0x01
def CHECK_SECTOR_FNODE : Nat := 0x02
def CHECK_SECTOR_FREE : Nat := 0x04
def CHECK_SECTOR_INUSE : Nat := 0x08

def FFS_RC_TOO_MANY_OPEN_FILES : Int := -1
def FFS_RC_FILE_DOES_NOT_EXIST : Int := -2
def FFS_RC_INVALID_FILE_DESCRIPTOR : Int := -3
def FFS_RC_INVALID_FILE_POSITION : Int := -4
def FFS_RC_INVALID_SECTOR_NUMBER : Int := -5
def FFS_RC_OUT_OF_SPACE : Int := -6
def FFS_RC_FILE_NOT_FOUND : Int := -7
def FFS_RC_NEW_NAME_EXISTS : Int := -8

/-! Byte-store primitives: reading and overwriting a slice of a byte list.
These model memcpy in/out of a flash sector held as a list. -/

/-- Read len bytes starting at offset off. -/
def readAt (l : Bytes) (off len : Nat) : Bytes := (l.drop off).take len

/-- Overwrite the bytes of l starting at off with v. -/
def writeAt (l : Bytes) (off : Nat) (v : Bytes) : Bytes :=
  l.take off ++ (v ++ l.drop (off + v.length))

theorem length_writeAt {l v : Bytes} {off : Nat} (h : off + v.length ≤ l.length) :
    (writeAt l off v).length = l.length := by
  simp only [writeAt, List.length_append, List.length_take, List.length_drop]
  omega

theorem length_readAt {l : Bytes} {off len : Nat} (h : off + len ≤ l.length) :
    (readAt l off len).length = len := by
  simp only [readAt, List.length_take, List.length_drop]
  omega

theorem get?_writeAt (l v : Bytes) (off i : Nat) (h : off + v.length ≤ l.length) :
    (writeAt l off v).get? i =
      if off ≤ i ∧ i < off + v.length then v.get? (i - off) else l.get? i := by
  have hlt : (l.take off).length = off := by
    simp only [List.length_take]
    omega
  simp only [writeAt]
  rcases Nat.lt_or_ge i off with hi | hi
  · rw [if_neg (by omega)]
    rw [List.get?_append (by rw [hlt]; exact hi)]
    exact List.get?_take hi
  · rw [List.get?_append_right (by rw [hlt]; exact hi), hlt]
    rcases Nat.lt_or_ge i (off + v.length) with hi2 | hi2
    · rw [if_pos ⟨hi, hi2⟩]
      exact List.get?_append (by omega)
    · rw [if_neg (by omega)]
      rw [List.get?_append_right (by omega)]
      rw [List.get?_drop]
      congr 1
      omega

theorem get?_readAt (l : Bytes) (off len i : Nat) :
    (readAt l off len).get? i = if i < len then l.get? (off + i) else none := by
  simp only [readAt, List.get?_take_eq_if]
  by_cases hi : i < len
  · rw [if_pos hi, if_pos hi, List.get?_drop]
  · rw [if_neg hi, if_neg hi]

theorem readAt_writeAt_self {l v : Bytes} {off : Nat} (h : off + v.length ≤ l.length) :
    readAt (writeAt l off v) off v.length = v := by
  apply List.ext_get?
  intro i
  rw [get?_readAt]
  by_cases hi : i < v.length
  · rw [if_pos hi, get?_writeAt _ _ _ _ h, if_pos (by omega)]
    congr 1
    omega
  · rw [if_neg hi, (List.get?_eq_none (l := v)).2 (by omega)]

theorem readAt_writeAt_left {l v : Bytes} {off o2 k : Nat}
    (h : off + v.length ≤ l.length) (hd : o2 + k ≤ off) :
    readAt (writeAt l off v) o2 k = readAt l o2 k := by
  apply List.ext_get?
  intro i
  rw [get?_readAt, get?_readAt]
  by_cases hi : i < k
  · rw [if_pos hi, if_pos hi, get?_writeAt _ _ _ _ h, if_neg (by omega)]
  · rw [if_neg hi, if_neg hi]

theorem readAt_writeAt_right {l v : Bytes} {off o2 k : Nat}
    (h : off + v.length ≤ l.length) (hd : off + v.length ≤ o2) :
    readAt (writeAt l off v) o2 k = readAt l o2 k := by
  apply List.ext_get?
  intro i
  rw [get?_readAt, get?_readAt]
  by_cases hi : i < k
  · rw [if_pos hi, if_pos hi, get?_writeAt _ _ _ _ h, if_neg (by omega)]
  · rw [if_neg hi, if_neg hi]

theorem writeAt_readAt {l : Bytes} {off k : Nat} (h : off + k ≤ l.length) :
    writeAt l off (readAt l off k) = l := by
  have hk : (readAt l off k).length = k := length_readAt h
  apply List.ext_get?
  intro i
  rw [get?_writeAt _ _ _ _ (by rw [hk]; exact h), hk]
  by_cases hi : off ≤ i ∧ i < off + k
  · rw [if_pos hi, get?_readAt, if_pos (by omega)]
    congr 1
    omega
  · rw [if_neg hi]

theorem readAt_split {l : Bytes} {off k1 k2 : Nat} (h : off + k1 + k2 ≤ l.length) :
    readAt l off (k1 + k2) = readAt l off k1 ++ readAt l (off + k1) k2 := by
  have h1 : (readAt l off k1).length = k1 := length_readAt (by omega)
  apply List.ext_get?
  intro i
  rw [get?_readAt]
  by_cases hi : i < k1
  · rw [List.get?_append (by rw [h1]; exact hi), get?_readAt, if_pos hi,
      if_pos (by omega)]
  · rw [List.get?_append_right (by rw [h1]; omega), h1, get?_readAt]
    by_cases hi2 : i < k1 + k2
    · rw [if_pos hi2, if_pos (by omega)]
      congr 1
      omega
    · rw [if_neg hi2, if_neg (by omega)]

theorem readAt_writeAt_around {l v : Bytes} {off o2 k : Nat}
    (h : off + v.length ≤ l.length) (h1 : o2 ≤ off) (h2 : off + v.length ≤ o2 + k)
    (h3 : o2 + k ≤ l.length) :
    readAt (writeAt l off v) o2 k = writeAt (readAt l o2 k) (off - o2) v := by
  have hk : (readAt l o2 k).length = k := length_readAt h3
  apply List.ext_get?
  intro i
  rw [get?_readAt]
  rw [get?_writeAt (readAt l o2 k) v (off - o2) i (by rw [hk]; omega)]
  by_cases hi : i < k
  · rw [if_pos hi, get?_writeAt l v off (o2 + i) h]
    by_cases hin : off - o2 ≤ i ∧ i < off - o2 + v.length
    · rw [if_pos hin, if_pos (by omega)]
      congr 1
      omega
    · rw [if_neg hin, if_neg (by omega), get?_readAt, if_pos hi]
  · rw [if_neg hi, if_neg (by omega), get?_readAt, if_neg hi]

/-! Little-endian integer codec used to serialise header and file-node
fields exactly as the word-aligned C structs lay them out. -/

/-- Encode v as k little-endian bytes. -/
def le : Nat → Nat → Bytes
  | 0, _ => []
  | k + 1, v => v % 256 :: le k (v / 256)

/-- Decode a little-endian byte list. -/
def de (bs : Bytes) : Nat := bs.foldr (fun b acc => b + 256 * acc) 0

@[simp] theorem length_le (k v : Nat) : (le k v).length = k := by
  induction k generalizing v with
  | zero => rfl
  | succ k ih => simp [le, ih]

theorem de_nil : de [] = 0 := rfl

theorem de_cons (b : Nat) (bs : Bytes) : de (b :: bs) = b + 256 * de bs := rfl

theorem de_le (k v : Nat) : de (le k v) = v % 256 ^ k := by
  induction k generalizing v with
  | zero =>
      simp [le, de_nil, Nat.pow_zero, Nat.mod_one]
  | succ k ih =>
      rw [le, de_cons, ih, pow_succ, mul_comm (256 ^ k) 256]
      exact (Nat.mod_mul).symm

theorem le_de (bs : Bytes) (hb : ∀ b ∈ bs, b < 256) : le bs.length (de bs) = bs := by
  induction bs with
  | nil => rfl
  | cons b rest ih =>
      have hb1 : b < 256 := hb b (List.mem_cons_self _ _)
      have hrest : ∀ x ∈ rest, x < 256 := fun x hx => hb x (List.mem_cons_of_mem _ hx)
      simp only [List.length_cons, le, de_cons]
      congr 1
      · rw [Nat.add_mul_mod_self_left, Nat.mod_eq_of_lt hb1]
      · rw [Nat.add_mul_div_left _ _ (by norm_num : 0 < 256), Nat.div_eq_of_lt hb1,
          Nat.zero_add]
        exact ih hrest

theorem le_lt (k v : Nat) : ∀ b ∈ le k v, b < 256 := by
  induction k generalizing v with
  | zero => simp [le]
  | succ k ih =>
      intro b hb
      simp only [le, List.mem_cons] at hb
      rcases hb with h | h
      · subst h
        exact Nat.mod_lt _ (by norm_num)
      · exact ih _ b h

theorem de_lt (bs : Bytes) (hb : ∀ b ∈ bs, b < 256) : de bs < 256 ^ bs.length := by
  induction bs with
  | nil => simp [de_nil]
  | cons b rest ih =>
      have hb1 : b < 256 := hb b (List.mem_cons_self _ _)
      have hrest := ih (fun x hx => hb x (List.mem_cons_of_mem _ hx))
      simp only [de_cons, List.length_cons, pow_succ]
      nlinarith

theorem readAt_self (l : Bytes) : readAt l 0 l.length = l := by
  simp [readAt]

theorem readAt_append_left {A B : Bytes} {o k : Nat} (h : o + k ≤ A.length) :
    readAt (A ++ B) o k = readAt A o k := by
  apply List.ext_get?
  intro i
  rw [get?_readAt, get?_readAt]
  by_cases hi : i < k
  · rw [if_pos hi, if_pos hi, List.get?_append (by omega)]
  · rw [if_neg hi, if_neg hi]

theorem readAt_append_right {A B : Bytes} {o k : Nat} (h : A.length ≤ o) :
    readAt (A ++ B) o k = readAt B (o - A.length) k := by
  apply List.ext_get?
  intro i
  rw [get?_readAt, get?_readAt]
  by_cases hi : i < k
  · rw [if_pos hi, if_pos hi, List.get?_append_right (by omega)]
    congr 1
    omega
  · rw [if_neg hi, if_neg hi]

theorem readAt_readAt {b : Bytes} {o1 k1 o2 k2 : Nat} (h : o2 + k2 ≤ k1) :
    readAt (readAt b o1 k1) o2 k2 = readAt b (o1 + o2) k2 := by
  apply List.ext_get?
  intro i
  rw [get?_readAt, get?_readAt, get?_readAt]
  by_cases hi : i < k2
  · have h2 : o2 + i < k1 := by omega
    rw [if_pos hi, if_pos h2, if_pos hi, Nat.add_assoc]
  · rw [if_neg hi, if_neg hi]

/-! On-media structures.  FFS_SECTOR_HEADER is the 24-byte header at
offset 0 of every sector; FFS_FILE_NODE is the 80-byte record (with two
alignment padding bytes after the 65-byte Filename array) that follows the
header in an IN_USE_FILENODE sector.  Filename holds the raw 65-byte
in-core character array. -/

structure FFS_SECTOR_HEADER where
  Key : Nat
  Next : Nat
  EraseCount : Nat
  Version : Nat
  Status : Nat
  SectorChecksum : Nat
  SectorLength : Nat
  DataOffset : Nat
deriving DecidableEq, Repr

structure FFS_FILE_NODE where
  Permissions : Nat
  Filename : Bytes
  FileSize : Nat
  DataTime : Nat
  Count : Nat
deriving DecidableEq, Repr

/-- Truncate or zero-pad a filename buffer to exactly 65 bytes. -/
def pad65 (b : Bytes) : Bytes := (b ++ List.replicate 65 0).take 65

def encodeHeader (h : FFS_SECTOR_HEADER) : Bytes :=
  le 4 h.Key ++ (le 4 h.Next ++ (le 4 h.EraseCount ++ ([h.Version % 256] ++
    ([h.Status % 256] ++ (le 2 h.SectorChecksum ++ (le 4 h.SectorLength ++
      le 4 h.DataOffset))))))

def decodeHeader (b : Bytes) : FFS_SECTOR_HEADER :=
  { Key := de (readAt b 0 4)
    Next := de (readAt b 4 4)
    EraseCount := de (readAt b 8 4)
    Version := de (readAt b 12 1)
    Status := de (readAt b 13 1)
    SectorChecksum := de (readAt b 14 2)
    SectorLength := de (readAt b 16 4)
    DataOffset := de (readAt b 20 4) }

/-- Bytes the C code passes when it rewrites the 4 bytes starting at the
Version field of a header (Version, Status, SectorChecksum). -/
def statusPatchBytes (h : FFS_SECTOR_HEADER) : Bytes :=
  [h.Version % 256, h.Status % 256] ++ le 2 h.SectorChecksum

def encodeFnode (f : FFS_FILE_NODE) : Bytes :=
  [f.Permissions % 256] ++ (pad65 f.Filename ++ ([0, 0] ++ (le 4 f.FileSize ++
    (le 4 f.DataTime ++ le 4 f.Count))))

def decodeFnode (b : Bytes) : FFS_FILE_NODE :=
  { Permissions := de (readAt b 0 1)
    Filename := readAt b 1 65
    FileSize := de (readAt b 68 4)
    DataTime := de (readAt b 72 4)
    Count := de (readAt b 76 4) }

@[simp] theorem length_pad65 (b : Bytes) : (pad65 b).length = 65 := by
  simp only [pad65, List.length_take, List.length_append, List.length_replicate]
  omega

@[simp] theorem length_encodeHeader (h : FFS_SECTOR_HEADER) :
    (encodeHeader h).length = 24 := by
  simp [encodeHeader]

@[simp] theorem length_encodeFnode (f : FFS_FILE_NODE) :
    (encodeFnode f).length = 80 := by
  simp [encodeFnode]

@[simp] theorem length_statusPatchBytes (h : FFS_SECTOR_HEADER) :
    (statusPatchBytes h).length = 4 := by
  simp [statusPatchBytes]

theorem pad65_eq {b : Bytes} (h : b.length = 65) : pad65 b = b := by
  simp [pad65, List.take_append_of_le_length, h]

theorem readAt_writeAt_inside {l v : Bytes} {off o2 k : Nat}
    (h : off + v.length ≤ l.length) (h1 : off ≤ o2) (h2 : o2 + k ≤ off + v.length) :
    readAt (writeAt l off v) o2 k = readAt v (o2 - off) k := by
  apply List.ext_get?
  intro i
  rw [get?_readAt, get?_readAt]
  by_cases hi : i < k
  · rw [if_pos hi, if_pos hi, get?_writeAt l v off (o2 + i) h, if_pos (by omega)]
    congr 1
    omega
  · rw [if_neg hi, if_neg hi]

theorem readAt_len_self {l : Bytes} {k : Nat} (h : l.length = k) : readAt l 0 k = l := by
  subst h
  exact readAt_self l

theorem readAt_append_exact {A B : Bytes} {o k : Nat} (h : A.length = o) :
    readAt (A ++ B) o k = readAt B 0 k := by
  rw [readAt_append_right (by omega), h, Nat.sub_self]

theorem sz32_eq : SZ32 = 256 ^ 4 := by norm_num [SZ32]

theorem decodeHeader_encodeHeader (h : FFS_SECTOR_HEADER) :
    decodeHeader (encodeHeader h) =
      { Key := h.Key % SZ32
        Next := h.Next % SZ32
        EraseCount := h.EraseCount % SZ32
        Version := h.Version % 256
        Status := h.Status % 256
        SectorChecksum := h.SectorChecksum % 65536
        SectorLength := h.SectorLength % SZ32
        DataOffset := h.DataOffset % SZ32 } := by
  have e4 : ∀ v : Nat, de (le 4 v) = v % SZ32 := by
    intro v
    rw [de_le, sz32_eq]
  have e2 : ∀ v : Nat, de (le 2 v) = v % 65536 := by
    intro v
    rw [de_le]
    norm_num
  simp only [decodeHeader, encodeHeader, FFS_SECTOR_HEADER.mk.injEq]
  refine ⟨?_, ?_, ?_, ?_, ?_, ?_, ?_, ?_⟩
  ·
    rw [readAt_append_left (by simp), readAt_len_self (by simp), e4]
  ·
    rw [readAt_append_exact (by simp), readAt_append_left (by simp),
      readAt_len_self (by simp), e4]
  ·
    rw [readAt_append_right (by simp : (le 4 h.Key).length ≤ 8)]
    simp only [length_le]
    rw [readAt_append_exact (by simp), readAt_append_left (by simp),
      readAt_len_self (by simp), e4]
  ·
    rw [readAt_append_right (by simp : (le 4 h.Key).length ≤ 12)]
    simp only [length_le]
    rw [readAt_append_right (by simp : (le 4 h.Next).length ≤ 8)]
    simp only [length_le]
    rw [readAt_append_exact (by simp), readAt_append_left (by simp)]
    simp [readAt, de_cons, de_nil]
  ·
    rw [readAt_append_right (by simp : (le 4 h.Key).length ≤ 13)]
    simp only [length_le]
    rw [readAt_append_right (by simp : (le 4 h.Next).length ≤ 9)]
    simp only [length_le]
    rw [readAt_append_right (by simp : (le 4 h.EraseCount).length ≤ 5)]
    simp only [length_le]
    rw [readAt_append_exact (by simp), readAt_append_left (by simp)]
    simp [readAt, de_cons, de_nil]
  ·
    rw [readAt_append_right (by simp : (le 4 h.Key).length ≤ 14)]
    simp only [length_le]
    rw [readAt_append_right (by simp : (le 4 h.Next).length ≤ 10)]
    simp only [length_le]
    rw [readAt_append_right (by simp : (le 4 h.EraseCount).length ≤ 6)]
    simp only [length_le]
    rw [readAt_append_right (by simp : ([h.Version % 256] : Bytes).length ≤ 2)]
    simp only [List.length_singleton]
    rw [readAt_append_exact (by simp), readAt_append_left (by simp),
      readAt_len_self (by simp), e2]
  ·
    rw [readAt_append_right (by simp : (le 4 h.Key).length ≤ 16)]
    simp only [length_le]
    rw [readAt_append_right (by simp : (le 4 h.Next).length ≤ 12)]
    simp only [length_le]
    rw [readAt_append_right (by simp : (le 4 h.EraseCount).length ≤ 8)]
    simp only [length_le]
    rw [readAt_append_right (by simp : ([h.Version % 256] : Bytes).length ≤ 4)]
    simp only [List.length_singleton]
    rw [readAt_append_right (by simp : ([h.Status % 256] : Bytes).length ≤ 3)]
    simp only [List.length_singleton]
    rw [readAt_append_exact (by simp), readAt_append_left (by simp),
      readAt_len_self (by simp), e4]
  ·
    rw [readAt_append_right (by simp : (le 4 h.Key).length ≤ 20)]
    simp only [length_le]
    rw [readAt_append_right (by simp : (le 4 h.Next).length ≤ 16)]
    simp only [length_le]
    rw [readAt_append_right (by simp : (le 4 h.EraseCount).length ≤ 12)]
    simp only [length_le]
    rw [readAt_append_right (by simp : ([h.Version % 256] : Bytes).length ≤ 8)]
    simp only [List.length_singleton]
    rw [readAt_append_right (by simp : ([h.Status % 256] : Bytes).length ≤ 7)]
    simp only [List.length_singleton]
    rw [readAt_append_right (by simp : (le 2 h.SectorChecksum).length ≤ 6)]
    simp only [length_le]
    rw [readAt_append_exact (by simp), readAt_len_self (by simp), e4]

theorem decodeFnode_encodeFnode (f : FFS_FILE_NODE) :
    decodeFnode (encodeFnode f) =
      { Permissions := f.Permissions % 256
        Filename := pad65 f.Filename
        FileSize := f.FileSize % SZ32
        DataTime := f.DataTime % SZ32
        Count := f.Count % SZ32 } := by
  have e4 : ∀ v : Nat, de (le 4 v) = v % SZ32 := by
    intro v
    rw [de_le, sz32_eq]
  simp only [decodeFnode, encodeFnode, FFS_FILE_NODE.mk.injEq]
  refine ⟨?_, ?_, ?_, ?_, ?_⟩
  · rw [readAt_append_left (by simp)]
    simp [readAt, de_cons, de_nil]
  · rw [readAt_append_exact (by simp), readAt_append_left (by simp),
      readAt_len_self (by simp)]
  · rw [readAt_append_right (by simp : (([f.Permissions % 256] : Bytes)).length ≤ 68)]
    simp only [List.length_singleton]
    rw [readAt_append_right (by simp : (pad65 f.Filename).length ≤ 67)]
    simp only [length_pad65]
    rw [readAt_append_right (by simp : (([0, 0] : Bytes)).length ≤ 2)]
    simp only [List.length_cons, List.length_nil]
    rw [readAt_append_left (by simp), readAt_len_self (by simp), e4]
  · rw [readAt_append_right (by simp : (([f.Permissions % 256] : Bytes)).length ≤ 72)]
    simp only [List.length_singleton]
    rw [readAt_append_right (by simp : (pad65 f.Filename).length ≤ 71)]
    simp only [length_pad65]
    rw [readAt_append_right (by simp : (([0, 0] : Bytes)).length ≤ 6)]
    simp only [List.length_cons, List.length_nil]
    rw [readAt_append_right (by simp : (le 4 f.FileSize).length ≤ 4)]
    simp only [length_le]
    rw [readAt_append_left (by simp), readAt_len_self (by simp), e4]
  · rw [readAt_append_right (by simp : (([f.Permissions % 256] : Bytes)).length ≤ 76)]
    simp only [List.length_singleton]
    rw [readAt_append_right (by simp : (pad65 f.Filename).length ≤ 75)]
    simp only [length_pad65]
    rw [readAt_append_right (by simp : (([0, 0] : Bytes)).length ≤ 10)]
    simp only [List.length_cons, List.length_nil]
    rw [readAt_append_right (by simp : (le 4 f.FileSize).length ≤ 8)]
    simp only [length_le]
    rw [readAt_append_right (by simp : (le 4 f.DataTime).length ≤ 4)]
    simp only [length_le, Nat.sub_self]
    rw [readAt_len_self (by simp), e4]

/-- Field ranges under which header serialisation round-trips exactly. -/
def HdrWf (h : FFS_SECTOR_HEADER) : Prop :=
  h.Key < SZ32 ∧ h.Next < SZ32 ∧ h.EraseCount < SZ32 ∧ h.Version < 256 ∧
    h.Status < 256 ∧ h.SectorChecksum < 65536 ∧ h.SectorLength < SZ32 ∧
    h.DataOffset < SZ32

/-- Field ranges under which file-node serialisation round-trips exactly. -/
def FnWf (f : FFS_FILE_NODE) : Prop :=
  f.Permissions < 256 ∧ f.Filename.length = 65 ∧ f.FileSize < SZ32 ∧
    f.DataTime < SZ32 ∧ f.Count < SZ32

theorem decodeHeader_encodeHeader_eq {h : FFS_SECTOR_HEADER} (hw : HdrWf h) :
    decodeHeader (encodeHeader h) = h := by
  obtain ⟨h1, h2, h3, h4, h5, h6, h7, h8⟩ := hw
  rw [decodeHeader_encodeHeader]
  cases h
  simp_all [Nat.mod_eq_of_lt]

theorem decodeFnode_encodeFnode_eq {f : FFS_FILE_NODE} (hw : FnWf f) :
    decodeFnode (encodeFnode f) = f := by
  obtain ⟨h1, h2, h3, h4, h5⟩ := hw
  rw [decodeFnode_encodeFnode]
  cases f
  simp_all [Nat.mod_eq_of_lt, pad65_eq]

theorem readAt_encodeHeader_status (h : FFS_SECTOR_HEADER) :
    readAt (encodeHeader h) 12 4 = statusPatchBytes h := by
  rw [encodeHeader, readAt_append_right (by simp : (le 4 h.Key).length ≤ 12)]
  simp only [length_le]
  rw [readAt_append_right (by simp : (le 4 h.Next).length ≤ 8)]
  simp only [length_le]
  rw [readAt_append_exact (by simp)]
  simp [readAt, le, statusPatchBytes]

theorem encodeHeader_lt (h : FFS_SECTOR_HEADER) : ∀ b ∈ encodeHeader h, b < 256 := by
  intro b hb
  have h256 : (0:Nat) < 256 := by norm_num
  simp only [encodeHeader] at hb
  rcases List.mem_append.1 hb with h1 | h1
  · exact le_lt _ _ b h1
  rcases List.mem_append.1 h1 with h2 | h2
  · exact le_lt _ _ b h2
  rcases List.mem_append.1 h2 with h3 | h3
  · exact le_lt _ _ b h3
  rcases List.mem_append.1 h3 with h4 | h4
  · rw [List.mem_singleton.1 h4]
    exact Nat.mod_lt _ h256
  rcases List.mem_append.1 h4 with h5 | h5
  · rw [List.mem_singleton.1 h5]
    exact Nat.mod_lt _ h256
  rcases List.mem_append.1 h5 with h6 | h6
  · exact le_lt _ _ b h6
  rcases List.mem_append.1 h6 with h7 | h7
  · exact le_lt _ _ b h7
  · exact le_lt _ _ b h7

theorem statusPatchBytes_lt (h : FFS_SECTOR_HEADER) :
    ∀ b ∈ statusPatchBytes h, b < 256 := by
  intro b hb
  have h256 : (0:Nat) < 256 := by norm_num
  simp only [statusPatchBytes] at hb
  rcases List.mem_append.1 hb with h1 | h1
  · rcases List.mem_cons.1 h1 with h2 | h2
    · rw [h2]
      exact Nat.mod_lt _ h256
    · rw [List.mem_singleton.1 h2]
      exact Nat.mod_lt _ h256
  · exact le_lt _ _ b h1

theorem encodeFnode_lt {f : FFS_FILE_NODE} (hf : ∀ b ∈ f.Filename, b < 256) :
    ∀ b ∈ encodeFnode f, b < 256 := by
  intro b hb
  have h256 : (0:Nat) < 256 := by norm_num
  simp only [encodeFnode] at hb
  rcases List.mem_append.1 hb with h1 | h1
  · rw [List.mem_singleton.1 h1]
    exact Nat.mod_lt _ h256
  rcases List.mem_append.1 h1 with h2 | h2
  · have hm : b ∈ f.Filename ++ List.replicate 65 0 := List.mem_of_mem_take h2
    rcases List.mem_append.1 hm with hm | hm
    · exact hf b hm
    · rw [List.eq_of_mem_replicate hm]
      exact h256
  rcases List.mem_append.1 h2 with h3 | h3
  · rcases List.mem_cons.1 h3 with h4 | h4
    · rw [h4]
      exact h256
    · rw [List.mem_singleton.1 h4]
      exact h256
  rcases List.mem_append.1 h3 with h4 | h4
  · exact le_lt _ _ b h4
  rcases List.mem_append.1 h4 with h5 | h5
  · exact le_lt _ _ b h5
  · exact le_lt _ _ b h5

/-! Flash section registry (my_ffs.c, GetFlashSectionEntry and friends).
The section table terminates with an entry whose Device is 0xff.  The C
loop, after a failed range test, advances the section pointer and then
subtracts the count of the entry it now points at (the next entry), with
unsigned wraparound; walking past the end of the table is undefined
behaviour and yields none. -/

structure FFS_FLASH_SECTION where
  Device : Nat
  Start : Nat
  Count : Nat
  SectorSize : Nat
deriving DecidableEq, Repr

def GetFlashSectionEntryAux : List FFS_FLASH_SECTION → Nat → Nat → Option (Nat × Nat)
  | [], _, _ => none
  | e :: rest, Sector, idx =>
    if e.Device = 0xff then none
    else if Sector < e.Count then some (idx, Sector)
    else
      match rest with
      | [] => none
      | e2 :: _ => GetFlashSectionEntryAux rest (sub32 Sector e2.Count) (idx + 1)

def GetFlashSectionEntry (tbl : List FFS_FLASH_SECTION) (Sector : Nat) :
    Option (Nat × Nat) :=
  GetFlashSectionEntryAux tbl Sector 0

/-- Section table for a volume with one flash section of N sectors of S
bytes each, followed by the 0xff terminator entry. -/
def sectionTable (N S : Nat) : List FFS_FLASH_SECTION :=
  [{ Device := 0, Start := 0, Count := N, SectorSize := S },
   { Device := 0xff, Start := 0, Count := 0, SectorSize := 0 }]

/-- Count of managed sectors: the C sums Count over entries before the
0xff terminator (the TotalSectors loop at the top of Check). -/
def sectionTableCount (tbl : List FFS_FLASH_SECTION) : Nat :=
  (tbl.takeWhile (fun e => e.Device ≠ 0xff)).foldl (fun acc e => acc + e.Count) 0

theorem getFlashSectionEntry_single (N S g : Nat) :
    GetFlashSectionEntry (sectionTable N S) g =
      if g < N then some (0, g) else none := by
  simp [GetFlashSectionEntry, sectionTable, GetFlashSectionEntryAux]

theorem sectionTableCount_single (N S : Nat) :
    sectionTableCount (sectionTable N S) = N := by
  simp [sectionTableCount, sectionTable, List.takeWhile]

/-! Media: the managed flash contents (one byte list per sector) plus a
trace of the driver write/erase operations issued, in order. -/

inductive Ev where
  | write (sec off : Nat) (bytes : Bytes)
  | erase (sec : Nat)
deriving DecidableEq, Repr

structure Media where
  flash : List Bytes
  trace : List Ev
deriving DecidableEq, Repr

def getSector (fl : List Bytes) (s : Nat) : Bytes := fl.getD s []

def ReadSector (N S : Nat) (fl : List Bytes) (Sector Offset Length : Nat) :
    Except Int Bytes :=
  match GetFlashSectionEntry (sectionTable N S) Sector with
  | none => .error FFS_RC_INVALID_SECTOR_NUMBER
  | some (_, rel) => .ok (readAt (getSector fl rel) Offset Length)

def WriteSector (N S : Nat) (m : Media) (Sector Offset : Nat) (bytes : Bytes) :
    Except Int Media :=
  match GetFlashSectionEntry (sectionTable N S) Sector with
  | none => .error FFS_RC_INVALID_SECTOR_NUMBER
  | some (_, rel) =>
      .ok { flash := m.flash.set rel (writeAt (getSector m.flash rel) Offset bytes)
            trace := m.trace ++ [.write rel Offset bytes] }

def EraseSector (N S : Nat) (m : Media) (Sector : Nat) : Except Int Media :=
  match GetFlashSectionEntry (sectionTable N S) Sector with
  | none => .error FFS_RC_INVALID_SECTOR_NUMBER
  | some (_, rel) =>
      .ok { flash := m.flash.set rel (List.replicate S 255)
            trace := m.trace ++ [.erase rel] }

/-- WriteSector at a call site whose return code the C code discards. -/
def WriteSectorIgn (N S : Nat) (m : Media) (Sector Offset : Nat) (bytes : Bytes) :
    Media :=
  match WriteSector N S m Sector Offset bytes with
  | .ok m' => m'
  | .error _ => m

/-- EraseSector at a call site whose return code the C code discards. -/
def EraseSectorIgn (N S : Nat) (m : Media) (Sector : Nat) : Media :=
  match EraseSector N S m Sector with
  | .ok m' => m'
  | .error _ => m

/-- ReadSector whose rc is discarded; on failure the caller keeps its
stale buffer (passed as prev). -/
def readHdrOr (N S : Nat) (fl : List Bytes) (s : Nat) (prev : FFS_SECTOR_HEADER) :
    FFS_SECTOR_HEADER :=
  match ReadSector N S fl s 0 HDRSIZE with
  | .ok b => decodeHeader b
  | .error _ => prev

def ValidSector (N S Sector : Nat) : Bool :=
  (GetFlashSectionEntry (sectionTable N S) Sector).isSome

/-! File descriptor table. -/

structure FFS_FILE_DESCRIPTOR where
  InUse : Bool
  Flags : Nat
  DeleteOldFile : Bool
  WriteFnode : Bool
  FnodeSector : Nat
  OldFnodeSector : Nat
  Position : Nat
  Fnode : FFS_FILE_NODE
deriving DecidableEq, Repr

def zeroFnode : FFS_FILE_NODE :=
  { Permissions := 0, Filename := List.replicate 65 0, FileSize := 0,
    DataTime := 0, Count := 0 }

def zeroDescriptor : FFS_FILE_DESCRIPTOR :=
  { InUse := false, Flags := 0, DeleteOldFile := false, WriteFnode := false,
    FnodeSector := 0, OldFnodeSector := 0, Position := 0, Fnode := zeroFnode }

def zeroHeader : FFS_SECTOR_HEADER :=
  { Key := 0, Next := 0, EraseCount := 0, Version := 0, Status := 0,
    SectorChecksum := 0, SectorLength := 0, DataOffset := 0 }

def GetDescriptorAux : List FFS_FILE_DESCRIPTOR → Nat → Option Nat
  | [], _ => none
  | d :: rest, i => if !d.InUse then some i else GetDescriptorAux rest (i + 1)

/-- GetDescriptor: first free slot is zeroed (memset) and marked in use. -/
def GetDescriptor (fds : List FFS_FILE_DESCRIPTOR) :
    Option (Nat × List FFS_FILE_DESCRIPTOR) :=
  match GetDescriptorAux fds 0 with
  | none => none
  | some fd => some (fd, fds.set fd { zeroDescriptor with InUse := true })

def FreeDescriptor (fds : List FFS_FILE_DESCRIPTOR) (fd : Nat) :
    List FFS_FILE_DESCRIPTOR :=
  match fds.get? fd with
  | some d => fds.set fd { d with InUse := false }
  | none => fds

/-- Descriptor sanity check shared by close/read/write.  The C test is
fd > FFS_MAX_FILE_DESCRIPTORS || !FileDescriptors[fd].InUse: a value
strictly greater than 2 is rejected without touching the table, any other
value (including 2 and negatives) indexes FileDescriptors[fd]; none marks
that out-of-bounds access. -/
def descriptorCheck (fds : List FFS_FILE_DESCRIPTOR) (fd : Int) : Option Bool :=
  if fd > (FFS_MAX_FILE_DESCRIPTORS : Int) then some true
  else
    match (if 0 ≤ fd then fds.get? fd.toNat else none) with
    | some d => some (!d.InUse)
    | none => none

/-! String handling: ctype toupper, C-string prefix of a buffer, the
in-place StringToUpperCase, and the strcpy/strcmp combinations the C
call sites use. -/

def toupperB (c : Nat) : Nat := if 97 ≤ c ∧ c ≤ 122 then c - 32 else c

/-- C-string contents of a buffer: bytes before the first NUL. -/
def cstr (b : Bytes) : Bytes := b.takeWhile (fun c => decide (c ≠ 0))

/-- StringToUpperCase uppercases the strlen prefix of the buffer in
place; bytes at and after the first NUL are untouched. -/
def StringToUpperCase (b : Bytes) : Bytes :=
  ((cstr b).map toupperB) ++ b.drop (cstr b).length

/-- Combination strcpy-to-temp / StringToUpperCase / strcmp == 0 used for
every case-insensitive filename comparison. -/
def namesEq (a b : Bytes) : Bool :=
  ((cstr a).map toupperB) == ((cstr b).map toupperB)

/-- strcpy of name (with its NUL) over the start of a 65-byte buffer. -/
def strcpyBuf (buf name : Bytes) : Bytes := writeAt buf 0 (name ++ [0])

/-- Filename store used by open(create) and Rename: names of 65 bytes or
more are truncated to 64 bytes plus NUL, shorter names are strcpy-ed. -/
def storeFilename (buf name : Bytes) : Bytes :=
  if name.length ≥ 65 then writeAt buf 0 (name.take 64 ++ [0]) else strcpyBuf buf name

/-! The Jcffs engine state and operations. -/

structure FFSState where
  media : Media
  FileDescriptors : List FFS_FILE_DESCRIPTOR
deriving DecidableEq, Repr

/-- LocateFileNode: scan sectors from 0 while ValidSector; on an
IN_USE_FILENODE sector compare names case-insensitively; first match is
returned with its sector.  none stands for the not-found return with
RtnSector = -1 (the caller's Fnode is left untouched). -/
def LocateFileNodeAux (N S : Nat) (fl : List Bytes) (CompName : Bytes) :
    Nat → Nat → Option (FFS_FILE_NODE × Nat)
  | 0, _ => none
  | fuel + 1, Sector =>
    if ValidSector N S Sector then
      let SecHead := decodeHeader (getSector fl Sector)
      if SecHead.Status = FFS_SECTOR_HEADER_INUSE_FILENODE then
        let Fnode := decodeFnode (readAt (getSector fl Sector) HDRSIZE FNODESIZE)
        if namesEq Fnode.Filename CompName then some (Fnode, Sector)
        else LocateFileNodeAux N S fl CompName fuel (Sector + 1)
      else LocateFileNodeAux N S fl CompName fuel (Sector + 1)
    else none

def LocateFileNode (N S : Nat) (fl : List Bytes) (Filename : Bytes) :
    Option (FFS_FILE_NODE × Nat) :=
  LocateFileNodeAux N S fl Filename (N + 1) 0

/-- FindFreeSector: first sector that has a valid key and FREE or
FREE_DIRTY status, or whose key is not the sanity key (virgin flash, the
built #if 1 branch returns it as free).  The returned header is the raw
header read from that sector. -/
def FindFreeSectorAux (N S : Nat) (fl : List Bytes) :
    Nat → Nat → Option (Nat × FFS_SECTOR_HEADER)
  | 0, _ => none
  | fuel + 1, Sector =>
    if (GetFlashSectionEntry (sectionTable N S) Sector).isSome then
      let SecHeader := decodeHeader (getSector fl Sector)
      if SecHeader.Key = FFS_SECTOR_HEADER_KEY then
        if SecHeader.Status = FFS_SECTOR_HEADER_FREE ∨
            SecHeader.Status = FFS_SECTOR_HEADER_FREE_DIRTY then
          some (Sector, SecHeader)
        else FindFreeSectorAux N S fl fuel (Sector + 1)
      else some (Sector, SecHeader)
    else none

def FindFreeSector (N S : Nat) (fl : List Bytes) : Option (Nat × FFS_SECTOR_HEADER) :=
  FindFreeSectorAux N S fl (N + 1) 0

/-- AllocateSector: find a free sector, build the fresh INUSE header
(Next = -1, EraseCount bumped with 32-bit wrap, DataOffset right after
the header), erase the sector and rewrite the header.  Erase and write
return codes are discarded by the C code. -/
def AllocateSector (N S : Nat) (m : Media) :
    Except Int (Nat × FFS_SECTOR_HEADER × Media) :=
  match FindFreeSector N S m.flash with
  | some (NewSector, h0) =>
      let SecHeader : FFS_SECTOR_HEADER :=
        { Key := FFS_SECTOR_HEADER_KEY, Next := NULLSEC,
          EraseCount := (h0.EraseCount + 1) % SZ32,
          Version := FFS_FILE_SYSTEM_VERSION, Status := FFS_SECTOR_HEADER_INUSE,
          SectorChecksum := 0xffff, SectorLength := S, DataOffset := HDRSIZE }
      let m1 := EraseSectorIgn N S m NewSector
      let m2 := WriteSectorIgn N S m1 NewSector 0 (encodeHeader SecHeader)
      .ok (NewSector, SecHeader, m2)
  | none => .error FFS_RC_OUT_OF_SPACE

/-- AllocateSectorWithFilenode: as AllocateSector, but the status is
IN_USE_FILENODE and DataOffset leaves room for the file node. -/
def AllocateSectorWithFilenode (N S : Nat) (m : Media) :
    Except Int (Nat × FFS_SECTOR_HEADER × Media) :=
  match FindFreeSector N S m.flash with
  | some (NewSector, h0) =>
      let SecHeader : FFS_SECTOR_HEADER :=
        { Key := FFS_SECTOR_HEADER_KEY, Next := NULLSEC,
          EraseCount := (h0.EraseCount + 1) % SZ32,
          Version := FFS_FILE_SYSTEM_VERSION,
          Status := FFS_SECTOR_HEADER_INUSE_FILENODE,
          SectorChecksum := 0xffff, SectorLength := S,
          DataOffset := HDRSIZE + FNODESIZE }
      let m1 := EraseSectorIgn N S m NewSector
      let m2 := WriteSectorIgn N S m1 NewSector 0 (encodeHeader SecHeader)
      .ok (NewSector, SecHeader, m2)
  | none => .error FFS_RC_OUT_OF_SPACE

/-- LocatePosition: walk the chain from the descriptor's fnode sector,
accumulating per-sector payload capacity (all sums with 32-bit wrap, as
the C unsigned arithmetic does), until the sector containing Position;
an unreadable link surfaces its error code. -/
def LocatePositionAux (N S : Nat) (fl : List Bytes) (Position : Nat) :
    Nat → Nat → Nat → Option (Except Int (Nat × FFS_SECTOR_HEADER × Nat))
  | 0, _, _ => none
  | fuel + 1, Sector, Count =>
    match ReadSector N S fl Sector 0 HDRSIZE with
    | .error rc => some (.error rc)
    | .ok b =>
        let SecHead := decodeHeader b
        let cap := sub32 SecHead.SectorLength SecHead.DataOffset
        if Position < (Count + cap) % SZ32 then
          some (.ok (Sector, SecHead, (SecHead.DataOffset + sub32 Position Count) % SZ32))
        else
          LocatePositionAux N S fl Position fuel SecHead.Next ((Count + cap) % SZ32)

def LocatePosition (N S : Nat) (fl : List Bytes) (FnodeSector Position : Nat) :
    Option (Except Int (Nat × FFS_SECTOR_HEADER × Nat)) :=
  LocatePositionAux N S fl Position (N + 1) FnodeSector 0

/-- FreeSectors: walk the chain, flipping each Status to FREE_DIRTY by
rewriting the 4 header bytes at the Version field.  Read and write
return codes are discarded; after a failed read the C code keeps using
the stale header variable, threaded here as prev. -/
def FreeSectorsAux (N S : Nat) :
    Nat → Media → Nat → FFS_SECTOR_HEADER → Option Media
  | 0, _, _, _ => none
  | fuel + 1, m, Sector, prev =>
    if Sector = NULLSEC then some m
    else
      let SecHead := readHdrOr N S m.flash Sector prev
      let NextSector := SecHead.Next
      let patched := { SecHead with Status := FFS_SECTOR_HEADER_FREE_DIRTY }
      let m' := WriteSectorIgn N S m Sector 12 (statusPatchBytes patched)
      FreeSectorsAux N S fuel m' NextSector patched

def FreeSectors (N S : Nat) (m : Media) (Sector : Nat) : Option Media :=
  FreeSectorsAux N S (N + 1) m Sector zeroHeader

/-- Jcffs::open.  Note the create test is the C source's logical
conjunction flags && FFS_CREATE, i.e. flags different from zero; only the
does-not-exist test uses the bitwise flags & FFS_CREATE. -/
def FFSOpen (N S : Nat) (st : FFSState) (Filename : Bytes) (flags permissions : Nat) :
    Int × FFSState :=
  match GetDescriptor st.FileDescriptors with
  | none => (FFS_RC_TOO_MANY_OPEN_FILES, st)
  | some (fd, fds1) =>
    let located := LocateFileNode N S st.media.flash Filename
    let Fdesc0 : FFS_FILE_DESCRIPTOR := { zeroDescriptor with InUse := true }
    let Fdesc1 :=
      match located with
      | some (f, sec) => { Fdesc0 with Fnode := f, FnodeSector := sec }
      | none => { Fdesc0 with FnodeSector := NULLSEC }
    if flags &&& FFS_CREATE = 0 ∧ Fdesc1.FnodeSector = NULLSEC then
      (FFS_RC_FILE_DOES_NOT_EXIST,
        { st with FileDescriptors := FreeDescriptor (fds1.set fd Fdesc1) fd })
    else
      let Fdesc2 :=
        if flags ≠ 0 then
          if Fdesc1.FnodeSector ≠ NULLSEC then
            { Fdesc1 with
              DeleteOldFile := true
              OldFnodeSector := Fdesc1.FnodeSector
              FnodeSector := NULLSEC
              Fnode := { Fdesc1.Fnode with
                           FileSize := 0
                           Permissions := permissions % 256
                           Count := (Fdesc1.Fnode.Count + 1) % SZ32 } }
          else
            { Fdesc1 with
              FnodeSector := NULLSEC
              Fnode := { Fdesc1.Fnode with
                           Filename := storeFilename Fdesc1.Fnode.Filename Filename
                           FileSize := 0
                           Permissions := permissions % 256
                           Count := 0 } }
        else Fdesc1
      let Fdesc3 := { Fdesc2 with Flags := flags % 256 }
      (Int.ofNat fd, { st with FileDescriptors := fds1.set fd Fdesc3 })

/-- Jcffs::close.  Write the fnode out if needed, free the replaced
file's chain if needed, release the descriptor. -/
def FFSClose (N S : Nat) (st : FFSState) (fd : Int) : Option (Int × FFSState) :=
  match descriptorCheck st.FileDescriptors fd with
  | none => none
  | some true => some (FFS_RC_INVALID_FILE_DESCRIPTOR, st)
  | some false =>
    let Fdesc := (st.FileDescriptors.get? fd.toNat).getD zeroDescriptor
    let m1 :=
      if Fdesc.WriteFnode then
        WriteSectorIgn N S st.media Fdesc.FnodeSector HDRSIZE (encodeFnode Fdesc.Fnode)
      else st.media
    match (if Fdesc.DeleteOldFile then FreeSectors N S m1 Fdesc.OldFnodeSector
           else some m1) with
    | none => none
    | some m2 =>
        some (0, { media := m2
                   FileDescriptors := FreeDescriptor st.FileDescriptors fd.toNat })

/-- Read loop of Jcffs::read; returns (return value, final position,
bytes produced in the caller's buffer).  The data-read return code is
discarded by the C code; the next-header read error is returned. -/
def ReadLoopAux (N S : Nat) (fl : List Bytes) :
    Nat → Nat → Nat → FFS_SECTOR_HEADER → Nat → Nat → Nat → Bytes →
      Option (Int × Nat × Bytes)
  | 0, _, _, _, _, _, _, _ => none
  | fuel + 1, n, Sector, SecHead, Offset, Position, TotalRead, acc =>
    if n = 0 then some (Int.ofNat TotalRead, Position, acc)
    else
      let RemLen0 := sub32 SecHead.SectorLength Offset
      let RemLen := if n < RemLen0 then n else RemLen0
      let chunk :=
        match ReadSector N S fl Sector Offset RemLen with
        | .ok b => b
        | .error _ => List.replicate RemLen 0
      let n' := n - RemLen
      let Position' := (Position + RemLen) % SZ32
      let TotalRead' := TotalRead + RemLen
      let acc' := acc ++ chunk
      if n' = 0 then some (Int.ofNat TotalRead', Position', acc')
      else
        match ReadSector N S fl SecHead.Next 0 HDRSIZE with
        | .error rc => some (rc, Position', acc')
        | .ok b =>
            let SecHead' := decodeHeader b
            ReadLoopAux N S fl fuel n' SecHead.Next SecHead' SecHead'.DataOffset
              Position' TotalRead' acc'

/-- Jcffs::read. -/
def FFSRead (N S : Nat) (st : FFSState) (fd : Int) (n : Nat) :
    Option (Int × FFSState × Bytes) :=
  match descriptorCheck st.FileDescriptors fd with
  | none => none
  | some true => some (FFS_RC_INVALID_FILE_DESCRIPTOR, st, [])
  | some false =>
    let Fdesc := (st.FileDescriptors.get? fd.toNat).getD zeroDescriptor
    if Fdesc.Position ≥ Fdesc.Fnode.FileSize then
      some (FFS_RC_INVALID_FILE_POSITION, st, [])
    else
      match LocatePosition N S st.media.flash Fdesc.FnodeSector Fdesc.Position with
      | none => none
      | some (.error rc) => some (rc, st, [])
      | some (.ok (Sector, SecHead, Offset)) =>
          let rem := Fdesc.Fnode.FileSize - Fdesc.Position
          let n1 := if n > rem then rem else n
          match ReadLoopAux N S st.media.flash (n1 + 2) n1 Sector SecHead Offset
              Fdesc.Position 0 [] with
          | none => none
          | some (r, pos', bytes) =>
              some (r,
                { st with FileDescriptors :=
                    st.FileDescriptors.set fd.toNat { Fdesc with Position := pos' } },
                bytes)

/-- Write loop of Jcffs::write: fill the current sector, and while bytes
remain allocate a fresh sector and patch the predecessor's Next field
(4 bytes at offset 4) before continuing there.  Data-write and
chain-patch return codes are discarded by the C code. -/
def WriteLoopAux (N S : Nat) :
    Nat → Media → Bytes → Nat → FFS_SECTOR_HEADER → Nat → FFS_FILE_DESCRIPTOR →
      Nat → Option (Int × Media × FFS_FILE_DESCRIPTOR)
  | 0, _, _, _, _, _, _, _ => none
  | fuel + 1, m, buf, Sector, SecHead, Offset, Fdesc, TotalWritten =>
    if buf.length = 0 then some (Int.ofNat TotalWritten, m, Fdesc)
    else
      let n := buf.length
      let RemLen0 := sub32 SecHead.SectorLength Offset
      let RemLen := if n < RemLen0 then n else RemLen0
      let m1 := WriteSectorIgn N S m Sector Offset (buf.take RemLen)
      let Position' := (Fdesc.Position + RemLen) % SZ32
      let Fdesc1 :=
        { Fdesc with
          Position := Position'
          Fnode := if Position' > Fdesc.Fnode.FileSize then
              { Fdesc.Fnode with FileSize := Position' }
            else Fdesc.Fnode }
      let TotalWritten' := TotalWritten + RemLen
      let buf' := buf.drop RemLen
      if buf'.length = 0 then some (Int.ofNat TotalWritten', m1, Fdesc1)
      else
        match AllocateSector N S m1 with
        | .error rc => some (rc, m1, Fdesc1)
        | .ok (NewSector, SecHead', m2) =>
            let m3 := WriteSectorIgn N S m2 Sector 4 (le 4 NewSector)
            WriteLoopAux N S fuel m3 buf' NewSector SecHead' HDRSIZE Fdesc1
              TotalWritten'

/-- Jcffs::write. -/
def FFSWrite (N S : Nat) (st : FFSState) (fd : Int) (buf : Bytes) :
    Option (Int × FFSState) :=
  match descriptorCheck st.FileDescriptors fd with
  | none => none
  | some true => some (FFS_RC_INVALID_FILE_DESCRIPTOR, st)
  | some false =>
    let Fdesc := (st.FileDescriptors.get? fd.toNat).getD zeroDescriptor
    let run := fun (m : Media) (Sector : Nat) (SecHead : FFS_SECTOR_HEADER)
        (Offset : Nat) (Fdesc' : FFS_FILE_DESCRIPTOR) =>
      match WriteLoopAux N S (buf.length + 2) m buf Sector SecHead Offset Fdesc' 0 with
      | none => none
      | some (r, m', Fdesc'') =>
          some (r, FFSState.mk m'
            (st.FileDescriptors.set fd.toNat Fdesc''))
    if Fdesc.FnodeSector = NULLSEC then
      match AllocateSectorWithFilenode N S st.media with
      | .error rc => some (rc, st)
      | .ok (Sector, SecHead, m1) =>
          run m1 Sector SecHead (HDRSIZE + FNODESIZE)
            { Fdesc with WriteFnode := true, FnodeSector := Sector }
    else
      match LocatePosition N S st.media.flash Fdesc.FnodeSector Fdesc.Position with
      | none => none
      | some (.error rc) => some (rc, st)
      | some (.ok (Sector, SecHead, Offset)) =>
          run st.media Sector SecHead Offset Fdesc

/-- Jcffs::Erase. -/
def FFSErase (N S : Nat) (st : FFSState) (filename : Bytes) :
    Option (Int × FFSState) :=
  match LocateFileNode N S st.media.flash filename with
  | none => some (FFS_RC_FILE_NOT_FOUND, st)
  | some (_, Sector) =>
      match FreeSectors N S st.media Sector with
      | none => none
      | some m' => some (0, { st with media := m' })

/-- Copy loop of Jcffs::Rename: move the head sector's payload in chunks
of at most 100 bytes (the stack Buffer); read and write rcs discarded. -/
def CopyLoopAux (N S : Nat) :
    Nat → Media → Nat → Nat → Nat → Nat → Option Media
  | 0, _, _, _, _, _ => none
  | fuel + 1, m, Sector, NewSector, Offset, Length =>
    if Length = 0 then some m
    else
      let n := if Length < 100 then Length else 100
      let chunk :=
        match ReadSector N S m.flash Sector Offset n with
        | .ok b => b
        | .error _ => List.replicate n 0
      let m' := WriteSectorIgn N S m NewSector Offset chunk
      CopyLoopAux N S fuel m' Sector NewSector ((Offset + n) % SZ32) (Length - n)

/-- Jcffs::Rename.  Allocates a new filenode sector, copies the head
payload, writes the fnode with the new name (Count inherited unchanged),
re-chains the tail and marks the old head FREE_DIRTY. -/
def FFSRename (N S : Nat) (st : FFSState) (filename new_filename : Bytes) :
    Option (Int × FFSState) :=
  match LocateFileNode N S st.media.flash filename with
  | none => some (FFS_RC_FILE_NOT_FOUND, st)
  | some (Fnode, Sector) =>
    match LocateFileNode N S st.media.flash new_filename with
    | some _ => some (FFS_RC_NEW_NAME_EXISTS, st)
    | none =>
      let SecHead0 :=
        match ReadSector N S st.media.flash Sector 0 HDRSIZE with
        | .ok b => decodeHeader b
        | .error _ => zeroHeader
      let Length := sub32 SecHead0.SectorLength SecHead0.DataOffset
      let NextSector := SecHead0.Next
      match AllocateSectorWithFilenode N S st.media with
      | .error rc => some (rc, st)
      | .ok (NewSector, SecHead, m1) =>
        if Length ≠ sub32 SecHead.SectorLength SecHead.DataOffset then
          match FreeSectors N S m1 NewSector with
          | none => none
          | some m2 => some (FFS_RC_OUT_OF_SPACE, { st with media := m2 })
        else
          match CopyLoopAux N S (Length + 1) m1 Sector NewSector SecHead.DataOffset
              Length with
          | none => none
          | some m2 =>
            let Fnode1 := { Fnode with
              Filename := storeFilename Fnode.Filename new_filename }
            let m3 := WriteSectorIgn N S m2 NewSector HDRSIZE (encodeFnode Fnode1)
            let m4 :=
              if NextSector ≠ NULLSEC then
                WriteSectorIgn N S m3 NewSector 4 (le 4 NextSector)
              else m3
            let patched := { SecHead with Status := FFS_SECTOR_HEADER_FREE_DIRTY }
            let m5 := WriteSectorIgn N S m4 Sector 12 (statusPatchBytes patched)
            some (0, { st with media := m5 })

/-! Jcffs::Check.  Three passes: classify every sector into the
SectorArray, reclaim orphans, then resolve duplicate names.  Process-wide
metrics (TotalCrossChain, ErrorSectorCount) are write-only in the source
and are not modelled.  SectorArray indexing mirrors the C array access:
an out-of-range index is undefined behaviour and yields none. -/

/-- SectorArray[i] |= flag, none on an out-of-bounds index. -/
def arrOr (arr : List Nat) (i flag : Nat) : Option (List Nat) :=
  match arr.get? i with
  | some v => some (arr.set i (v ||| flag))
  | none => none

/-- Chain walk of the classification pass: mark every successor sector
CHECK_SECTOR_INUSE, following Next pointers (stale header kept on a
failed read, as in the C). -/
def CheckChainWalkAux (N S : Nat) (fl : List Bytes) :
    Nat → List Nat → Nat → FFS_SECTOR_HEADER → Option (List Nat)
  | 0, _, _, _ => none
  | fuel + 1, arr, NextSector, prev =>
    if NextSector = NULLSEC then some arr
    else
      let SecHeader := readHdrOr N S fl NextSector prev
      match arrOr arr NextSector CHECK_SECTOR_INUSE with
      | none => none
      | some arr' => CheckChainWalkAux N S fl fuel arr' SecHeader.Next SecHeader

/-- Classification pass over sectors [Sector, Sector + remaining). -/
def CheckPhase1Aux (N S : Nat) (fl : List Bytes) (fuel : Nat) :
    Nat → Nat → List Nat → Option (List Nat)
  | 0, _, arr => some arr
  | rem + 1, Sector, arr =>
    let SecHeader := decodeHeader (getSector fl Sector)
    let step1 :=
      if SecHeader.Key ≠ FFS_SECTOR_HEADER_KEY then
        if SecHeader.Status ≠ FFS_SECTOR_HEADER_FREE ∧
            SecHeader.Status ≠ FFS_SECTOR_HEADER_FREE_DIRTY then
          arrOr arr Sector CHECK_SECTOR_BAD
        else some arr
      else some arr
    match step1 with
    | none => none
    | some arr1 =>
      let step2 :=
        if SecHeader.Status = FFS_SECTOR_HEADER_FREE ∨
            SecHeader.Status = FFS_SECTOR_HEADER_FREE_DIRTY then
          arrOr arr1 Sector CHECK_SECTOR_FREE
        else if SecHeader.Status = FFS_SECTOR_HEADER_INUSE then
          some arr1
        else if SecHeader.Status = FFS_SECTOR_HEADER_INUSE_FILENODE then
          let Fnode := decodeFnode (readAt (getSector fl Sector) HDRSIZE FNODESIZE)
          if Fnode.FileSize = 0 ∨ Fnode.FileSize = NULLSEC then
            arrOr arr1 Sector CHECK_SECTOR_BAD
          else
            match arrOr arr1 Sector CHECK_SECTOR_FNODE with
            | none => none
            | some arr2 => CheckChainWalkAux N S fl fuel arr2 SecHeader.Next SecHeader
        else some arr1
      match step2 with
      | none => none
      | some arr3 => CheckPhase1Aux N S fl fuel rem (Sector + 1) arr3

/-- Orphan reclamation pass: a sector not marked INUSE, FNODE or FREE is
rewritten FREE_DIRTY (whole header) or, if BAD, erased. -/
def CheckPhase2Aux (N S : Nat) (arr : List Nat) :
    Nat → Nat → Media → Nat → Media × Nat
  | 0, _, m, fixed => (m, fixed)
  | rem + 1, Sector, m, fixed =>
    let flags := arr.getD Sector 0
    if flags &&& CHECK_SECTOR_INUSE = 0 ∧ flags &&& CHECK_SECTOR_FNODE = 0 ∧
        flags &&& CHECK_SECTOR_FREE = 0 then
      if flags &&& CHECK_SECTOR_BAD = 0 then
        let SecHeader := decodeHeader (getSector m.flash Sector)
        let patched := { SecHeader with Status := FFS_SECTOR_HEADER_FREE_DIRTY }
        let m' := WriteSectorIgn N S m Sector 0 (encodeHeader patched)
        CheckPhase2Aux N S arr rem (Sector + 1) m' (fixed + 1)
      else
        let m' := EraseSectorIgn N S m Sector
        CheckPhase2Aux N S arr rem (Sector + 1) m' (fixed + 1)
    else CheckPhase2Aux N S arr rem (Sector + 1) m fixed

/-- Duplicate-resolution delete walk: mark the chain FREE_DIRTY starting
at DeleteSector, counting fixed sectors; returns the final value of the
shared SecHeader variable (the loop leaves NextSector = -1). -/
def CheckDeleteAux (N S : Nat) :
    Nat → Media → Nat → FFS_SECTOR_HEADER → Nat →
      Option (Media × FFS_SECTOR_HEADER × Nat)
  | 0, _, _, _, _ => none
  | fuel + 1, m, DeleteSector, prev, fixed =>
    if DeleteSector = NULLSEC then some (m, prev, fixed)
    else
      let SecHeader := readHdrOr N S m.flash DeleteSector prev
      let patched := { SecHeader with Status := FFS_SECTOR_HEADER_FREE_DIRTY }
      let m' := WriteSectorIgn N S m DeleteSector 12 (statusPatchBytes patched)
      CheckDeleteAux N S fuel m' SecHeader.Next patched (fixed + 1)

/-- Inner scan of the duplicate-resolution pass.  The loop variable
NextSector is also overwritten by the delete walk (always to -1), so the
for-loop increment then wraps to 0 and rescans from the first sector
unless the walk deleted the outer sector's chain (break). -/
def CheckInnerAux (N S T Sector : Nat) :
    Nat → Media → Nat → FFS_SECTOR_HEADER → FFS_FILE_NODE → Nat →
      Option (Media × FFS_FILE_NODE × Nat)
  | 0, _, _, _, _, _ => none
  | fuel + 1, m, NextSector, staleHdr, Fnode, fixed =>
    if NextSector < T then
      let SecHeader := readHdrOr N S m.flash NextSector staleHdr
      if SecHeader.Status = FFS_SECTOR_HEADER_INUSE_FILENODE then
        let NextFnode := decodeFnode (readAt (getSector m.flash NextSector) HDRSIZE
          FNODESIZE)
        let FnodeU := { Fnode with Filename := StringToUpperCase Fnode.Filename }
        let NextFnodeU :=
          { NextFnode with Filename := StringToUpperCase NextFnode.Filename }
        if cstr FnodeU.Filename = cstr NextFnodeU.Filename then
          let DeleteSector :=
            if FnodeU.Count < NextFnodeU.Count then Sector else NextSector
          match CheckDeleteAux N S (fuel + 1) m DeleteSector SecHeader fixed with
          | none => none
          | some (m', hdr', fixed') =>
            if FnodeU.Count < NextFnodeU.Count then some (m', FnodeU, fixed')
            else CheckInnerAux N S T Sector fuel m' ((NULLSEC + 1) % SZ32) hdr'
              FnodeU fixed'
        else CheckInnerAux N S T Sector fuel m ((NextSector + 1) % SZ32) SecHeader
          FnodeU fixed
      else CheckInnerAux N S T Sector fuel m ((NextSector + 1) % SZ32) SecHeader
        Fnode fixed
    else some (m, Fnode, fixed)

/-- Outer loop of the duplicate-resolution pass. -/
def CheckPhase3Aux (N S T : Nat) (fuel : Nat) :
    Nat → Nat → Media → Nat → Option (Media × Nat)
  | 0, _, m, fixed => some (m, fixed)
  | rem + 1, Sector, m, fixed =>
    let SecHeader := decodeHeader (getSector m.flash Sector)
    if SecHeader.Status = FFS_SECTOR_HEADER_INUSE_FILENODE then
      let Fnode := decodeFnode (readAt (getSector m.flash Sector) HDRSIZE FNODESIZE)
      match CheckInnerAux N S T Sector fuel m (Sector + 1) SecHeader Fnode fixed with
      | none => none
      | some (m', _, fixed') => CheckPhase3Aux N S T fuel rem (Sector + 1) m' fixed'
    else CheckPhase3Aux N S T fuel rem (Sector + 1) m fixed

/-- Jcffs::Check. -/
def FFSCheck (N S : Nat) (fuel : Nat) (st : FFSState) : Option (Int × FFSState) :=
  let T := sectionTableCount (sectionTable N S)
  let arr0 := List.replicate T 0
  match CheckPhase1Aux N S st.media.flash fuel T 0 arr0 with
  | none => none
  | some arr =>
    let (m1, fixed1) := CheckPhase2Aux N S arr T 0 st.media 0
    match CheckPhase3Aux N S T fuel T 0 m1 fixed1 with
    | none => none
    | some (m2, fixed2) => some (Int.ofNat fixed2, { st with media := m2 })

/-! Concrete volumes and session harnesses used to evaluate the
operations on explicit inputs, and the sequencing combinators for the
round-trip properties (open(CREATE), a list of writes that must each
report full success, close; then open(RDONLY) + read). -/

/-- Sector image holding a file head: valid header with
IN_USE_FILENODE status, the file node, then data padded with erased
0xff bytes. -/
def mkFileSector (S : Nat) (name : Bytes) (count size next : Nat) (data : Bytes) :
    Bytes :=
  let h : FFS_SECTOR_HEADER :=
    { Key := FFS_SECTOR_HEADER_KEY, Next := next, EraseCount := 0,
      Version := 1, Status := FFS_SECTOR_HEADER_INUSE_FILENODE,
      SectorChecksum := 0xffff, SectorLength := S, DataOffset := 104 }
  let f : FFS_FILE_NODE :=
    { Permissions := 0, Filename := storeFilename (List.replicate 65 0) name,
      FileSize := size, DataTime := 0, Count := count }
  encodeHeader h ++ (encodeFnode f ++ (data ++ List.replicate (S - 104 - data.length) 255))

/-- Erased, never-formatted sector: all bits one. -/
def virginSector (S : Nat) : Bytes := List.replicate S 255

/-- File table at engine start: both descriptors free. -/
def initFds : List FFS_FILE_DESCRIPTOR := [zeroDescriptor, zeroDescriptor]

/-- Fresh volume: every managed sector erased, no open files. -/
def freshState (N S : Nat) : FFSState :=
  { media := { flash := List.replicate N (virginSector S), trace := [] }
    FileDescriptors := initFds }

/-- The open(CREATE)/write.../close sequence of the spec round-trip: the
result is some final state exactly when open succeeds, every write
returns its full byte count, and close returns 0. -/
def sessionStep (N S : Nat) (fd : Int) :
    Option FFSState → Bytes → Option FFSState := fun acc buf =>
  match acc with
  | none => none
  | some st =>
    match FFSWrite N S st fd buf with
    | some (rc, st2) => if rc = Int.ofNat buf.length then some st2 else none
    | none => none

def createSession (N S : Nat) (name : Bytes) (bufs : List Bytes) : Option FFSState :=
  let r := FFSOpen N S (freshState N S) name FFS_CREATE 0
  if r.1 < 0 then none
  else
    match bufs.foldl (sessionStep N S r.1) (some r.2) with
    | none => none
    | some st =>
      match FFSClose N S st r.1 with
      | some (rc, st') => if rc = 0 then some st' else none
      | none => none

/-- The subsequent open(RDONLY) + read(n) of the round-trip; yields the
read return value and the bytes produced. -/
def readBack (N S : Nat) (st : FFSState) (name : Bytes) (n : Nat) :
    Option (Int × Bytes) :=
  let r := FFSOpen N S st name FFS_RDONLY 0
  if r.1 < 0 then none
  else
    match FFSRead N S r.2 r.1 n with
    | some (rc, _, bytes) => some (rc, bytes)
    | none => none

/-- Volume with one single-sector file named "a" (Count 5, FileSize 1,
one data byte 42) in sector 0 and a virgin sector 1; no open files. -/
def demoState : FFSState :=
  { media := { flash := [mkFileSector 120 [97] 5 1 NULLSEC [42], virginSector 120]
               trace := [] }
    FileDescriptors := initFds }

/-- C2: opening the existing file "a" with FFS_RDWR (CREATE bit clear)
nevertheless takes the create branch, because the source tests
flags && FFS_CREATE (logical and, i.e. flags nonzero): the descriptor is
reset to a new empty file (FnodeSector -1, FileSize 0), the generation
Count is bumped from 5 to 6, and deletion of the old file is scheduled
for close — each contrary to the claim that the CREATE bit alone selects
the create branch. -/
theorem C2_rdwr_takes_create_branch :
    (FFSOpen 2 120 demoState [97] FFS_RDWR 0).1 = 0 ∧
    ((FFSOpen 2 120 demoState [97] FFS_RDWR 0).2.FileDescriptors.get? 0).map
        (fun d => (d.DeleteOldFile, d.FnodeSector, d.Fnode.FileSize, d.Fnode.Count))
      = some (true, NULLSEC, 0, 6) ∧
    FFS_RDWR &&& FFS_CREATE = 0 := by decide

/-- C8: the descriptor sanity check fd > FFS_MAX_FILE_DESCRIPTORS lets
fd = 2 (= FFS_MAX_FILE_DESCRIPTORS, one past the last slot) and every
negative fd through to the FileDescriptors[fd] access, which is out of
bounds for the 2-entry table (modelled as none); close/read/write on
such descriptors therefore do not return INVALID_FILE_DESCRIPTOR without
overrunning the table.  A value of 3 shows the guard itself one step too
late. -/
theorem C8_descriptor_check_out_of_bounds :
    descriptorCheck initFds 2 = none ∧
    descriptorCheck initFds (-1) = none ∧
    FFSClose 2 120 demoState 2 = none ∧
    FFSRead 2 120 demoState 2 1 = none ∧
    FFSWrite 2 120 demoState (-1) [0] = none ∧
    FFSClose 2 120 demoState 3 = some (FFS_RC_INVALID_FILE_DESCRIPTOR, demoState) := by
  decide

deriving instance DecidableEq for Except

/-- Section table with two managed sections of different sector counts
(1 and 2) and the 0xff terminator. -/
def c4table : List FFS_FLASH_SECTION :=
  [{ Device := 0, Start := 0, Count := 1, SectorSize := 128 },
   { Device := 0, Start := 0, Count := 2, SectorSize := 128 },
   { Device := 0xff, Start := 0, Count := 0, SectorSize := 0 }]

/-- Section table with two managed sections of counts 1 and 5. -/
def c4table2 : List FFS_FLASH_SECTION :=
  [{ Device := 0, Start := 0, Count := 1, SectorSize := 128 },
   { Device := 0, Start := 0, Count := 5, SectorSize := 128 },
   { Device := 0xff, Start := 0, Count := 0, SectorSize := 0 }]

/-- C4: the registry subtracts the count of the next section instead of
the current one when stepping through the table.  Global sector 1 lies in
section 1's concatenated range [1, 3) of c4table, so the claim requires
some (1, 0); the code fails the lookup (whence ReadSector and friends
return INVALID_SECTOR_NUMBER for it).  Conversely, global sector 6 is
past the end of c4table2 (total 6), yet the lookup succeeds with
section 1, relative 1. -/
theorem C4_registry_misaligned :
    GetFlashSectionEntry c4table 1 = none ∧ (1 < 1 + 2) ∧
    ReadSector 2 120 demoState.media.flash 5 0 1 =
      .error FFS_RC_INVALID_SECTOR_NUMBER ∧
    GetFlashSectionEntry c4table2 6 = some (1, 1) ∧ (1 + 5 ≤ 6) := by decide

/-- Open-file state over demoStateFull: descriptor 0 holds file "a" with
FileSize 16 and cursor 16 (end of file), whose single-sector chain is
exactly full (payload capacity 120 - 104 = 16). -/
def fullFileFds : List FFS_FILE_DESCRIPTOR :=
  [{ InUse := true, Flags := 2, DeleteOldFile := false, WriteFnode := false,
     FnodeSector := 0, OldFnodeSector := 0, Position := 16,
     Fnode := { Permissions := 0, Filename := storeFilename (List.replicate 65 0) [97]
                FileSize := 16, DataTime := 0, Count := 0 } }, zeroDescriptor]

/-- Volume whose sector 0 is an exactly-full single-sector file "a"
(16 data bytes) and sector 1 is virgin, with that file open at cursor 16
in descriptor 0. -/
def demoStateFull : FFSState :=
  { media := { flash := [mkFileSector 120 [97] 0 16 NULLSEC (List.replicate 16 7),
                 virginSector 120]
               trace := [] }
    FileDescriptors := fullFileFds }

/-- C5: writing one byte at the end of an exactly-full chain fails with
INVALID_SECTOR_NUMBER instead of appending a sector: LocatePosition
walks past the last sector (cursor 16 is not below the accumulated
capacity 16), follows Next = -1 and the sector read fails; the write
returns -5 and changes nothing, where the claim requires it to append
and return 1.  A free sector was available (sector 1 is virgin). -/
theorem C5_eof_write_fails :
    FFSWrite 2 120 demoStateFull 0 [42] =
      some (FFS_RC_INVALID_SECTOR_NUMBER, demoStateFull) ∧
    (decodeFnode (readAt (getSector demoStateFull.media.flash 0) HDRSIZE
      FNODESIZE)).FileSize = 16 ∧
    sub32 (decodeHeader (getSector demoStateFull.media.flash 0)).SectorLength
      (decodeHeader (getSector demoStateFull.media.flash 0)).DataOffset = 16 := by
  decide

/-- Volume with two duplicate single-sector files named "a": sector 0
with generation Count 1, sector 1 with Count 0. -/
def dupState : FFSState :=
  { media := { flash := [mkFileSector 120 [97] 1 1 NULLSEC [10],
                 mkFileSector 120 [97] 0 1 NULLSEC [11]]
               trace := [] }
    FileDescriptors := initFds }

/-- C3: on a volume with exactly two IN_USE_FILENODE sectors of the same
name where the earlier sector has the higher Count, Check marks BOTH
chains FREE_DIRTY: after deleting the later duplicate the inner loop
variable is left at -1 by the delete walk, the for-increment wraps it to
0, and the survivor is compared against itself and deleted too.  The
claim requires the sector-0 file (higher Count) to remain
IN_USE_FILENODE. -/
theorem C3_check_deletes_survivor :
    (FFSCheck 2 120 20 dupState).map (fun p =>
        (p.1,
         (decodeHeader (getSector p.2.media.flash 0)).Status,
         (decodeHeader (getSector p.2.media.flash 1)).Status))
      = some (2, FFS_SECTOR_HEADER_FREE_DIRTY, FFS_SECTOR_HEADER_FREE_DIRTY) ∧
    (decodeFnode (readAt (getSector dupState.media.flash 0) HDRSIZE
      FNODESIZE)).Count = 1 ∧
    (decodeFnode (readAt (getSector dupState.media.flash 1) HDRSIZE
      FNODESIZE)).Count = 0 ∧
    namesEq (decodeFnode (readAt (getSector dupState.media.flash 0) HDRSIZE
        FNODESIZE)).Filename
      (decodeFnode (readAt (getSector dupState.media.flash 1) HDRSIZE
        FNODESIZE)).Filename = true := by decide

/-- C7: renaming "a" (source generation Count 5) to "b" writes the new
head's file node with Count still 5, not the 6 the claim requires; the
rename itself succeeds and preserves FileSize. -/
theorem C7_rename_keeps_count :
    (FFSRename 2 120 demoState [97] [98]).map (fun p =>
        (p.1,
         (decodeFnode (readAt (getSector p.2.media.flash 1) HDRSIZE
           FNODESIZE)).Count,
         (decodeFnode (readAt (getSector p.2.media.flash 1) HDRSIZE
           FNODESIZE)).FileSize))
      = some (0, 5, 1) ∧
    (decodeFnode (readAt (getSector demoState.media.flash 0) HDRSIZE
      FNODESIZE)).Count = 5 := by decide

/-- C6 counterexample: after the successful rename of "a" to "b" on
demoState, open of the old name returns FILE_DOES_NOT_EXIST (-2), not
the FILE_NOT_FOUND (-7) the claim states. -/
theorem C6_open_old_returns_does_not_exist :
    (FFSRename 2 120 demoState [97] [98]).map
        (fun p => (FFSOpen 2 120 p.2 [97] FFS_RDONLY 0).1)
      = some FFS_RC_FILE_DOES_NOT_EXIST ∧
    FFS_RC_FILE_DOES_NOT_EXIST ≠ FFS_RC_FILE_NOT_FOUND := by decide

/-- C1 counterexample: the sequence open("a", CREATE), write(fd, buf, 0),
close succeeds on a fresh volume (the zero-length write returns 0, its
byte count), but the subsequent open(RDONLY) + read returns
INVALID_FILE_POSITION (-4) instead of the 0 bytes written: read rejects
cursor = FileSize = 0 before reading. -/
theorem C1_zero_write_roundtrip_fails :
    ((createSession 2 120 [97] [[]]).bind (fun st => readBack 2 120 st [97] 0))
      = some (FFS_RC_INVALID_FILE_POSITION, []) ∧
    FFS_RC_INVALID_FILE_POSITION ≠ 0 := by decide

/-- Open "a" with CREATE on a fresh two-sector volume and write 20 bytes
(16 fill the filenode sector, 4 spill into a freshly allocated sector),
keeping the driver trace. -/
def spanningWrite : Option (Int × FFSState) :=
  FFSWrite 2 120 (FFSOpen 2 120 (freshState 2 120) [97] FFS_CREATE 0).2 0
    (List.replicate 20 7)

/-- Data write: driver write at or beyond the header (offset ≥ 24) into
the given sector. -/
def isDataWriteTo (s : Nat) (e : Ev) : Bool :=
  match e with
  | .write s' o _ => s' = s && decide (HDRSIZE ≤ o)
  | .erase _ => false

/-- C9 counterexample: in the spanningWrite execution the predecessor's
Next field is patched to the new sector 1 at trace index 5, while the
first (and only) data write into sector 1 happens at index 6, after the
patch; no data write to sector 1 precedes the patch.  The new sector's
header is on media before the patch (index 4), but its data bytes are
not, contradicting the claim's "header and its data bytes" ordering. -/
theorem C9_data_written_after_patch :
    spanningWrite.map (fun p =>
        (p.1,
         p.2.media.trace.get? 5,
         p.2.media.trace.get? 6,
         (p.2.media.trace.take 6).any (isDataWriteTo 1),
         p.2.media.trace.get? 4))
      = some (20,
         some (.write 0 4 (le 4 1)),
         some (.write 1 HDRSIZE (List.replicate 4 7)),
         false,
         some (.write 1 0 (encodeHeader
           { Key := FFS_SECTOR_HEADER_KEY, Next := NULLSEC, EraseCount := 0,
             Version := 1, Status := FFS_SECTOR_HEADER_INUSE,
             SectorChecksum := 0xffff, SectorLength := 120,
             DataOffset := HDRSIZE }))) := by decide

/-! Well-formed chains and the idempotence of FreeSectors. -/

/-- Head of a sector list, or the end-of-chain marker. -/
def headOrNull : List Nat → Nat
  | [] => NULLSEC
  | s :: _ => s

/-- The sector list secs is the Next-linked chain structure on fl: each
sector is managed (< N), is S bytes of byte values, and its header's
Next field names the following list entry (NULLSEC at the end).  This is
all FreeSectors relies on; statuses are unconstrained. -/
def LinkedChain (N S : Nat) (fl : List Bytes) : List Nat → Prop
  | [] => True
  | s :: rest =>
      s < N ∧ (getSector fl s).length = S ∧ (∀ b ∈ getSector fl s, b < 256) ∧
        (decodeHeader (getSector fl s)).Next = headOrNull rest ∧
        LinkedChain N S fl rest

theorem getSector_set_self {fl : List Bytes} {s : Nat} {v : Bytes}
    (h : s < fl.length) : getSector (fl.set s v) s = v := by
  rw [getSector, List.getD_eq_get?, List.get?_set_eq_of_lt v h]
  rfl

theorem getSector_set_ne {fl : List Bytes} {s s' : Nat} {v : Bytes}
    (h : s ≠ s') : getSector (fl.set s v) s' = getSector fl s' := by
  rw [getSector, getSector, List.getD_eq_get?, List.getD_eq_get?,
    List.get?_set_ne v fl h]

theorem set_getSector_self {fl : List Bytes} {s : Nat} :
    fl.set s (getSector fl s) = fl := by
  apply List.ext_get?
  intro i
  by_cases hi : s = i
  · subst hi
    by_cases hs : s < fl.length
    · rw [List.get?_set_eq_of_lt _ hs]
      cases h : fl.get? s with
      | some x =>
          have hgs : getSector fl s = x := by
            rw [getSector, List.getD_eq_get?, h]
            rfl
          rw [hgs]
      | none =>
          have := List.get?_eq_none.1 h
          omega
    · rw [List.set_eq_of_length_le (by omega)]
  · exact List.get?_set_ne _ _ hi

theorem writeAt_lt {l v : Bytes} {off : Nat} (hl : ∀ b ∈ l, b < 256)
    (hv : ∀ b ∈ v, b < 256) : ∀ b ∈ writeAt l off v, b < 256 := by
  intro b hb
  simp only [writeAt] at hb
  rcases List.mem_append.1 hb with h1 | h1
  · exact hl b (List.mem_of_mem_take h1)
  rcases List.mem_append.1 h1 with h2 | h2
  · exact hv b h2
  · exact hl b (List.mem_of_mem_drop h2)

theorem decodeHeader_take (b : Bytes) : decodeHeader (readAt b 0 24) = decodeHeader b := by
  simp only [decodeHeader]
  rw [readAt_readAt (by norm_num), readAt_readAt (by norm_num),
    readAt_readAt (by norm_num), readAt_readAt (by norm_num),
    readAt_readAt (by norm_num), readAt_readAt (by norm_num),
    readAt_readAt (by norm_num), readAt_readAt (by norm_num)]

theorem nodup_lt_length_le {l : List Nat} {n : Nat} (hnd : l.Nodup)
    (hb : ∀ x ∈ l, x < n) : l.length ≤ n := by
  have h1 : l.toFinset.card = l.length := List.toFinset_card_of_nodup hnd
  have h2 : l.toFinset ⊆ Finset.range n := by
    intro x hx
    simp only [List.mem_toFinset] at hx
    exact Finset.mem_range.2 (hb x hx)
  have := Finset.card_le_card h2
  simpa [h1] using this

theorem readAt_lt {l : Bytes} (hb : ∀ b ∈ l, b < 256) (o k : Nat) :
    ∀ b ∈ readAt l o k, b < 256 := by
  intro b hbm
  exact hb b (List.mem_of_mem_drop (List.mem_of_mem_take hbm))

theorem le_one (v : Nat) : le 1 v = [v % 256] := rfl

theorem LinkedChain_mem_lt {N S : Nat} {fl : List Bytes} :
    ∀ {secs : List Nat}, LinkedChain N S fl secs → ∀ s ∈ secs, s < N := by
  intro secs
  induction secs with
  | nil => intro _ s hs; cases hs
  | cons a rest ih =>
      intro hwf s hs
      rcases hwf with ⟨ha, _, _, _, hrest⟩
      rcases List.mem_cons.1 hs with h | h
      · rw [h]; exact ha
      · exact ih hrest s h

/-- A chain stays linked on any flash whose chain sectors keep their
length, byte range and Next field. -/
theorem LinkedChain_preserve {N S : Nat} {fl fl' : List Bytes} :
    ∀ {secs : List Nat},
      (∀ r ∈ secs, (getSector fl' r).length = (getSector fl r).length ∧
        ((∀ b ∈ getSector fl r, b < 256) → (∀ b ∈ getSector fl' r, b < 256)) ∧
        (decodeHeader (getSector fl' r)).Next = (decodeHeader (getSector fl r)).Next) →
      LinkedChain N S fl secs → LinkedChain N S fl' secs := by
  intro secs
  induction secs with
  | nil => intro _ _; trivial
  | cons a rest ih =>
      intro hpres hwf
      rcases hwf with ⟨ha, hlen, hb, hnext, hrest⟩
      obtain ⟨h1, h2, h3⟩ := hpres a (List.mem_cons_self _ _)
      exact ⟨ha, h1.trans hlen, h2 hb, h3.trans hnext,
        ih (fun r hr => hpres r (List.mem_cons_of_mem _ hr)) hrest⟩

/-- A chain stays linked on any flash that agrees on its sectors. -/
theorem LinkedChain_congr {N S : Nat} {fl fl' : List Bytes} {secs : List Nat}
    (heq : ∀ r ∈ secs, getSector fl' r = getSector fl r)
    (hwf : LinkedChain N S fl secs) : LinkedChain N S fl' secs :=
  LinkedChain_preserve
    (fun r hr => by rw [heq r hr]; exact ⟨rfl, fun h => h, rfl⟩) hwf

/-- Unfolding of one FreeSectorsAux step on a managed sector. -/
theorem FreeSectorsAux_step (N S fuel : Nat) (m : Media) (prev : FFS_SECTOR_HEADER)
    (s : Nat) (hs : s < N) (hsn : s ≠ NULLSEC) :
    FreeSectorsAux N S (fuel + 1) m s prev =
      FreeSectorsAux N S fuel
        { flash := m.flash.set s (writeAt (getSector m.flash s) 12
            (statusPatchBytes { decodeHeader (getSector m.flash s) with
              Status := FFS_SECTOR_HEADER_FREE_DIRTY }))
          trace := m.trace ++ [.write s 12
            (statusPatchBytes { decodeHeader (getSector m.flash s) with
              Status := FFS_SECTOR_HEADER_FREE_DIRTY })] }
        (decodeHeader (getSector m.flash s)).Next
        { decodeHeader (getSector m.flash s) with
          Status := FFS_SECTOR_HEADER_FREE_DIRTY } := by
  rw [FreeSectorsAux]
  rw [if_neg hsn]
  have hv : GetFlashSectionEntry (sectionTable N S) s = some (0, s) := by
    rw [getFlashSectionEntry_single, if_pos hs]
  simp only [readHdrOr, ReadSector, hv, HDRSIZE, decodeHeader_take, WriteSectorIgn,
    WriteSector]

/-- Byte image a FreeSectors pass leaves in a chain sector. -/
def dirtied (b : Bytes) : Bytes :=
  writeAt b 12 (statusPatchBytes
    { decodeHeader b with Status := FFS_SECTOR_HEADER_FREE_DIRTY })

theorem dirtied_eq (b : Bytes) :
    writeAt b 12 (statusPatchBytes
      { decodeHeader b with Status := FFS_SECTOR_HEADER_FREE_DIRTY }) = dirtied b := rfl

theorem dirtied_length {b : Bytes} (h : 16 ≤ b.length) :
    (dirtied b).length = b.length := by
  rw [dirtied, length_writeAt]
  simp only [length_statusPatchBytes]
  omega

theorem dirtied_lt {b : Bytes} (hb : ∀ x ∈ b, x < 256) : ∀ x ∈ dirtied b, x < 256 :=
  writeAt_lt hb (statusPatchBytes_lt _)

theorem dirtied_Next {b : Bytes} (h : 16 ≤ b.length) :
    (decodeHeader (dirtied b)).Next = (decodeHeader b).Next := by
  have : readAt (dirtied b) 4 4 = readAt b 4 4 := by
    apply readAt_writeAt_left
    · simp only [length_statusPatchBytes]
      omega
    · omega
  simp only [decodeHeader, dirtied] at this ⊢
  rw [this]

theorem dirtied_Status {b : Bytes} (h : 16 ≤ b.length) :
    (decodeHeader (dirtied b)).Status = FFS_SECTOR_HEADER_FREE_DIRTY := by
  have hin : readAt (dirtied b) 13 1 =
      readAt (statusPatchBytes { decodeHeader b with
        Status := FFS_SECTOR_HEADER_FREE_DIRTY }) 1 1 := by
    have := @readAt_writeAt_inside b
      (statusPatchBytes { decodeHeader b with
        Status := FFS_SECTOR_HEADER_FREE_DIRTY })
      12 13 1
      (by simp only [length_statusPatchBytes]; omega) (by omega)
      (by simp only [length_statusPatchBytes]; omega)
    simpa [dirtied] using this
  simp only [decodeHeader, dirtied] at hin ⊢
  rw [hin]
  rfl

/-- On a sector whose status is already FREE_DIRTY, the 4 bytes
FreeSectors rewrites are exactly the 4 bytes stored there. -/
theorem statusPatch_self {b : Bytes} (hlen : 16 ≤ b.length)
    (hb : ∀ x ∈ b, x < 256)
    (hst : (decodeHeader b).Status = FFS_SECTOR_HEADER_FREE_DIRTY) :
    statusPatchBytes { decodeHeader b with Status := FFS_SECTOR_HEADER_FREE_DIRTY }
      = readAt b 12 4 := by
  have e1 : readAt b 12 4 = readAt b 12 1 ++ (readAt b 13 1 ++ readAt b 14 2) := by
    have h1 := @readAt_split b 12 1 3 (by omega)
    have h2 := @readAt_split b 13 1 2 (by omega)
    norm_num at h1 h2
    rw [h1, h2]
  have hV : readAt b 12 1 = [(decodeHeader b).Version % 256] := by
    have := le_de (readAt b 12 1) (readAt_lt hb 12 1)
    rw [length_readAt (by omega)] at this
    rw [← this, le_one]
    rfl
  have hSt : readAt b 13 1 = [0] := by
    have := le_de (readAt b 13 1) (readAt_lt hb 13 1)
    rw [length_readAt (by omega)] at this
    rw [← this, le_one]
    have : de (readAt b 13 1) = (decodeHeader b).Status := rfl
    rw [this, hst]
    rfl
  have hCk : readAt b 14 2 = le 2 (decodeHeader b).SectorChecksum := by
    have := le_de (readAt b 14 2) (readAt_lt hb 14 2)
    rw [length_readAt (by omega)] at this
    exact this.symm
  rw [e1, hV, hSt, hCk]
  rfl

/-- First FreeSectors pass over a linked chain: it terminates and leaves
every chain sector dirtied and every other sector untouched. -/
theorem FreeSectorsAux_marks (N S : Nat) (hN : N ≤ NULLSEC) (hS : 16 ≤ S) :
    ∀ (secs : List Nat) (m : Media) (prev : FFS_SECTOR_HEADER) (fuel : Nat),
      LinkedChain N S m.flash secs → secs.Nodup → secs.length < fuel →
      m.flash.length = N →
      ∃ m' : Media,
        FreeSectorsAux N S fuel m (headOrNull secs) prev = some m' ∧
        m'.flash.length = N ∧
        (∀ s', s' ∉ secs → getSector m'.flash s' = getSector m.flash s') ∧
        (∀ s' ∈ secs, getSector m'.flash s' = dirtied (getSector m.flash s')) := by
  intro secs
  induction secs with
  | nil =>
      intro m prev fuel _ _ hfuel hflen
      cases fuel with
      | zero => omega
      | succ f =>
          refine ⟨m, ?_, hflen, fun s' _ => rfl,
            fun s' hs' => absurd hs' (List.not_mem_nil s')⟩
          simp [FreeSectorsAux, headOrNull]
  | cons s rest ih =>
      intro m prev fuel hwf hnd hfuel hflen
      rcases hwf with ⟨hs, hlen, hb, hnext, hrest⟩
      have hsn : s ≠ NULLSEC := by omega
      cases fuel with
      | zero => omega
      | succ f =>
          simp only [headOrNull]
          rw [FreeSectorsAux_step N S f m prev s hs hsn, hnext,
            dirtied_eq (getSector m.flash s)]
          set m1 : Media :=
            { flash := m.flash.set s (dirtied (getSector m.flash s))
              trace := m.trace ++ [.write s 12
                (statusPatchBytes { decodeHeader (getSector m.flash s) with
                  Status := FFS_SECTOR_HEADER_FREE_DIRTY })] } with hm1
          have hsrest : s ∉ rest := (List.nodup_cons.1 hnd).1
          have hframe : ∀ r ∈ rest, getSector m1.flash r = getSector m.flash r := by
            intro r hr
            exact getSector_set_ne (fun he => hsrest (he ▸ hr))
          have hwf1 : LinkedChain N S m1.flash rest :=
            LinkedChain_congr hframe hrest
          obtain ⟨m', hrun, hlen', hfr', hdr'⟩ :=
            ih m1 { decodeHeader (getSector m.flash s) with
              Status := FFS_SECTOR_HEADER_FREE_DIRTY } f hwf1 (List.nodup_cons.1 hnd).2
              (by simp only [List.length_cons] at hfuel; omega)
              (by simp [hm1, hflen])
          refine ⟨m', hrun, hlen', ?_, ?_⟩
          · intro s' hs'
            have h1 : s' ∉ rest := fun h => hs' (List.mem_cons_of_mem _ h)
            have h2 : s' ≠ s := fun h => hs' (h ▸ List.mem_cons_self _ _)
            rw [hfr' s' h1, hm1]
            exact getSector_set_ne (fun he => h2 he.symm)
          · intro s' hs'
            rcases List.mem_cons.1 hs' with h | h
            · subst h
              rw [hfr' s' hsrest, hm1]
              exact getSector_set_self (by omega)
            · rw [hdr' s' h, hframe s' h]

/-- Second FreeSectors pass: on a linked chain whose statuses are all
already FREE_DIRTY it rewrites each sector's 4 status bytes with their
current contents, leaving the flash identical. -/
theorem FreeSectorsAux_noop (N S : Nat) (hN : N ≤ NULLSEC) (hS : 16 ≤ S) :
    ∀ (secs : List Nat) (m : Media) (prev : FFS_SECTOR_HEADER) (fuel : Nat),
      LinkedChain N S m.flash secs → secs.length < fuel →
      (∀ s' ∈ secs,
        (decodeHeader (getSector m.flash s')).Status = FFS_SECTOR_HEADER_FREE_DIRTY) →
      ∃ m' : Media,
        FreeSectorsAux N S fuel m (headOrNull secs) prev = some m' ∧
        m'.flash = m.flash := by
  intro secs
  induction secs with
  | nil =>
      intro m prev fuel _ hfuel _
      cases fuel with
      | zero => omega
      | succ f =>
          refine ⟨m, ?_, rfl⟩
          simp [FreeSectorsAux, headOrNull]
  | cons s rest ih =>
      intro m prev fuel hwf hfuel hst
      rcases hwf with ⟨hs, hlen, hb, hnext, hrest⟩
      have hsn : s ≠ NULLSEC := by omega
      cases fuel with
      | zero => omega
      | succ f =>
          simp only [headOrNull]
          rw [FreeSectorsAux_step N S f m prev s hs hsn, hnext]
          have hpatch : statusPatchBytes
              { decodeHeader (getSector m.flash s) with
                Status := FFS_SECTOR_HEADER_FREE_DIRTY }
              = readAt (getSector m.flash s) 12 4 :=
            statusPatch_self (by omega) hb (hst s (List.mem_cons_self _ _))
          have hflash : m.flash.set s (writeAt (getSector m.flash s) 12
              (statusPatchBytes { decodeHeader (getSector m.flash s) with
                Status := FFS_SECTOR_HEADER_FREE_DIRTY })) = m.flash := by
            rw [hpatch, writeAt_readAt (by omega), set_getSector_self]
          rw [hflash]
          obtain ⟨m', hrun, hfl'⟩ :=
            ih { flash := m.flash
                 trace := m.trace ++ [.write s 12
                   (statusPatchBytes { decodeHeader (getSector m.flash s) with
                     Status := FFS_SECTOR_HEADER_FREE_DIRTY })] }
              { decodeHeader (getSector m.flash s) with
                Status := FFS_SECTOR_HEADER_FREE_DIRTY } f hrest
              (by simp only [List.length_cons] at hfuel; omega)
              (fun s' hs' => hst s' (List.mem_cons_of_mem _ hs'))
          exact ⟨m', hrun, hfl'⟩

theorem LinkedChain_mem_len {N S : Nat} {fl : List Bytes} :
    ∀ {secs : List Nat}, LinkedChain N S fl secs →
      ∀ s ∈ secs, (getSector fl s).length = S := by
  intro secs
  induction secs with
  | nil => intro _ s hs; cases hs
  | cons a rest ih =>
      intro hwf s hs
      rcases hwf with ⟨_, hlen, _, _, hrest⟩
      rcases List.mem_cons.1 hs with h | h
      · rw [h]; exact hlen
      · exact ih hrest s h

theorem LinkedChain_mem_bytes {N S : Nat} {fl : List Bytes} :
    ∀ {secs : List Nat}, LinkedChain N S fl secs →
      ∀ s ∈ secs, ∀ b ∈ getSector fl s, b < 256 := by
  intro secs
  induction secs with
  | nil => intro _ s hs; cases hs
  | cons a rest ih =>
      intro hwf s hs
      rcases hwf with ⟨_, _, hb, _, hrest⟩
      rcases List.mem_cons.1 hs with h | h
      · rw [h]; exact hb
      · exact ih hrest s h

/-- C10: FreeSectors is idempotent.  For a well-formed chain (its sector
list linked by Next pointers, within the managed range, each sector S
valid bytes, distinct sectors), the first call succeeds, the second call
succeeds, and the second call leaves the flash contents bit-for-bit
identical to the first call's result: it re-reads each chain sector
(the Next fields were untouched), finds the statuses already FREE_DIRTY,
and rewrites the 4 status-patch bytes with exactly their stored values. -/
theorem C10_FreeSectors_idempotent (N S : Nat) (fl : List Bytes) (t1 t2 : List Ev)
    (secs : List Nat) (hN : N ≤ NULLSEC) (hS : 16 ≤ S) (hfl : fl.length = N)
    (hwf : LinkedChain N S fl secs) (hnd : secs.Nodup) :
    ∃ m1 m2 : Media,
      FreeSectors N S { flash := fl, trace := t1 } (headOrNull secs) = some m1 ∧
      FreeSectors N S { flash := m1.flash, trace := t2 } (headOrNull secs) = some m2 ∧
      m2.flash = m1.flash := by
  have hmem : ∀ s ∈ secs, s < N := LinkedChain_mem_lt hwf
  have hmlen : ∀ s ∈ secs, (getSector fl s).length = S := LinkedChain_mem_len hwf
  have hmb : ∀ s ∈ secs, ∀ b ∈ getSector fl s, b < 256 := LinkedChain_mem_bytes hwf
  have hfuel : secs.length < N + 1 :=
    Nat.lt_succ_of_le (nodup_lt_length_le hnd hmem)
  obtain ⟨m1, hrun1, hlen1, hfr1, hdr1⟩ :=
    FreeSectorsAux_marks N S hN hS secs { flash := fl, trace := t1 } zeroHeader
      (N + 1) hwf hnd hfuel hfl
  have hwf1 : LinkedChain N S m1.flash secs := by
    apply @LinkedChain_preserve N S fl _ secs ?_ hwf
    intro r hr
    rw [hdr1 r hr]
    refine ⟨dirtied_length (by rw [hmlen r hr]; omega), ?_, 
      dirtied_Next (by rw [hmlen r hr]; omega)⟩
    intro hb
    exact dirtied_lt hb
  have hst1 : ∀ s' ∈ secs,
      (decodeHeader (getSector m1.flash s')).Status = FFS_SECTOR_HEADER_FREE_DIRTY := by
    intro s' hs'
    rw [hdr1 s' hs']
    exact dirtied_Status (by rw [hmlen s' hs']; omega)
  obtain ⟨m2, hrun2, hfl2⟩ :=
    FreeSectorsAux_noop N S hN hS secs { flash := m1.flash, trace := t2 } zeroHeader
      (N + 1) hwf1 hfuel hst1
  exact ⟨m1, m2, hrun1, hrun2, hfl2⟩

/-- Single free-standing chain sector used as the C10 witness volume. -/
def c10sector : Bytes :=
  let h : FFS_SECTOR_HEADER :=
    { Key := FFS_SECTOR_HEADER_KEY, Next := NULLSEC, EraseCount := 0,
      Version := 1, Status := FFS_SECTOR_HEADER_INUSE, SectorChecksum := 0xffff,
      SectorLength := 24, DataOffset := 24 }
  encodeHeader h

/-- Witness for C10 on the one-sector chain [0] of a 1-sector volume. -/
theorem C10_witness :
    ∃ m1 m2 : Media,
      FreeSectors 1 24 { flash := [c10sector], trace := [] } (headOrNull [0]) =
        some m1 ∧
      FreeSectors 1 24 { flash := m1.flash, trace := [] } (headOrNull [0]) =
        some m2 ∧
      m2.flash = m1.flash :=
  C10_FreeSectors_idempotent 1 24 [c10sector] [] [] [0] (by decide) (by decide)
    (by decide) ⟨by decide, by decide, by decide, by decide, trivial⟩ (by decide)

/-! Well-formed file chains: the structure write() builds and read(),
Rename() and Check() traverse.  A chain is a sector list whose head is an
IN_USE_FILENODE sector (DataOffset 104) and whose tail sectors are
IN_USE (DataOffset 24), linked by Next fields and NULLSEC-terminated. -/

/-- Data offset of a sector: past header and filenode for a chain head,
past the header only for the others. -/
def hOff (first : Bool) : Nat := if first then HDRSIZE + FNODESIZE else HDRSIZE

/-- Head of a sector list or an explicit terminator value. -/
def headOr (nxt : Nat) : List Nat → Nat
  | [] => nxt
  | s :: _ => s

/-- Well-formed chain sector: managed, S bytes of byte values, header
with the sanity key, the given Next link, the status and data offset of
its chain position, and its own length recorded. -/
def SectorOk (N S : Nat) (fl : List Bytes) (s : Nat) (first : Bool) (next : Nat) :
    Prop :=
  s < N ∧ (getSector fl s).length = S ∧ (∀ b ∈ getSector fl s, b < 256) ∧
    (decodeHeader (getSector fl s)).Key = FFS_SECTOR_HEADER_KEY ∧
    (decodeHeader (getSector fl s)).Next = next ∧
    (decodeHeader (getSector fl s)).Status =
      (if first then FFS_SECTOR_HEADER_INUSE_FILENODE else FFS_SECTOR_HEADER_INUSE) ∧
    (decodeHeader (getSector fl s)).SectorLength = S ∧
    (decodeHeader (getSector fl s)).DataOffset = hOff first

/-- Chain segment: consecutive sectors linked by Next, ending with a
link to nxt. -/
def ChainSeg (N S : Nat) (fl : List Bytes) : List Nat → Bool → Nat → Prop
  | [], _, _ => True
  | s :: rest, first, nxt =>
      SectorOk N S fl s first (headOr nxt rest) ∧ ChainSeg N S fl rest false nxt

/-- Complete chain: a NULLSEC-terminated segment. -/
def ChainOk (N S : Nat) (fl : List Bytes) (secs : List Nat) (first : Bool) : Prop :=
  ChainSeg N S fl secs first NULLSEC

/-- Payload bytes of one chain sector. -/
def payload1 (S : Nat) (fl : List Bytes) (s : Nat) (first : Bool) : Bytes :=
  readAt (getSector fl s) (hOff first) (S - hOff first)

/-- Payload bytes of a chain, in chain order. -/
def chainData (S : Nat) (fl : List Bytes) : List Nat → Bool → Bytes
  | [], _ => []
  | s :: rest, first => payload1 S fl s first ++ chainData S fl rest false

/-- Total payload capacity of a chain. -/
def capSum (S : Nat) : List Nat → Bool → Nat
  | [], _ => 0
  | _ :: rest, first => (S - hOff first) + capSum S rest false

theorem capSum_append (S : Nat) (ys : List Nat) (f2 : Bool) :
    ∀ (xs : List Nat) (f : Bool), (xs = [] → f2 = f) → (xs ≠ [] → f2 = false) →
      capSum S (xs ++ ys) f = capSum S xs f + capSum S ys f2 := by
  intro xs
  induction xs with
  | nil =>
      intro f h1 _
      rw [h1 rfl]
      simp [capSum]
  | cons a rest ih =>
      intro f _ h2
      by_cases hr : rest = []
      · subst hr
        rw [h2 (by simp)]
        cases ys with
        | nil => simp [capSum]
        | cons y ys' => simp [capSum, Nat.add_assoc]
      · have := ih false (fun h => absurd h hr) (fun _ => h2 (by simp))
        simp only [List.cons_append, capSum, List.append_eq, this, Nat.add_assoc]

theorem chainData_append (S : Nat) (fl : List Bytes) (ys : List Nat) (f2 : Bool) :
    ∀ (xs : List Nat) (f : Bool), (xs = [] → f2 = f) → (xs ≠ [] → f2 = false) →
      chainData S fl (xs ++ ys) f = chainData S fl xs f ++ chainData S fl ys f2 := by
  intro xs
  induction xs with
  | nil =>
      intro f h1 _
      rw [h1 rfl]
      simp [chainData]
  | cons a rest ih =>
      intro f _ h2
      by_cases hr : rest = []
      · subst hr
        rw [h2 (by simp)]
        cases ys with
        | nil => simp [chainData]
        | cons y ys' => simp [chainData]
      · have := ih false (fun h => absurd h hr) (fun _ => h2 (by simp))
        simp only [List.cons_append, chainData, List.append_eq, this,
          List.append_assoc]

theorem ChainSeg_mem_lt {N S : Nat} {fl : List Bytes} :
    ∀ {secs : List Nat} {f : Bool} {nxt : Nat}, ChainSeg N S fl secs f nxt →
      ∀ s ∈ secs, s < N := by
  intro secs
  induction secs with
  | nil => intro _ _ _ s hs; cases hs
  | cons a rest ih =>
      intro f nxt hwf s hs
      rcases hwf with ⟨⟨ha, _⟩, hrest⟩
      rcases List.mem_cons.1 hs with h | h
      · rw [h]; exact ha
      · exact ih hrest s h

theorem ChainSeg_mem_len {N S : Nat} {fl : List Bytes} :
    ∀ {secs : List Nat} {f : Bool} {nxt : Nat}, ChainSeg N S fl secs f nxt →
      ∀ s ∈ secs, (getSector fl s).length = S := by
  intro secs
  induction secs with
  | nil => intro _ _ _ s hs; cases hs
  | cons a rest ih =>
      intro f nxt hwf s hs
      rcases hwf with ⟨⟨_, hl, _⟩, hrest⟩
      rcases List.mem_cons.1 hs with h | h
      · rw [h]; exact hl
      · exact ih hrest s h

/-- A chain segment survives any flash change that leaves its sectors'
bytes untouched. -/
theorem ChainSeg_congr {N S : Nat} {fl fl' : List Bytes} :
    ∀ {secs : List Nat} {f : Bool} {nxt : Nat},
      (∀ r ∈ secs, getSector fl' r = getSector fl r) →
      ChainSeg N S fl secs f nxt → ChainSeg N S fl' secs f nxt := by
  intro secs
  induction secs with
  | nil => intro _ _ _ _; trivial
  | cons a rest ih =>
      intro f nxt heq hwf
      rcases hwf with ⟨hok, hrest⟩
      refine ⟨?_, ih (fun r hr => heq r (List.mem_cons_of_mem _ hr)) hrest⟩
      rw [SectorOk] at hok ⊢
      rw [heq a (List.mem_cons_self _ _)]
      exact hok

theorem chainData_congr {S : Nat} {fl fl' : List Bytes} :
    ∀ {secs : List Nat} {f : Bool},
      (∀ r ∈ secs, getSector fl' r = getSector fl r) →
      chainData S fl' secs f = chainData S fl secs f := by
  intro secs
  induction secs with
  | nil => intro _ _; rfl
  | cons a rest ih =>
      intro f heq
      simp only [chainData, payload1, heq a (List.mem_cons_self _ _),
        ih (fun r hr => heq r (List.mem_cons_of_mem _ hr))]

theorem chainData_length {N S : Nat} {fl : List Bytes} (hS : 104 ≤ S) :
    ∀ {secs : List Nat} {f : Bool} {nxt : Nat}, ChainSeg N S fl secs f nxt →
      (chainData S fl secs f).length = capSum S secs f := by
  intro secs
  induction secs with
  | nil => intro _ _ _; rfl
  | cons a rest ih =>
      intro f nxt hwf
      rcases hwf with ⟨⟨_, hl, _⟩, hrest⟩
      simp only [chainData, capSum, List.length_append, payload1]
      rw [length_readAt]
      · rw [ih hrest]
      · rw [hl]
        have : hOff f ≤ S := by
          rw [hOff]
          split
          · simpa [HDRSIZE, FNODESIZE] using hS
          · simp only [HDRSIZE]
            omega
        omega

theorem sub32_small {a b : Nat} (h1 : b ≤ a) (h2 : a < SZ32) : sub32 a b = a - b := by
  have hb : b % SZ32 = b := Nat.mod_eq_of_lt (by omega)
  rw [sub32, hb]
  have he : a + (SZ32 - b) = SZ32 + (a - b) := by omega
  rw [he, Nat.add_mod_left, Nat.mod_eq_of_lt (by omega)]

theorem mod32_small {a : Nat} (h : a < SZ32) : a % SZ32 = a := Nat.mod_eq_of_lt h

/-- Header fields are unchanged by a write at or past the header end. -/
theorem decodeHeader_writeAt_data {b v : Bytes} {o : Nat} (h1 : 24 ≤ o)
    (h2 : o + v.length ≤ b.length) :
    decodeHeader (writeAt b o v) = decodeHeader b := by
  simp only [decodeHeader]
  rw [readAt_writeAt_left h2 (by omega), readAt_writeAt_left h2 (by omega),
    readAt_writeAt_left h2 (by omega), readAt_writeAt_left h2 (by omega),
    readAt_writeAt_left h2 (by omega), readAt_writeAt_left h2 (by omega),
    readAt_writeAt_left h2 (by omega), readAt_writeAt_left h2 (by omega)]

/-- Patching the 4 Next bytes rewrites exactly the Next field. -/
theorem decodeHeader_writeAt_next {b : Bytes} {a : Nat} (h : 24 ≤ b.length) :
    decodeHeader (writeAt b 4 (le 4 a)) = { decodeHeader b with Next := a % SZ32 } := by
  have hv : (le 4 a).length = 4 := length_le 4 a
  have hlen : (4 : Nat) + (le 4 a).length ≤ b.length := by
    rw [hv]
    omega
  simp only [decodeHeader, FFS_SECTOR_HEADER.mk.injEq]
  refine ⟨?_, ?_, ?_, ?_, ?_, ?_, ?_, ?_⟩
  · rw [readAt_writeAt_left hlen (by omega)]
  · have hself := @readAt_writeAt_self b (le 4 a) 4 hlen
    rw [hv] at hself
    rw [hself, de_le, sz32_eq]
  · rw [readAt_writeAt_right hlen (by rw [hv])]
  · rw [readAt_writeAt_right hlen (by rw [hv]; norm_num)]
  · rw [readAt_writeAt_right hlen (by rw [hv]; norm_num)]
  · rw [readAt_writeAt_right hlen (by rw [hv]; norm_num)]
  · rw [readAt_writeAt_right hlen (by rw [hv]; norm_num)]
  · rw [readAt_writeAt_right hlen (by rw [hv]; norm_num)]

/-- Reads at or past offset 8 are unchanged by a Next patch. -/
theorem readAt_writeAt_next {b : Bytes} {a o k : Nat}
    (hb : 4 + (le 4 a).length ≤ b.length) (ho : 8 ≤ o) :
    readAt (writeAt b 4 (le 4 a)) o k = readAt b o k :=
  readAt_writeAt_right hb (by simp only [length_le]; omega)

/-- Taking through a spliced write yields prefix plus written bytes. -/
theorem take_writeAt {l v : Bytes} {j : Nat} (h : j + v.length ≤ l.length) :
    (writeAt l j v).take (j + v.length) = l.take j ++ v := by
  apply List.ext_get?
  intro i
  rw [List.get?_take_eq_if]
  by_cases hi : i < j + v.length
  · rw [if_pos hi, get?_writeAt l v j i h]
    by_cases hij : i < j
    · rw [if_neg (by omega), List.get?_append (by simp only [List.length_take]; omega)]
      exact (List.get?_take hij).symm
    · rw [if_pos (by omega),
        List.get?_append_right (by simp only [List.length_take]; omega)]
      congr 1
      simp only [List.length_take]
      omega
  · rw [if_neg hi]
    symm
    apply (List.get?_eq_none).2
    simp only [List.length_append, List.length_take]
    omega

theorem WriteSectorIgn_valid {N S : Nat} {m : Media} {s o : Nat} {v : Bytes}
    (hs : s < N) :
    WriteSectorIgn N S m s o v =
      { flash := m.flash.set s (writeAt (getSector m.flash s) o v)
        trace := m.trace ++ [.write s o v] } := by
  rw [WriteSectorIgn, WriteSector, getFlashSectionEntry_single, if_pos hs]

theorem EraseSectorIgn_valid {N S : Nat} {m : Media} {s : Nat} (hs : s < N) :
    EraseSectorIgn N S m s =
      { flash := m.flash.set s (List.replicate S 255)
        trace := m.trace ++ [.erase s] } := by
  rw [EraseSectorIgn, EraseSector, getFlashSectionEntry_single, if_pos hs]

theorem FindFreeSectorAux_sound {N S : Nat} {fl : List Bytes} :
    ∀ {fuel Sector a : Nat} {h0 : FFS_SECTOR_HEADER},
      FindFreeSectorAux N S fl fuel Sector = some (a, h0) →
      a < N ∧ h0 = decodeHeader (getSector fl a) ∧
        (h0.Key ≠ FFS_SECTOR_HEADER_KEY ∨
         (h0.Status = FFS_SECTOR_HEADER_FREE ∨
          h0.Status = FFS_SECTOR_HEADER_FREE_DIRTY)) := by
  intro fuel
  induction fuel with
  | zero => intro Sector a h0 h; exact absurd h (by simp [FindFreeSectorAux])
  | succ f ih =>
      intro Sector a h0 h
      rw [FindFreeSectorAux] at h
      by_cases hv : Sector < N
      · rw [if_pos (by rw [getFlashSectionEntry_single, if_pos hv]; rfl)] at h
        by_cases hk : (decodeHeader (getSector fl Sector)).Key = FFS_SECTOR_HEADER_KEY
        · rw [if_pos hk] at h
          by_cases hf : (decodeHeader (getSector fl Sector)).Status =
              FFS_SECTOR_HEADER_FREE ∨
              (decodeHeader (getSector fl Sector)).Status =
                FFS_SECTOR_HEADER_FREE_DIRTY
          · rw [if_pos hf] at h
            simp only [Option.some.injEq, Prod.mk.injEq] at h
            obtain ⟨h1, h2⟩ := h
            subst h1
            subst h2
            exact ⟨hv, rfl, Or.inr hf⟩
          · rw [if_neg hf] at h
            exact ih h
        · rw [if_neg hk] at h
          simp only [Option.some.injEq, Prod.mk.injEq] at h
          obtain ⟨h1, h2⟩ := h
          subst h1
          subst h2
          exact ⟨hv, rfl, Or.inl hk⟩
      · rw [if_neg (by rw [getFlashSectionEntry_single, if_neg hv]; simp)] at h
        cases h

theorem decodeHeader_writeAt_zero {l : Bytes} {h : FFS_SECTOR_HEADER}
    (hl : 24 ≤ l.length) :
    decodeHeader (writeAt l 0 (encodeHeader h)) = decodeHeader (encodeHeader h) := by
  have hlen : (0 : Nat) + (encodeHeader h).length ≤ l.length := by
    simp only [length_encodeHeader]
    omega
  simp only [decodeHeader]
  rw [readAt_writeAt_inside hlen (by omega) (by simp),
    readAt_writeAt_inside hlen (by omega) (by simp),
    readAt_writeAt_inside hlen (by omega) (by simp),
    readAt_writeAt_inside hlen (by omega) (by simp),
    readAt_writeAt_inside hlen (by omega) (by simp),
    readAt_writeAt_inside hlen (by omega) (by simp),
    readAt_writeAt_inside hlen (by omega) (by simp),
    readAt_writeAt_inside hlen (by omega) (by simp)]

/-- The header AllocateSector constructs for a plain data sector. -/
def allocHeader (S ec : Nat) : FFS_SECTOR_HEADER :=
  { Key := FFS_SECTOR_HEADER_KEY, Next := NULLSEC, EraseCount := (ec + 1) % SZ32,
    Version := FFS_FILE_SYSTEM_VERSION, Status := FFS_SECTOR_HEADER_INUSE,
    SectorChecksum := 0xffff, SectorLength := S, DataOffset := HDRSIZE }

/-- The header AllocateSectorWithFilenode constructs. -/
def allocFnodeHeader (S ec : Nat) : FFS_SECTOR_HEADER :=
  { Key := FFS_SECTOR_HEADER_KEY, Next := NULLSEC, EraseCount := (ec + 1) % SZ32,
    Version := FFS_FILE_SYSTEM_VERSION,
    Status := FFS_SECTOR_HEADER_INUSE_FILENODE,
    SectorChecksum := 0xffff, SectorLength := S, DataOffset := HDRSIZE + FNODESIZE }

theorem AllocateSector_spec {N S : Nat} {m : Media} {a : Nat}
    {h : FFS_SECTOR_HEADER} {m' : Media} (hflen : m.flash.length = N)
    (hrun : AllocateSector N S m = .ok (a, h, m')) :
    a < N ∧
    ((decodeHeader (getSector m.flash a)).Key ≠ FFS_SECTOR_HEADER_KEY ∨
     (decodeHeader (getSector m.flash a)).Status = FFS_SECTOR_HEADER_FREE ∨
     (decodeHeader (getSector m.flash a)).Status = FFS_SECTOR_HEADER_FREE_DIRTY) ∧
    h = allocHeader S (decodeHeader (getSector m.flash a)).EraseCount ∧
    m'.flash = m.flash.set a (writeAt (List.replicate S 255) 0 (encodeHeader h)) ∧
    m'.trace = m.trace ++ [.erase a, .write a 0 (encodeHeader h)] := by
  rw [AllocateSector] at hrun
  cases hff : FindFreeSector N S m.flash with
  | none => rw [hff] at hrun; cases hrun
  | some p =>
      obtain ⟨a0, h0⟩ := p
      rw [hff] at hrun
      obtain ⟨ha0, hdec, hst⟩ := FindFreeSectorAux_sound hff
      simp only [Except.ok.injEq, Prod.mk.injEq] at hrun
      obtain ⟨h1, h2, h3⟩ := hrun
      subst h1
      subst h2
      subst h3
      subst hdec
      refine ⟨ha0, hst, rfl, ?_, ?_⟩
      · rw [EraseSectorIgn_valid ha0, WriteSectorIgn_valid ha0]
        simp only
        rw [getSector_set_self (by omega), List.set_set]
      · rw [EraseSectorIgn_valid ha0, WriteSectorIgn_valid ha0]
        simp [List.append_assoc]

theorem AllocateSectorWithFilenode_spec {N S : Nat} {m : Media} {a : Nat}
    {h : FFS_SECTOR_HEADER} {m' : Media} (hflen : m.flash.length = N)
    (hrun : AllocateSectorWithFilenode N S m = .ok (a, h, m')) :
    a < N ∧
    ((decodeHeader (getSector m.flash a)).Key ≠ FFS_SECTOR_HEADER_KEY ∨
     (decodeHeader (getSector m.flash a)).Status = FFS_SECTOR_HEADER_FREE ∨
     (decodeHeader (getSector m.flash a)).Status = FFS_SECTOR_HEADER_FREE_DIRTY) ∧
    h = allocFnodeHeader S (decodeHeader (getSector m.flash a)).EraseCount ∧
    m'.flash = m.flash.set a (writeAt (List.replicate S 255) 0 (encodeHeader h)) ∧
    m'.trace = m.trace ++ [.erase a, .write a 0 (encodeHeader h)] := by
  rw [AllocateSectorWithFilenode] at hrun
  cases hff : FindFreeSector N S m.flash with
  | none => rw [hff] at hrun; cases hrun
  | some p =>
      obtain ⟨a0, h0⟩ := p
      rw [hff] at hrun
      obtain ⟨ha0, hdec, hst⟩ := FindFreeSectorAux_sound hff
      simp only [Except.ok.injEq, Prod.mk.injEq] at hrun
      obtain ⟨h1, h2, h3⟩ := hrun
      subst h1
      subst h2
      subst h3
      subst hdec
      refine ⟨ha0, hst, rfl, ?_, ?_⟩
      · rw [EraseSectorIgn_valid ha0, WriteSectorIgn_valid ha0]
        simp only
        rw [getSector_set_self (by omega), List.set_set]
      · rw [EraseSectorIgn_valid ha0, WriteSectorIgn_valid ha0]
        simp [List.append_assoc]

/-- Chain sectors carry the sanity key and an in-use status, so the
free-sector scan never returns one of them. -/
theorem ChainSeg_mem_key_status {N S : Nat} {fl : List Bytes} :
    ∀ {secs : List Nat} {f : Bool} {nxt : Nat}, ChainSeg N S fl secs f nxt →
      ∀ s ∈ secs, (decodeHeader (getSector fl s)).Key = FFS_SECTOR_HEADER_KEY ∧
        ((decodeHeader (getSector fl s)).Status = FFS_SECTOR_HEADER_INUSE_FILENODE ∨
         (decodeHeader (getSector fl s)).Status = FFS_SECTOR_HEADER_INUSE) := by
  intro secs
  induction secs with
  | nil => intro _ _ _ s hs; cases hs
  | cons a rest ih =>
      intro f nxt hwf s hs
      rcases hwf with ⟨⟨_, _, _, hk, _, hst, _, _⟩, hrest⟩
      rcases List.mem_cons.1 hs with h | h
      · subst h
        refine ⟨hk, ?_⟩
        rw [hst]
        by_cases hfv : f
        · simp [hfv]
        · simp [hfv]
      · exact ih hrest s h

theorem alloc_not_mem {N S : Nat} {fl : List Bytes} {a : Nat}
    {secs : List Nat} {f : Bool} {nxt : Nat}
    (hseg : ChainSeg N S fl secs f nxt)
    (hfree : (decodeHeader (getSector fl a)).Key ≠ FFS_SECTOR_HEADER_KEY ∨
      (decodeHeader (getSector fl a)).Status = FFS_SECTOR_HEADER_FREE ∨
      (decodeHeader (getSector fl a)).Status = FFS_SECTOR_HEADER_FREE_DIRTY) :
    a ∉ secs := by
  intro hmem
  obtain ⟨hk, hst⟩ := ChainSeg_mem_key_status hseg a hmem
  rcases hfree with h | h | h
  · exact h hk
  · rcases hst with h2 | h2 <;> rw [h] at h2 <;> simp
      [FFS_SECTOR_HEADER_FREE, FFS_SECTOR_HEADER_INUSE,
       FFS_SECTOR_HEADER_INUSE_FILENODE] at h2
  · rcases hst with h2 | h2 <;> rw [h] at h2 <;> simp
      [FFS_SECTOR_HEADER_FREE_DIRTY, FFS_SECTOR_HEADER_INUSE,
       FFS_SECTOR_HEADER_INUSE_FILENODE] at h2

theorem allocBytes_length {S : Nat} (hS : 24 ≤ S) (h : FFS_SECTOR_HEADER) :
    (writeAt (List.replicate S 255) 0 (encodeHeader h)).length = S := by
  rw [length_writeAt]
  · simp
  · simp only [length_encodeHeader, List.length_replicate]
    omega

theorem allocBytes_lt {S : Nat} (h : FFS_SECTOR_HEADER) :
    ∀ x ∈ writeAt (List.replicate S 255) 0 (encodeHeader h), x < 256 := by
  apply writeAt_lt
  · intro x hx
    rw [List.eq_of_mem_replicate hx]
    norm_num
  · exact encodeHeader_lt h

theorem allocBytes_decode {S : Nat} (hS : 24 ≤ S) (h : FFS_SECTOR_HEADER) :
    decodeHeader (writeAt (List.replicate S 255) 0 (encodeHeader h)) =
      decodeHeader (encodeHeader h) :=
  decodeHeader_writeAt_zero (by simp only [List.length_replicate]; omega)

/-- The sector AllocateSector just produced is a well-formed plain chain
sector with no successor. -/
theorem SectorOk_alloc_plain {N S : Nat} {fl : List Bytes} {a ec : Nat}
    (hS1 : 24 ≤ S) (hS2 : S < SZ32) (hflen : fl.length = N) (ha : a < N) :
    SectorOk N S
      (fl.set a (writeAt (List.replicate S 255) 0 (encodeHeader (allocHeader S ec))))
      a false NULLSEC := by
  have hget : getSector
      (fl.set a (writeAt (List.replicate S 255) 0 (encodeHeader (allocHeader S ec))))
      a = writeAt (List.replicate S 255) 0 (encodeHeader (allocHeader S ec)) :=
    getSector_set_self (by omega)
  rw [SectorOk, hget]
  refine ⟨ha, allocBytes_length hS1 _, allocBytes_lt _, ?_⟩
  rw [allocBytes_decode hS1, decodeHeader_encodeHeader]
  rw [allocHeader]
  refine ⟨?_, ?_, ?_, ?_, ?_⟩
  · norm_num [FFS_SECTOR_HEADER_KEY, SZ32]
  · norm_num [NULLSEC, SZ32]
  · norm_num [FFS_SECTOR_HEADER_INUSE]
  · exact mod32_small hS2
  · norm_num [hOff, HDRSIZE, SZ32]

/-- The sector AllocateSectorWithFilenode just produced is a well-formed
chain-head sector with no successor. -/
theorem SectorOk_alloc_fnode {N S : Nat} {fl : List Bytes} {a ec : Nat}
    (hS1 : 24 ≤ S) (hS2 : S < SZ32) (hflen : fl.length = N) (ha : a < N) :
    SectorOk N S
      (fl.set a (writeAt (List.replicate S 255) 0
        (encodeHeader (allocFnodeHeader S ec))))
      a true NULLSEC := by
  have hget : getSector
      (fl.set a (writeAt (List.replicate S 255) 0
        (encodeHeader (allocFnodeHeader S ec))))
      a = writeAt (List.replicate S 255) 0 (encodeHeader (allocFnodeHeader S ec)) :=
    getSector_set_self (by omega)
  rw [SectorOk, hget]
  refine ⟨ha, allocBytes_length hS1 _, allocBytes_lt _, ?_⟩
  rw [allocBytes_decode hS1, decodeHeader_encodeHeader]
  rw [allocFnodeHeader]
  refine ⟨?_, ?_, ?_, ?_, ?_⟩
  · norm_num [FFS_SECTOR_HEADER_KEY, SZ32]
  · norm_num [NULLSEC, SZ32]
  · norm_num [FFS_SECTOR_HEADER_INUSE_FILENODE]
  · exact mod32_small hS2
  · norm_num [hOff, HDRSIZE, FNODESIZE, SZ32]

/-! Crash-ordering property of the write trace: every Next patch (a
4-byte driver write at offset 4) is preceded by a full header write of
the sector it points at. -/

def PatchOk (tr : List Ev) : Prop :=
  ∀ i s v, tr.get? i = some (.write s 4 v) →
    ∃ j a hb, j < i ∧ tr.get? j = some (.write a 0 hb) ∧ v = le 4 a

theorem patchOk_nil : PatchOk [] := by
  intro i s v h
  simp at h

theorem patchOk_append {t1 t2 : List Ev} (h1 : PatchOk t1) (h2 : PatchOk t2) :
    PatchOk (t1 ++ t2) := by
  intro i s v h
  by_cases hi : i < t1.length
  · rw [List.get?_append hi] at h
    obtain ⟨j, a, hb, hj, hg, hv⟩ := h1 i s v h
    exact ⟨j, a, hb, hj, by rw [List.get?_append (by omega)]; exact hg, hv⟩
  · rw [List.get?_append_right (by omega)] at h
    obtain ⟨j, a, hb, hj, hg, hv⟩ := h2 (i - t1.length) s v h
    refine ⟨t1.length + j, a, hb, by omega, ?_, hv⟩
    rw [List.get?_append_right (by omega)]
    simpa using hg

theorem patchOk_of_no_patch {t : List Ev}
    (h : ∀ e ∈ t, ∀ s v, e ≠ Ev.write s 4 v) : PatchOk t := by
  intro i s v hg
  exact absurd rfl (h _ (List.get?_mem hg) s v)

theorem patchOk_hdr_patch {D : List Ev}
    (hD : ∀ e ∈ D, ∀ s v, e ≠ Ev.write s 4 v) (a s : Nat) (hb : Bytes) :
    PatchOk (D ++ [Ev.erase a, Ev.write a 0 hb, Ev.write s 4 (le 4 a)]) := by
  intro i s' v hg
  by_cases hi : i < D.length
  · rw [List.get?_append hi] at hg
    exact absurd rfl (hD _ (List.get?_mem hg) s' v)
  · rw [List.get?_append_right (by omega)] at hg
    have h3 : i - D.length < 3 := by
      by_contra hc
      rw [List.get?_eq_none.2 (by simp; omega)] at hg
      cases hg
    interval_cases h : (i - D.length)
    · simp at hg
    · simp at hg
    · simp at hg
      refine ⟨D.length + 1, a, hb, by omega, ?_, hg.2.symm⟩
      rw [List.get?_append_right (by omega)]
      simp

/-! Structural helpers shared by the write-loop, locate and read-loop
specifications. -/

theorem hOff_ge (f : Bool) : 24 ≤ hOff f := by
  rw [hOff]
  split <;> norm_num [HDRSIZE, FNODESIZE]

theorem hOff_le (f : Bool) : hOff f ≤ 104 := by
  rw [hOff]
  split <;> norm_num [HDRSIZE, FNODESIZE]

/-- A write whose end coincides with the buffer end replaces the tail. -/
theorem writeAt_at_end {l v : Bytes} {j : Nat} (h : j + v.length = l.length) :
    writeAt l j v = l.take j ++ v := by
  rw [writeAt, List.drop_eq_nil_of_le (by omega), List.append_nil]

theorem headOr_append (nxt : Nat) (xs ys : List Nat) :
    headOr nxt (xs ++ ys) = headOr (headOr nxt ys) xs := by
  cases xs <;> rfl

theorem SectorOk_congr {N S : Nat} {fl fl' : List Bytes} {s : Nat} {f : Bool}
    {nxt : Nat} (heq : getSector fl' s = getSector fl s)
    (h : SectorOk N S fl s f nxt) : SectorOk N S fl' s f nxt := by
  rw [SectorOk, heq]
  exact h

theorem ChainSeg_append_intro {N S : Nat} {fl : List Bytes} {ys : List Nat}
    {f2 : Bool} {nxt : Nat} :
    ∀ {xs : List Nat} {f : Bool},
      ChainSeg N S fl xs f (headOr nxt ys) → ChainSeg N S fl ys f2 nxt →
      (xs = [] → f2 = f) → (xs ≠ [] → f2 = false) →
      ChainSeg N S fl (xs ++ ys) f nxt := by
  intro xs
  induction xs with
  | nil =>
      intro f h1 h2 h3 _
      rw [h3 rfl] at h2
      exact h2
  | cons a rest ih =>
      intro f h1 h2 _ h4
      obtain ⟨hok, hrest⟩ := h1
      show SectorOk N S fl a f (headOr nxt (rest ++ ys)) ∧
        ChainSeg N S fl (rest ++ ys) false nxt
      refine ⟨?_, ih hrest h2 (fun _ => h4 (by simp)) (fun _ => h4 (by simp))⟩
      rw [headOr_append]
      exact hok

theorem AllocateSector_error {N S : Nat} {m : Media} {rc : Int}
    (h : AllocateSector N S m = .error rc) : rc = FFS_RC_OUT_OF_SPACE := by
  rw [AllocateSector] at h
  cases hff : FindFreeSector N S m.flash with
  | none =>
      rw [hff] at h
      simp only [Except.error.injEq] at h
      exact h.symm
  | some p =>
      obtain ⟨a, h0⟩ := p
      rw [hff] at h
      cases h

theorem isEmpty_false_of_ne_nil {α : Type} {xs : List α} (h : xs ≠ []) :
    xs.isEmpty = false := by
  cases xs with
  | nil => exact absurd rfl h
  | cons a t => rfl

theorem isEmpty_append_singleton {α : Type} (xs : List α) (a : α) :
    (xs ++ [a]).isEmpty = false := by
  cases xs <;> rfl

theorem capSum_snoc (S : Nat) (xs : List Nat) (lastS : Nat) :
    capSum S (xs ++ [lastS]) true =
      capSum S xs true + (S - hOff xs.isEmpty) := by
  rw [capSum_append S [lastS] xs.isEmpty xs true
    (fun h => by subst h; rfl) (fun h => isEmpty_false_of_ne_nil h)]
  simp [capSum]

theorem chainData_snoc (S : Nat) (fl : List Bytes) (xs : List Nat) (lastS : Nat) :
    chainData S fl (xs ++ [lastS]) true =
      chainData S fl xs true ++ payload1 S fl lastS xs.isEmpty := by
  rw [chainData_append S fl [lastS] xs.isEmpty xs true
    (fun h => by subst h; rfl) (fun h => isEmpty_false_of_ne_nil h)]
  simp [chainData]

theorem ChainSeg_snoc_intro {N S : Nat} {fl : List Bytes} {xs : List Nat}
    {lastS nxt : Nat} (h1 : ChainSeg N S fl xs true lastS)
    (h2 : SectorOk N S fl lastS xs.isEmpty nxt) :
    ChainSeg N S fl (xs ++ [lastS]) true nxt :=
  @ChainSeg_append_intro N S fl [lastS] xs.isEmpty nxt xs true h1 ⟨h2, trivial⟩
    (fun h => by subst h; rfl) (fun h => isEmpty_false_of_ne_nil h)

/-- Collapsing the position/size update the write loop performs. -/
theorem fdesc_update_eta {d : FFS_FILE_DESCRIPTOR} {p : Nat}
    (hp : d.Position = p) (hf : d.Fnode.FileSize = p) :
    ({ d with
        Position := p
        Fnode := { d.Fnode with FileSize := p } } : FFS_FILE_DESCRIPTOR) = d := by
  obtain ⟨iu, flg, dof, wf, fs, ofs, pos, fn⟩ := d
  obtain ⟨pm, fnm, fsz, dt, cnt⟩ := fn
  simp only at hp hf
  subst hp
  subst hf
  rfl

/-- Effect of the data write the loop performs into the cursor sector:
chain structure and all other sectors survive, and the sector payload
gets the chunk spliced in at the cursor offset. -/
theorem writeChunk_effects {N S : Nat} {m : Media} {xs : List Nat} {lastS : Nat}
    {Offset : Nat} {chunk : Bytes} {f2 : Bool} (hS1 : 104 ≤ S)
    (hseg : ChainSeg N S m.flash xs true lastS)
    (hlast : SectorOk N S m.flash lastS f2 NULLSEC)
    (hdisj : ∀ r ∈ xs, r ≠ lastS)
    (hflen : m.flash.length = N)
    (hck : ∀ b ∈ chunk, b < 256)
    (hO1 : hOff f2 ≤ Offset) (hO2 : Offset + chunk.length ≤ S) :
    ChainSeg N S (WriteSectorIgn N S m lastS Offset chunk).flash xs true lastS ∧
    SectorOk N S (WriteSectorIgn N S m lastS Offset chunk).flash lastS f2 NULLSEC ∧
    (WriteSectorIgn N S m lastS Offset chunk).flash.length = N ∧
    (∀ s, s ≠ lastS →
      getSector (WriteSectorIgn N S m lastS Offset chunk).flash s =
        getSector m.flash s) ∧
    payload1 S (WriteSectorIgn N S m lastS Offset chunk).flash lastS f2 =
      writeAt (payload1 S m.flash lastS f2) (Offset - hOff f2) chunk ∧
    chainData S (WriteSectorIgn N S m lastS Offset chunk).flash xs true =
      chainData S m.flash xs true ∧
    (WriteSectorIgn N S m lastS Offset chunk).trace =
      m.trace ++ [.write lastS Offset chunk] := by
  obtain ⟨hlN, hlLen, hlB, hlK, hlNx, hlSt, hlSL, hlDO⟩ := hlast
  rw [WriteSectorIgn_valid hlN]
  have hgets : getSector (m.flash.set lastS
      (writeAt (getSector m.flash lastS) Offset chunk)) lastS =
      writeAt (getSector m.flash lastS) Offset chunk :=
    getSector_set_self (by omega)
  have hOg : 24 ≤ hOff f2 := hOff_ge f2
  have hOl : hOff f2 ≤ 104 := hOff_le f2
  have hwlen : Offset + chunk.length ≤ (getSector m.flash lastS).length := by
    rw [hlLen]
    exact hO2
  have hdec : decodeHeader (writeAt (getSector m.flash lastS) Offset chunk) =
      decodeHeader (getSector m.flash lastS) :=
    decodeHeader_writeAt_data (by omega) hwlen
  have hframe : ∀ s, s ≠ lastS →
      getSector (m.flash.set lastS
        (writeAt (getSector m.flash lastS) Offset chunk)) s =
        getSector m.flash s :=
    fun s hs => getSector_set_ne (fun h => hs h.symm)
  refine ⟨?_, ?_, ?_, hframe, ?_, ?_, rfl⟩
  · exact ChainSeg_congr (fun r hr => hframe r (hdisj r hr)) hseg
  · rw [SectorOk, hgets, hdec]
    refine ⟨hlN, ?_, writeAt_lt hlB hck, hlK, hlNx, hlSt, hlSL, hlDO⟩
    rw [length_writeAt hwlen]
    exact hlLen
  · simp [hflen]
  · rw [payload1, hgets, payload1]
    exact readAt_writeAt_around hwlen hO1 (by omega) (by omega)
  · exact chainData_congr (fun r hr => hframe r (hdisj r hr))

/-- Effect of patching the Next link of the cursor sector: every header
field but Next survives, as do the payload, the other sectors and the
sector bookkeeping. -/
theorem patchNext_effects {N S : Nat} {m : Media} {lastS a : Nat} {f2 : Bool}
    (hS1 : 104 ≤ S)
    (hlast : SectorOk N S m.flash lastS f2 NULLSEC)
    (ha : a < SZ32) (hflen : m.flash.length = N) :
    SectorOk N S (WriteSectorIgn N S m lastS 4 (le 4 a)).flash lastS f2 a ∧
    (WriteSectorIgn N S m lastS 4 (le 4 a)).flash.length = N ∧
    (∀ s, s ≠ lastS →
      getSector (WriteSectorIgn N S m lastS 4 (le 4 a)).flash s =
        getSector m.flash s) ∧
    payload1 S (WriteSectorIgn N S m lastS 4 (le 4 a)).flash lastS f2 =
      payload1 S m.flash lastS f2 ∧
    (WriteSectorIgn N S m lastS 4 (le 4 a)).trace =
      m.trace ++ [.write lastS 4 (le 4 a)] := by
  obtain ⟨hlN, hlLen, hlB, hlK, hlNx, hlSt, hlSL, hlDO⟩ := hlast
  rw [WriteSectorIgn_valid hlN]
  have hgets : getSector (m.flash.set lastS
      (writeAt (getSector m.flash lastS) 4 (le 4 a))) lastS =
      writeAt (getSector m.flash lastS) 4 (le 4 a) :=
    getSector_set_self (by omega)
  have hwlen : (4 : Nat) + (le 4 a).length ≤ (getSector m.flash lastS).length := by
    simp only [length_le]
    rw [hlLen]
    omega
  have hdec : decodeHeader (writeAt (getSector m.flash lastS) 4 (le 4 a)) =
      { decodeHeader (getSector m.flash lastS) with Next := a % SZ32 } :=
    decodeHeader_writeAt_next (by rw [hlLen]; omega)
  have hOg : 24 ≤ hOff f2 := hOff_ge f2
  refine ⟨?_, by simp [hflen], fun s hs => getSector_set_ne (fun h => hs h.symm),
    ?_, rfl⟩
  · rw [SectorOk, hgets, hdec]
    refine ⟨hlN, ?_, writeAt_lt hlB (le_lt 4 a), ?_, ?_, ?_, ?_, ?_⟩
    · rw [length_writeAt hwlen]
      exact hlLen
    · simpa using hlK
    · simp [mod32_small ha]
    · simpa using hlSt
    · simpa using hlSL
    · simpa using hlDO
  · rw [payload1, hgets, readAt_writeAt_next hwlen (by omega), payload1]

/-- Complete behaviour of the write loop on a well-formed chain whose
last sector holds the cursor: the trace stays patch-ordered (every Next
patch is preceded by the pointed-to header write), and on a nonnegative
return the loop has consumed the whole buffer, extended the chain as
needed, spliced the buffer into the chain payload at the cursor, and
moved cursor and file size to the end of the written range. -/
theorem WriteLoopAux_spec {N S : Nat} (hS1 : 104 < S) (hS2 : S + 104 < SZ32)
    (hN : N ≤ NULLSEC) :
    ∀ (fuel : Nat) (buf : Bytes) (m : Media) (xs : List Nat) (lastS : Nat)
      (SecHead : FFS_SECTOR_HEADER) (Offset : Nat) (Fdesc : FFS_FILE_DESCRIPTOR)
      (TW : Nat) (r : Int) (mF : Media) (FdescF : FFS_FILE_DESCRIPTOR),
      WriteLoopAux N S fuel m buf lastS SecHead Offset Fdesc TW =
        some (r, mF, FdescF) →
      ChainSeg N S m.flash xs true lastS →
      SectorOk N S m.flash lastS xs.isEmpty NULLSEC →
      (xs ++ [lastS]).Nodup →
      m.flash.length = N →
      SecHead.SectorLength = S →
      (∀ b ∈ buf, b < 256) →
      capSum S xs true ≤ Fdesc.Position →
      Fdesc.Position < capSum S (xs ++ [lastS]) true →
      Offset = hOff xs.isEmpty + (Fdesc.Position - capSum S xs true) →
      Fdesc.Fnode.FileSize = Fdesc.Position →
      Fdesc.Position + buf.length < SZ32 →
      (PatchOk m.trace → PatchOk mF.trace) ∧
      (0 ≤ r →
        r = Int.ofNat (TW + buf.length) ∧
        ∃ (xs2 : List Nat) (last2 : Nat) (ext : List Nat),
          xs2 ++ [last2] = xs ++ lastS :: ext ∧
          ChainSeg N S mF.flash xs2 true last2 ∧
          SectorOk N S mF.flash last2 xs2.isEmpty NULLSEC ∧
          (xs2 ++ [last2]).Nodup ∧
          mF.flash.length = N ∧
          (∀ s, s ∉ xs2 ++ [last2] →
            getSector mF.flash s = getSector m.flash s) ∧
          capSum S xs2 true ≤ Fdesc.Position + buf.length ∧
          Fdesc.Position + buf.length ≤ capSum S (xs2 ++ [last2]) true ∧
          (chainData S mF.flash (xs2 ++ [last2]) true).take
              (Fdesc.Position + buf.length) =
            (chainData S m.flash (xs ++ [lastS]) true).take Fdesc.Position
              ++ buf ∧
          FdescF = { Fdesc with
            Position := Fdesc.Position + buf.length
            Fnode :=
              { Fdesc.Fnode with
                  FileSize := Fdesc.Position + buf.length } }) := by
  intro fuel
  induction fuel with
  | zero =>
      intro buf m xs lastS SecHead Offset Fdesc TW r mF FdescF hrun
      rw [WriteLoopAux] at hrun
      exact Option.noConfusion hrun
  | succ f ih =>
      intro buf m xs lastS SecHead Offset Fdesc TW r mF FdescF hrun hseg hlast
        hnd hflen hSL hbuf hP1 hP2 hoff hfs hsz
      have hSlt : S < SZ32 := by omega
      have hNlow : NULLSEC < SZ32 := by norm_num [NULLSEC, SZ32]
      have hcap : capSum S (xs ++ [lastS]) true =
          capSum S xs true + (S - hOff xs.isEmpty) := capSum_snoc S xs lastS
      have hhg : 24 ≤ hOff xs.isEmpty := hOff_ge _
      have hhl : hOff xs.isEmpty ≤ 104 := hOff_le _
      have hOlt : Offset < S := by rw [hoff]; omega
      have hOge : hOff xs.isEmpty ≤ Offset := by rw [hoff]; omega
      have hlastN : lastS < N := hlast.1
      have hlastLen : (getSector m.flash lastS).length = S := hlast.2.1
      have hdisj : ∀ r2 ∈ xs, r2 ≠ lastS := by
        intro r2 hr2 he
        exact (List.disjoint_of_nodup_append hnd) hr2 (by rw [he]; simp)
      rw [WriteLoopAux] at hrun
      by_cases hb0 : buf.length = 0
      · rw [if_pos hb0] at hrun
        simp only [Option.some.injEq, Prod.mk.injEq] at hrun
        obtain ⟨hr1, hm1, hd1⟩ := hrun
        subst hr1
        subst hm1
        subst hd1
        have hbe : buf = [] := List.length_eq_zero.1 hb0
        subst hbe
        refine ⟨fun h => h, fun _ => ⟨by simp, xs, lastS, [], rfl, hseg, hlast, hnd,
          hflen, fun s _ => rfl, by simpa using hP1, by simpa using le_of_lt hP2,
          by simp, ?_⟩⟩
        exact (fdesc_update_eta rfl hfs).symm
      · rw [if_neg hb0] at hrun
        simp only [] at hrun
        rw [hSL, sub32_small (le_of_lt hOlt) hSlt] at hrun
        by_cases hw : buf.length ≤ S - Offset
        · have hRem : (if buf.length < S - Offset then buf.length else S - Offset) =
              buf.length := by
            split
            · rfl
            · omega
          rw [hRem, List.take_length,
            mod32_small (show Fdesc.Position + buf.length < SZ32 from hsz), hfs,
            if_pos (show Fdesc.Position + buf.length > Fdesc.Position by omega),
            if_pos (by simp)] at hrun
          simp only [Option.some.injEq, Prod.mk.injEq] at hrun
          obtain ⟨hr1, hm1, hd1⟩ := hrun
          subst hr1
          subst hm1
          subst hd1
          obtain ⟨hcseg, hclast, hclen, hcframe, hcpay, hcdata, hctrace⟩ :=
            writeChunk_effects (le_of_lt hS1) hseg hlast hdisj hflen hbuf hOge
              (by omega)
          have hAlen : (chainData S m.flash xs true).length = capSum S xs true :=
            chainData_length (le_of_lt hS1) hseg
          have hPLlen : (payload1 S m.flash lastS xs.isEmpty).length =
              S - hOff xs.isEmpty := by
            rw [payload1, length_readAt (by rw [hlastLen]; omega)]
          constructor
          · intro hp
            rw [hctrace]
            refine patchOk_append hp (patchOk_of_no_patch ?_)
            intro e he s v
            simp only [List.mem_singleton] at he
            subst he
            intro hc
            simp only [Ev.write.injEq] at hc
            omega
          · intro _
            refine ⟨rfl, xs, lastS, [], rfl, hcseg, hclast, hnd, hclen,
              fun s hs => hcframe s (by intro he; exact hs (by rw [he]; simp)),
              by omega, by rw [hcap]; omega, ?_, rfl⟩
            rw [chainData_snoc, hcdata, hcpay, chainData_snoc]
            rw [show Fdesc.Position + buf.length =
                (chainData S m.flash xs true).length +
                  (Offset - hOff xs.isEmpty + buf.length) from by
              rw [hAlen]; omega]
            rw [List.take_append, take_writeAt (by rw [hPLlen]; omega)]
            rw [show Fdesc.Position = (chainData S m.flash xs true).length +
                (Offset - hOff xs.isEmpty) from by rw [hAlen]; omega]
            rw [List.take_append]
            simp [List.append_assoc]
        · have hRem : (if buf.length < S - Offset then buf.length else S - Offset) =
              S - Offset := by
            split
            · omega
            · rfl
          rw [hRem] at hrun
          have hwlt : S - Offset < buf.length := by omega
          have hOpos : 1 ≤ S - Offset := by omega
          rw [if_neg (show ¬((buf.drop (S - Offset)).length = 0) from by
              simp only [List.length_drop]; omega),
            mod32_small (show Fdesc.Position + (S - Offset) < SZ32 by omega), hfs,
            if_pos (show Fdesc.Position + (S - Offset) > Fdesc.Position by omega)]
            at hrun
          obtain ⟨hcseg, hclast, hclen, hcframe, hcpay, hcdata, hctrace⟩ :=
            writeChunk_effects (le_of_lt hS1) hseg hlast hdisj hflen
              (show ∀ b ∈ buf.take (S - Offset), b < 256 from
                fun b hb => hbuf b (List.mem_of_mem_take hb)) hOge
              (by rw [List.length_take]; omega)
          have hchlen : (buf.take (S - Offset)).length = S - Offset := by
            rw [List.length_take]
            omega
          cases halloc : AllocateSector N S
              (WriteSectorIgn N S m lastS Offset (buf.take (S - Offset))) with
          | error rc =>
              rw [halloc] at hrun
              simp only [Option.some.injEq, Prod.mk.injEq] at hrun
              obtain ⟨hr1, hm1, hd1⟩ := hrun
              subst hr1
              subst hm1
              subst hd1
              have hrc := AllocateSector_error halloc
              constructor
              · intro hp
                rw [hctrace]
                refine patchOk_append hp (patchOk_of_no_patch ?_)
                intro e he s v
                simp only [List.mem_singleton] at he
                subst he
                intro hc
                simp only [Ev.write.injEq] at hc
                omega
              · intro hr0
                rw [hrc] at hr0
                simp only [FFS_RC_OUT_OF_SPACE] at hr0
                omega
          | ok res =>
              obtain ⟨a, hA, ma⟩ := res
              rw [halloc] at hrun
              simp only [] at hrun
              obtain ⟨haN, hfree, hAeq, hmaf, hmat⟩ :=
                AllocateSector_spec hclen halloc
              subst hAeq
              have hanot : a ∉ xs ++ [lastS] :=
                alloc_not_mem (ChainSeg_snoc_intro hcseg hclast) hfree
              have haL : a ≠ lastS := by
                intro h
                exact hanot (by rw [h]; simp)
              have haxs : ∀ r2 ∈ xs, r2 ≠ a := by
                intro r2 hr2 he
                exact hanot (by rw [← he]; simp [hr2])
              have hmaflen : ma.flash.length = N := by
                rw [hmaf]
                simp [hclen]
              have hgetmaL : getSector ma.flash lastS =
                  getSector (WriteSectorIgn N S m lastS Offset
                    (buf.take (S - Offset))).flash lastS := by
                rw [hmaf]
                exact getSector_set_ne haL
              have hget1len : (getSector (WriteSectorIgn N S m lastS Offset
                  (buf.take (S - Offset))).flash lastS).length = S := hclast.2.1
              have hm3fl : (WriteSectorIgn N S ma lastS 4 (le 4 a)).flash =
                  ma.flash.set lastS (writeAt (getSector ma.flash lastS) 4
                    (le 4 a)) := by
                rw [WriteSectorIgn_valid hlastN]
              have hm3len : (WriteSectorIgn N S ma lastS 4 (le 4 a)).flash.length
                  = N := by
                rw [hm3fl]
                simp [hmaflen]
              have hget3L : getSector (WriteSectorIgn N S ma lastS 4
                  (le 4 a)).flash lastS =
                  writeAt (getSector ma.flash lastS) 4 (le 4 a) := by
                rw [hm3fl]
                exact getSector_set_self (by omega)
              obtain ⟨hplast, hplen, hpframe, hppay, hptrace⟩ :=
                patchNext_effects (le_of_lt hS1)
                  (SectorOk_congr hgetmaL hclast)
                  (show a < SZ32 from by omega) hmaflen
              have hframe3 : ∀ s, s ≠ lastS → s ≠ a →
                  getSector (WriteSectorIgn N S ma lastS 4 (le 4 a)).flash s =
                  getSector m.flash s := by
                intro s h1 h2
                rw [hpframe s h1, hmaf, getSector_set_ne (fun h => h2 h.symm)]
                exact hcframe s h1
              have hseg3 : ChainSeg N S (WriteSectorIgn N S ma lastS 4
                  (le 4 a)).flash (xs ++ [lastS]) true a :=
                ChainSeg_snoc_intro
                  (ChainSeg_congr (fun r2 hr2 =>
                    hframe3 r2 (hdisj r2 hr2) (haxs r2 hr2)) hseg) hplast
              have hsoka : SectorOk N S ma.flash a false NULLSEC := by
                rw [hmaf]
                exact SectorOk_alloc_plain (by omega) hSlt hclen haN
              have hlast3a : SectorOk N S (WriteSectorIgn N S ma lastS 4
                  (le 4 a)).flash a (xs ++ [lastS]).isEmpty NULLSEC := by
                rw [isEmpty_append_singleton]
                exact SectorOk_congr (hpframe a haL) hsoka
              have hnd3 : (((xs ++ [lastS]) ++ [a])).Nodup := by
                refine hnd.append (List.nodup_singleton a) ?_
                intro x hx hxa
                simp only [List.mem_singleton] at hxa
                subst hxa
                exact hanot hx
              have hcapA : capSum S ((xs ++ [lastS]) ++ [a]) true =
                  capSum S (xs ++ [lastS]) true + (S - 24) := by
                rw [capSum_snoc S (xs ++ [lastS]) a, isEmpty_append_singleton]
                rfl
              have heq3 : capSum S (xs ++ [lastS]) true =
                  Fdesc.Position + (S - Offset) := by
                rw [hcap]
                omega
              have hH24 : HDRSIZE = 24 := rfl
              obtain ⟨ihpatch, ihsucc⟩ := ih _ _ _ _ _ _ _ _ _ _ _ hrun hseg3
                hlast3a hnd3 hplen rfl
                (fun b hb => hbuf b (List.drop_subset _ _ hb))
                (show capSum S (xs ++ [lastS]) true ≤
                  Fdesc.Position + (S - Offset) from by omega)
                (show Fdesc.Position + (S - Offset) <
                  capSum S ((xs ++ [lastS]) ++ [a]) true from by
                    rw [hcapA]; omega)
                (show HDRSIZE = hOff (xs ++ [lastS]).isEmpty +
                  (Fdesc.Position + (S - Offset) -
                    capSum S (xs ++ [lastS]) true) from by
                    rw [isEmpty_append_singleton,
                      show hOff false = HDRSIZE from rfl]
                    omega)
                rfl
                (show Fdesc.Position + (S - Offset) +
                  (buf.drop (S - Offset)).length < SZ32 from by
                    simp only [List.length_drop]
                    omega)
              constructor
              · intro hp
                apply ihpatch
                rw [hptrace, hmat, hctrace]
                simp only [List.append_assoc]
                refine patchOk_append hp ?_
                have hD : ∀ e ∈ [Ev.write lastS Offset (buf.take (S - Offset))],
                    ∀ s v, e ≠ Ev.write s 4 v := by
                  intro e he s v
                  simp only [List.mem_singleton] at he
                  subst he
                  intro hc
                  simp only [Ev.write.injEq] at hc
                  omega
                have hPP := patchOk_hdr_patch hD a lastS
                  (encodeHeader (allocHeader S (decodeHeader (getSector
                    (WriteSectorIgn N S m lastS Offset
                      (buf.take (S - Offset))).flash a)).EraseCount))
                simpa using hPP
              · intro hr0
                obtain ⟨hrEq, xs2, last2, ext2, heq2, hseg2, hlast2, hnd2, hlen2,
                  hframe2, hlow2, hhigh2, htake2, hdesc2⟩ := ihsucc hr0
                simp only [List.length_drop] at hrEq hlow2 hhigh2 htake2 hdesc2
                have heqfull : xs2 ++ [last2] = xs ++ lastS :: a :: ext2 := by
                  rw [heq2]
                  simp
                have hAlen : (chainData S m.flash xs true).length =
                    capSum S xs true := chainData_length (le_of_lt hS1) hseg
                have hPLlen : (payload1 S m.flash lastS xs.isEmpty).length =
                    S - hOff xs.isEmpty := by
                  rw [payload1, length_readAt (by rw [hlastLen]; omega)]
                refine ⟨by rw [hrEq]; congr 1; omega, xs2, last2, a :: ext2,
                  heqfull, hseg2, hlast2, hnd2, hlen2, ?_, by omega, by omega,
                  ?_, ?_⟩
                · intro s hs
                  have hs2 := hs
                  rw [heqfull] at hs2
                  simp only [List.mem_append, List.mem_cons] at hs2
                  push_neg at hs2
                  rw [hframe2 s hs]
                  exact hframe3 s hs2.2.1 hs2.2.2.1
                · have hidx : Fdesc.Position + (S - Offset) +
                      (buf.length - (S - Offset)) =
                      Fdesc.Position + buf.length := by omega
                  rw [hidx] at htake2
                  rw [chainData_snoc S ((WriteSectorIgn N S ma lastS 4
                    (le 4 a)).flash) (xs ++ [lastS]) a] at htake2
                  have hlen3c : (chainData S (WriteSectorIgn N S ma lastS 4
                      (le 4 a)).flash (xs ++ [lastS]) true).length =
                      capSum S (xs ++ [lastS]) true :=
                    chainData_length (le_of_lt hS1) hseg3
                  rw [show Fdesc.Position + (S - Offset) =
                      (chainData S (WriteSectorIgn N S ma lastS 4
                        (le 4 a)).flash (xs ++ [lastS]) true).length from by
                    rw [hlen3c]
                    omega] at htake2
                  rw [List.take_left] at htake2
                  rw [htake2,
                    chainData_snoc S ((WriteSectorIgn N S ma lastS 4
                      (le 4 a)).flash) xs lastS,
                    chainData_snoc S m.flash xs lastS]
                  have hcd3 : chainData S (WriteSectorIgn N S ma lastS 4
                      (le 4 a)).flash xs true = chainData S m.flash xs true :=
                    chainData_congr (fun r2 hr2 =>
                      hframe3 r2 (hdisj r2 hr2) (haxs r2 hr2))
                  have hpay3 : payload1 S (WriteSectorIgn N S ma lastS 4
                      (le 4 a)).flash lastS xs.isEmpty =
                      writeAt (payload1 S m.flash lastS xs.isEmpty)
                        (Offset - hOff xs.isEmpty) (buf.take (S - Offset)) := by
                    rw [hppay,
                      show payload1 S ma.flash lastS xs.isEmpty = payload1 S
                        (WriteSectorIgn N S m lastS Offset (buf.take
                          (S - Offset))).flash lastS xs.isEmpty from by
                        rw [payload1, hgetmaL, payload1]]
                    exact hcpay
                  have harr1 : Offset - hOff xs.isEmpty + (S - Offset) =
                      S - hOff xs.isEmpty := by
                    rw [← Nat.sub_add_comm hOge,
                      Nat.add_sub_cancel' (le_of_lt hOlt)]
                  have harr2 : Fdesc.Position = capSum S xs true +
                      (Offset - hOff xs.isEmpty) := by omega
                  have hwend : writeAt (payload1 S m.flash lastS xs.isEmpty)
                      (Offset - hOff xs.isEmpty) (buf.take (S - Offset)) =
                      (payload1 S m.flash lastS xs.isEmpty).take
                        (Offset - hOff xs.isEmpty) ++ buf.take (S - Offset) :=
                    writeAt_at_end (by rw [hchlen, hPLlen]; exact harr1)
                  have hposA : Fdesc.Position =
                      (chainData S m.flash xs true).length +
                        (Offset - hOff xs.isEmpty) := by
                    rw [hAlen]
                    exact harr2
                  rw [hcd3, hpay3, hwend, hposA, List.take_append]
                  conv_rhs => rw [show buf = buf.take (S - Offset) ++
                    buf.drop (S - Offset) from (List.take_append_drop _ _).symm]
                  simp [List.append_assoc]
                · have harith : Fdesc.Position + (S - Offset) +
                      (buf.length - (S - Offset)) =
                      Fdesc.Position + buf.length := by omega
                  rw [hdesc2]
                  simp only [harith]

/-! Locating a byte position along a well-formed chain. -/

theorem readHdr_valid {N S : Nat} {fl : List Bytes} {s : Nat} (hs : s < N) :
    ReadSector N S fl s 0 HDRSIZE = .ok (readAt (getSector fl s) 0 HDRSIZE) := by
  rw [ReadSector, getFlashSectionEntry_single, if_pos hs]

theorem decodeHeader_hdr (b : Bytes) :
    decodeHeader (readAt b 0 HDRSIZE) = decodeHeader b := decodeHeader_take b

theorem headOr_eq_head {xs : List Nat} {lastS z : Nat} {zs : List Nat}
    (h : xs ++ [lastS] = z :: zs) : headOr lastS xs = z := by
  cases xs with
  | nil =>
      simp only [List.nil_append, List.cons.injEq] at h
      rw [headOr, h.1]
  | cons y ys =>
      simp only [List.cons_append, List.cons.injEq] at h
      rw [headOr, h.1]

theorem capSum_le_mul (S : Nat) :
    ∀ (secs : List Nat) (f : Bool), capSum S secs f ≤ secs.length * S := by
  intro secs
  induction secs with
  | nil => intro f; simp [capSum]
  | cons a rest ih =>
      intro f
      have := ih false
      simp only [capSum, List.length_cons]
      have h2 : S - hOff f ≤ S := Nat.sub_le _ _
      calc S - hOff f + capSum S rest false ≤ S + rest.length * S := by omega
      _ = (rest.length + 1) * S := by ring

/-- The position-locating walk, on a chain split as a traversed prefix
xs and the sector lastS that contains the sought position. -/
theorem LocatePositionAux_last {N S : Nat} (hS1 : 104 < S) (hSlt : S < SZ32) :
    ∀ (xs : List Nat) (f f2 : Bool) (lastS nxt2 : Nat) (fl : List Bytes)
      (P C fuel : Nat),
      ChainSeg N S fl xs f lastS →
      SectorOk N S fl lastS f2 nxt2 →
      (xs = [] → f2 = f) → (xs ≠ [] → f2 = false) →
      C + capSum S xs f ≤ P →
      P < C + capSum S xs f + (S - hOff f2) →
      C + capSum S xs f + (S - hOff f2) < SZ32 →
      xs.length < fuel →
      LocatePositionAux N S fl P fuel (headOr lastS xs) C =
        some (.ok (lastS, decodeHeader (getSector fl lastS),
          hOff f2 + (P - (C + capSum S xs f)))) := by
  intro xs
  induction xs with
  | nil =>
      intro f f2 lastS nxt2 fl P C fuel hseg hlast he1 _ hP1 hP2 hB hfuel
      obtain ⟨hlN, hlLen, hlB, hlK, hlNx, hlSt, hlSL, hlDO⟩ := hlast
      cases fuel with
      | zero => omega
      | succ k =>
          rw [headOr, LocatePositionAux, readHdr_valid hlN]
          simp only [decodeHeader_hdr, capSum] at *
          rw [hlSL, hlDO, sub32_small (by have := hOff_le f2; omega) hSlt]
          rw [if_pos (by rw [mod32_small (by omega)]; omega)]
          rw [sub32_small (by omega) (by omega),
            mod32_small (by have := hOff_le f2; omega)]
          norm_num
  | cons a rest ih =>
      intro f f2 lastS nxt2 fl P C fuel hseg hlast _ he2 hP1 hP2 hB hfuel
      obtain ⟨⟨haN, haLen, haB, haK, haNx, haSt, haSL, haDO⟩, hrest⟩ := hseg
      cases fuel with
      | zero => omega
      | succ k =>
          rw [headOr, LocatePositionAux, readHdr_valid haN]
          simp only [decodeHeader_hdr, capSum] at *
          rw [haSL, haDO, sub32_small (by have := hOff_le f; omega) hSlt]
          rw [if_neg (by rw [mod32_small (by omega)]; omega)]
          rw [haNx, mod32_small (by omega)]
          have hre := ih false f2 lastS nxt2 fl P (C + (S - hOff f)) k hrest hlast
            (fun h => he2 (by simp)) (fun _ => he2 (by simp))
            (by omega) (by omega) (by omega) (by simp at hfuel; omega)
          rw [show C + (S - hOff f + capSum S rest false) =
            C + (S - hOff f) + capSum S rest false from by omega]
          exact hre

/-- The position-locating walk past the end of the chain: the NULLSEC
link is dereferenced and the invalid-sector error surfaces. -/
theorem LocatePositionAux_past {N S : Nat} (hS1 : 104 < S) (hSlt : S < SZ32)
    (hN : N ≤ NULLSEC) :
    ∀ (secs : List Nat) (f : Bool) (fl : List Bytes) (P C fuel : Nat),
      ChainSeg N S fl secs f NULLSEC →
      C + capSum S secs f ≤ P →
      P < SZ32 →
      secs.length < fuel →
      LocatePositionAux N S fl P fuel (headOr NULLSEC secs) C =
        some (.error FFS_RC_INVALID_SECTOR_NUMBER) := by
  intro secs
  induction secs with
  | nil =>
      intro f fl P C fuel _ _ _ hfuel
      cases fuel with
      | zero => omega
      | succ k =>
          rw [headOr, LocatePositionAux, ReadSector, getFlashSectionEntry_single,
            if_neg (by omega)]
  | cons a rest ih =>
      intro f fl P C fuel hseg hP1 hPs hfuel
      obtain ⟨⟨haN, haLen, haB, haK, haNx, haSt, haSL, haDO⟩, hrest⟩ := hseg
      cases fuel with
      | zero => omega
      | succ k =>
          rw [headOr, LocatePositionAux, readHdr_valid haN]
          simp only [decodeHeader_hdr, capSum] at *
          rw [haSL, haDO, sub32_small (by have := hOff_le f; omega) hSlt]
          rw [if_neg (by rw [mod32_small (by omega)]; omega)]
          rw [haNx, mod32_small (by omega)]
          have hre := ih false fl P (C + (S - hOff f)) k hrest (by omega) hPs
            (by simp at hfuel; omega)
          exact hre

/-! The read loop returns exactly the chain payload window. -/

theorem readAt_drop {b : Bytes} {o k j : Nat} :
    (readAt b o k).drop j = readAt b (o + j) (k - j) := by
  apply List.ext_get?
  intro i
  rw [List.get?_drop, get?_readAt, get?_readAt]
  by_cases hi : i < k - j
  · rw [if_pos hi, if_pos (by omega)]
    congr 1
    omega
  · rw [if_neg hi, if_neg (by omega)]

theorem readAt_take {b : Bytes} {o k n : Nat} :
    (readAt b o k).take n = readAt b o (min n k) := by
  rw [readAt, readAt, List.take_take]

/-- The read loop on a chain suffix whose first sector s is read from
payload offset j: it returns exactly n bytes of the suffix payload
stream, the advanced cursor and the accumulated total. -/
theorem ReadLoopAux_spec {N S : Nat} (hS1 : 104 < S) (hSlt : S < SZ32) :
    ∀ (secs : List Nat) (s : Nat) (rest : List Nat) (f : Bool) (fl : List Bytes)
      (n j Position TotalRead : Nat) (acc : Bytes) (fuel : Nat),
      secs = s :: rest →
      ChainSeg N S fl secs f NULLSEC →
      0 < n →
      j + n ≤ capSum S secs f →
      j < S - hOff f →
      secs.length < fuel →
      ReadLoopAux N S fl fuel n s (decodeHeader (getSector fl s))
          (hOff f + j) Position TotalRead acc =
        some (Int.ofNat (TotalRead + n), (Position + n) % SZ32,
          acc ++ ((chainData S fl secs f).drop j).take n) := by
  intro secs
  induction secs with
  | nil => intro s rest f fl n j Position TotalRead acc fuel hsecs; cases hsecs
  | cons a rest ih =>
      intro s rest2 f fl n j Position TotalRead acc fuel hsecs hseg hn hcap hj
        hfuel
      obtain ⟨hseq, hreq⟩ : a = s ∧ rest = rest2 := by
        simp only [List.cons.injEq] at hsecs
        exact hsecs
      subst hseq
      subst hreq
      obtain ⟨⟨haN, haLen, haB, haK, haNx, haSt, haSL, haDO⟩, hrest⟩ := hseg
      have hOg : 24 ≤ hOff f := hOff_ge f
      have hOl : hOff f ≤ 104 := hOff_le f
      have hpllen : (payload1 S fl a f).length = S - hOff f := by
        rw [payload1, length_readAt (by rw [haLen]; omega)]
      cases fuel with
      | zero => simp at hfuel
      | succ k =>
          rw [ReadLoopAux, if_neg (by omega)]
          simp only []
          rw [haSL, sub32_small (by omega) hSlt]
          simp only [capSum] at hcap
          by_cases hcase : n ≤ S - (hOff f + j)
          · rw [show (if n < S - (hOff f + j) then n else S - (hOff f + j)) = n
              from by split <;> omega]
            rw [show ReadSector N S fl a (hOff f + j) n =
                .ok (readAt (getSector fl a) (hOff f + j) n) from by
              rw [ReadSector, getFlashSectionEntry_single, if_pos haN]]
            simp only []
            rw [if_pos (by omega)]
            have hjle : j ≤ (payload1 S fl a f).length := by
              rw [hpllen]
              omega
            have htle : n ≤ (List.drop j (payload1 S fl a f)).length := by
              rw [List.length_drop, hpllen]
              omega
            simp only [Option.some.injEq, Prod.mk.injEq, true_and]
            rw [chainData, List.drop_append_of_le_length hjle,
              List.take_append_of_le_length htle,
              payload1, readAt_drop, readAt_take]
            rw [show min n (S - hOff f - j) = n from by omega]
          · rw [show (if n < S - (hOff f + j) then n else S - (hOff f + j)) =
              S - (hOff f + j) from by split <;> omega]
            rw [show ReadSector N S fl a (hOff f + j) (S - (hOff f + j)) =
                .ok (readAt (getSector fl a) (hOff f + j) (S - (hOff f + j)))
                from by
              rw [ReadSector, getFlashSectionEntry_single, if_pos haN]]
            simp only []
            rw [if_neg (by omega)]
            cases hr2 : rest with
            | nil =>
                exfalso
                subst hr2
                simp only [capSum] at hcap
                omega
            | cons s2 rest3 =>
                subst hr2
                have hs2N : s2 < N := hrest.1.1
                rw [show (decodeHeader (getSector fl a)).Next = s2 from haNx]
                rw [readHdr_valid hs2N]
                simp only []
                rw [show decodeHeader (readAt (getSector fl s2) 0 HDRSIZE) =
                  decodeHeader (getSector fl s2) from decodeHeader_hdr _]
                rw [show (decodeHeader (getSector fl s2)).DataOffset =
                  hOff false from hrest.1.2.2.2.2.2.2.2]
                have h24 : hOff false = 24 := rfl
                have hih := ih s2 rest3 false fl (n - (S - (hOff f + j))) 0
                  ((Position + (S - (hOff f + j))) % SZ32)
                  (TotalRead + (S - (hOff f + j))) (acc ++ readAt
                    (getSector fl a) (hOff f + j) (S - (hOff f + j))) k rfl
                  hrest (by omega) (by simp only [capSum] at hcap ⊢; omega)
                  (by omega)
                  (by simp at hfuel ⊢; omega)
                rw [show (hOff false : Nat) = hOff false + 0 from rfl, hih]
                have hjle : j ≤ (payload1 S fl a f).length := by
                  rw [hpllen]
                  omega
                have hgele : (List.drop j (payload1 S fl a f)).length ≤ n := by
                  rw [List.length_drop, hpllen]
                  omega
                simp only [Option.some.injEq, Prod.mk.injEq]
                refine ⟨by congr 1; omega, ?_, ?_⟩
                · rw [Nat.mod_add_mod, show Position + (S - (hOff f + j)) +
                    (n - (S - (hOff f + j))) = Position + n from by omega]
                · rw [show chainData S fl (a :: s2 :: rest3) f =
                    payload1 S fl a f ++ chainData S fl (s2 :: rest3) false
                    from rfl]
                  rw [List.drop_append_of_le_length hjle,
                    List.take_append_eq_append_take,
                    List.take_all_of_le hgele,
                    payload1, readAt_drop]
                  rw [show S - hOff f - j = S - (hOff f + j) from by omega,
                    List.drop_zero]
                  have hlr : (readAt (getSector fl a) (hOff f + j)
                      (S - (hOff f + j))).length = S - (hOff f + j) :=
                    length_readAt (by rw [haLen]; omega)
                  rw [hlr]
                  simp [List.append_assoc]

/-! Virgin sectors and the filename scan. -/

theorem getSector_replicate {N : Nat} {v : Bytes} {s : Nat} (hs : s < N) :
    getSector (List.replicate N v) s = v := by
  rw [getSector, List.getD_eq_get?, List.get?_eq_getElem?]
  simp [List.getElem?_replicate, hs]

theorem readAt_replicate {m o k v : Nat} :
    readAt (List.replicate m v) o k = List.replicate (min k (m - o)) v := by
  rw [readAt, List.drop_replicate, List.take_replicate]

theorem virgin_key {S : Nat} (hS : 104 ≤ S) :
    (decodeHeader (virginSector S)).Key = 0xffffffff := by
  show de (readAt (List.replicate S 255) 0 4) = 0xffffffff
  rw [readAt_replicate, show min 4 (S - 0) = 4 from by omega]
  decide

theorem virgin_status {S : Nat} (hS : 104 ≤ S) :
    (decodeHeader (virginSector S)).Status = 255 := by
  show de (readAt (List.replicate S 255) 13 1) = 255
  rw [readAt_replicate, show min 1 (S - 13) = 1 from by omega]
  norm_num [de]

theorem virgin_eraseCount {S : Nat} (hS : 104 ≤ S) :
    (decodeHeader (virginSector S)).EraseCount = NULLSEC := by
  show de (readAt (List.replicate S 255) 8 4) = NULLSEC
  rw [readAt_replicate, show min 4 (S - 8) = 4 from by omega]
  decide

/-- The filename scan finds the first IN_USE_FILENODE sector whose
stored name matches. -/
theorem LocateFileNodeAux_find {N S : Nat} {fl : List Bytes} {name : Bytes}
    {h : Nat} (hh : h < N)
    (hm1 : (decodeHeader (getSector fl h)).Status =
      FFS_SECTOR_HEADER_INUSE_FILENODE)
    (hm2 : namesEq (decodeFnode (readAt (getSector fl h) HDRSIZE
      FNODESIZE)).Filename name = true) :
    ∀ (fuel Sector : Nat), Sector ≤ h → h - Sector < fuel →
      (∀ s, Sector ≤ s → s < h →
        (decodeHeader (getSector fl s)).Status =
            FFS_SECTOR_HEADER_INUSE_FILENODE →
        namesEq (decodeFnode (readAt (getSector fl s) HDRSIZE
          FNODESIZE)).Filename name = false) →
      LocateFileNodeAux N S fl name fuel Sector =
        some (decodeFnode (readAt (getSector fl h) HDRSIZE FNODESIZE), h) := by
  intro fuel
  induction fuel with
  | zero => intro Sector h1 h2; omega
  | succ k ih =>
      intro Sector h1 h2 hno
      rw [LocateFileNodeAux,
        if_pos (by rw [ValidSector, getFlashSectionEntry_single,
          if_pos (by omega : Sector < N)]; rfl)]
      by_cases hsh : Sector = h
      · subst hsh
        rw [if_pos hm1, if_pos hm2]
      · by_cases hst : (decodeHeader (getSector fl Sector)).Status =
            FFS_SECTOR_HEADER_INUSE_FILENODE
        · rw [if_pos hst, if_neg (by
            rw [hno Sector (le_refl _) (by omega) hst]
            simp)]
          exact ih (Sector + 1) (by omega) (by omega)
            (fun s hs1 hs2 => hno s (by omega) hs2)
        · rw [if_neg hst]
          exact ih (Sector + 1) (by omega) (by omega)
            (fun s hs1 hs2 => hno s (by omega) hs2)

/-- The filename scan fails when no managed sector is a matching
IN_USE_FILENODE. -/
theorem LocateFileNodeAux_none {N S : Nat} {fl : List Bytes} {name : Bytes} :
    ∀ (fuel Sector : Nat), N - Sector < fuel →
      (∀ s, Sector ≤ s → s < N →
        (decodeHeader (getSector fl s)).Status =
            FFS_SECTOR_HEADER_INUSE_FILENODE →
        namesEq (decodeFnode (readAt (getSector fl s) HDRSIZE
          FNODESIZE)).Filename name = false) →
      LocateFileNodeAux N S fl name fuel Sector = none := by
  intro fuel
  induction fuel with
  | zero => intro Sector h1; omega
  | succ k ih =>
      intro Sector h1 hno
      by_cases hv : Sector < N
      · rw [LocateFileNodeAux,
          if_pos (by rw [ValidSector, getFlashSectionEntry_single, if_pos hv]
                     rfl)]
        by_cases hst : (decodeHeader (getSector fl Sector)).Status =
            FFS_SECTOR_HEADER_INUSE_FILENODE
        · rw [if_pos hst, if_neg (by
            rw [hno Sector (le_refl _) hv hst]
            simp)]
          exact ih (Sector + 1) (by omega)
            (fun s hs1 hs2 => hno s (by omega) hs2)
        · rw [if_neg hst]
          exact ih (Sector + 1) (by omega)
            (fun s hs1 hs2 => hno s (by omega) hs2)
      · rw [LocateFileNodeAux,
          if_neg (by rw [ValidSector, getFlashSectionEntry_single, if_neg hv]
                     simp)]

/-! Helpers for the create-session development: chain heads, status of
tail sectors, name storage, the descriptor table and first allocation. -/

theorem headOr_mem (lastS : Nat) (xs : List Nat) :
    headOr lastS xs ∈ xs ++ [lastS] := by
  cases xs <;> simp [headOr]

theorem headOr_congr {xs : List Nat} {lastS : Nat} {xs2 : List Nat}
    {last2 : Nat} {ext : List Nat}
    (h : xs2 ++ [last2] = xs ++ lastS :: ext) :
    headOr last2 xs2 = headOr lastS xs := by
  cases xs with
  | nil =>
      simp only [List.nil_append] at h
      rw [headOr_eq_head h, headOr]
  | cons y ys =>
      simp only [List.cons_append] at h
      rw [headOr_eq_head h, headOr]

/-- Sectors of a non-head chain segment carry the plain INUSE status. -/
theorem ChainSeg_false_status {N S : Nat} {fl : List Bytes} :
    ∀ {secs : List Nat} {nxt : Nat}, ChainSeg N S fl secs false nxt →
      ∀ s ∈ secs, (decodeHeader (getSector fl s)).Status =
        FFS_SECTOR_HEADER_INUSE := by
  intro secs
  induction secs with
  | nil => intro _ _ s hs; cases hs
  | cons a rest ih =>
      intro nxt hseg s hs
      obtain ⟨hok, hrest⟩ := hseg
      rcases List.mem_cons.1 hs with h | h
      · subst h
        have := hok.2.2.2.2.2.1
        simpa using this
      · exact ih hrest s h

theorem capSum_ge_length {S : Nat} (hS : 105 ≤ S) :
    ∀ (secs : List Nat) (f : Bool), secs.length ≤ capSum S secs f := by
  intro secs
  induction secs with
  | nil => intro f; simp [capSum]
  | cons a rest ih =>
      intro f
      have h1 := ih false
      have h2 : 1 ≤ S - hOff f := by
        have := hOff_le f
        omega
      simp only [capSum, List.length_cons]
      omega

theorem pad65_lt {b : Bytes} (hb : ∀ x ∈ b, x < 256) :
    ∀ x ∈ pad65 b, x < 256 := by
  intro x hx
  rcases List.mem_append.1 (List.mem_of_mem_take hx) with h | h
  · exact hb x h
  · rw [List.eq_of_mem_replicate h]
    norm_num

theorem cstr_append_zero {name z : Bytes} (hnz : ∀ b ∈ name, b ≠ 0) :
    cstr (name ++ 0 :: z) = name := by
  induction name with
  | nil => simp [cstr]
  | cons a tl ih =>
      have ha : a ≠ 0 := hnz a (by simp)
      have htl := ih (fun b hb => hnz b (by simp [hb]))
      show List.takeWhile (fun c => decide (c ≠ 0)) ((a :: tl) ++ 0 :: z) =
        a :: tl
      rw [List.cons_append, List.takeWhile_cons, if_pos (by simp [ha])]
      rw [show List.takeWhile (fun c => decide (c ≠ 0)) (tl ++ 0 :: z) = tl
        from htl]

theorem storeFilename_eq {name : Bytes} (hlen : name.length ≤ 64) :
    storeFilename (List.replicate 65 0) name =
      name ++ 0 :: List.replicate (64 - name.length) 0 := by
  rw [storeFilename, if_neg (by omega), strcpyBuf, writeAt]
  simp only [List.take_nil, List.take_zero, List.nil_append, List.length_append,
    List.length_singleton, List.drop_replicate]
  rw [show 65 - (0 + (name.length + 1)) = 64 - name.length from by omega]
  simp [List.append_assoc]

theorem length_storeFilename {name : Bytes} (hlen : name.length ≤ 64) :
    (storeFilename (List.replicate 65 0) name).length = 65 := by
  rw [storeFilename_eq hlen]
  simp only [List.length_append, List.length_cons, List.length_replicate]
  omega

theorem storeFilename_lt {name : Bytes} (hlen : name.length ≤ 64)
    (hb : ∀ x ∈ name, x < 256) :
    ∀ x ∈ storeFilename (List.replicate 65 0) name, x < 256 := by
  rw [storeFilename_eq hlen]
  intro x hx
  rcases List.mem_append.1 hx with h | h
  · exact hb x h
  · simp only [List.mem_cons] at h
    rcases h with h1 | h1
    · subst h1
      norm_num
    · rw [List.eq_of_mem_replicate h1]
      norm_num

theorem cstr_all {name : Bytes} (hnz : ∀ b ∈ name, b ≠ 0) :
    cstr name = name := by
  induction name with
  | nil => rfl
  | cons a tl ih =>
      have ha : a ≠ 0 := hnz a (by simp)
      have htl := ih (fun b hb => hnz b (by simp [hb]))
      show List.takeWhile (fun c => decide (c ≠ 0)) (a :: tl) = a :: tl
      rw [List.takeWhile_cons, if_pos (by simp [ha])]
      rw [show List.takeWhile (fun c => decide (c ≠ 0)) tl = tl from htl]

theorem namesEq_store {name : Bytes} (hlen : name.length ≤ 64)
    (hnz : ∀ b ∈ name, b ≠ 0) :
    namesEq (storeFilename (List.replicate 65 0) name) name = true := by
  rw [namesEq, storeFilename_eq hlen, cstr_append_zero hnz, cstr_all hnz]
  simp

theorem descriptorCheck_zero {d : FFS_FILE_DESCRIPTOR}
    {rest : List FFS_FILE_DESCRIPTOR} (hd : d.InUse = true) :
    descriptorCheck (d :: rest) 0 = some false := by
  rw [descriptorCheck, if_neg (by norm_num [FFS_MAX_FILE_DESCRIPTORS])]
  simp [hd]

/-- First allocation on a factory-fresh volume: sector 0 is taken (its
virgin bytes fail the key sanity check), erased and given the filenode
header. -/
theorem AllocateSectorWithFilenode_fresh {N S : Nat} (hN0 : 0 < N)
    (hS : 104 ≤ S) {m : Media}
    (hfl : m.flash = List.replicate N (virginSector S)) :
    AllocateSectorWithFilenode N S m = .ok (0, allocFnodeHeader S NULLSEC,
      { flash := m.flash.set 0 (writeAt (List.replicate S 255) 0
          (encodeHeader (allocFnodeHeader S NULLSEC)))
        trace := m.trace ++ [.erase 0,
          .write 0 0 (encodeHeader (allocFnodeHeader S NULLSEC))] }) := by
  have hget0 : getSector m.flash 0 = virginSector S := by
    rw [hfl]
    exact getSector_replicate hN0
  have hfind : FindFreeSector N S m.flash =
      some (0, decodeHeader (virginSector S)) := by
    rw [FindFreeSector, FindFreeSectorAux,
      if_pos (by rw [getFlashSectionEntry_single, if_pos hN0]; rfl), hget0,
      if_neg (by rw [virgin_key hS]; norm_num [FFS_SECTOR_HEADER_KEY])]
  have hlen0 : 0 < m.flash.length := by
    rw [hfl]
    simp [hN0]
  rw [AllocateSectorWithFilenode, hfind]
  simp only [virgin_eraseCount hS]
  rw [EraseSectorIgn_valid hN0, WriteSectorIgn_valid hN0]
  simp only [Except.ok.injEq, Prod.mk.injEq, true_and]
  refine ⟨by rw [allocFnodeHeader], ?_⟩
  rw [getSector_set_self hlen0, List.set_set]
  simp only [Media.mk.injEq]
  constructor
  · rw [allocFnodeHeader]
  · rw [allocFnodeHeader]
    simp [List.append_assoc]

/-! The create-session invariant: the open descriptor in slot 0 and, once
something has been written, a well-formed chain carrying exactly the
written bytes, with every other sector still factory fresh. -/

/-- Slot-0 descriptor of a file opened with CREATE on a fresh volume
(flags byte 0, generation count 0), after ws tells whether the filenode
sector hd has been allocated and the cursor/file size have reached sz. -/
def openDesc (name : Bytes) (ws : Bool) (hd sz : Nat) : FFS_FILE_DESCRIPTOR :=
  { InUse := true, Flags := 0, DeleteOldFile := false, WriteFnode := ws,
    FnodeSector := hd, OldFnodeSector := 0, Position := sz,
    Fnode := { Permissions := 0,
               Filename := storeFilename (List.replicate 65 0) name,
               FileSize := sz, DataTime := 0, Count := 0 } }

def SessionInv (N S : Nat) (name data : Bytes) (st : FFSState) : Prop :=
  PatchOk st.media.trace ∧
  st.media.flash.length = N ∧
  ((st.FileDescriptors = [openDesc name false NULLSEC 0, zeroDescriptor] ∧
    st.media.flash = List.replicate N (virginSector S) ∧ data = []) ∨
   (∃ xs lastS,
      st.FileDescriptors =
        [openDesc name true (headOr lastS xs) data.length, zeroDescriptor] ∧
      ChainSeg N S st.media.flash xs true lastS ∧
      SectorOk N S st.media.flash lastS xs.isEmpty NULLSEC ∧
      (xs ++ [lastS]).Nodup ∧
      capSum S xs true ≤ data.length ∧
      data.length ≤ capSum S (xs ++ [lastS]) true ∧
      (chainData S st.media.flash (xs ++ [lastS]) true).take data.length =
        data ∧
      (∀ s, s < N → s ∉ xs ++ [lastS] →
        getSector st.media.flash s = virginSector S)))

/-- A write through the slot-0 descriptor on a still-fresh session:
allocates the filenode sector, keeps the trace patch-ordered, and on a
full-count return establishes the chain form of the invariant. -/
theorem session_step_fresh {N S : Nat} (hS1 : 104 < S) (hS2 : S + 104 < SZ32)
    (hN : N ≤ NULLSEC) (hN0 : 0 < N) {name buf : Bytes} {st : FFSState}
    {rc : Int} {st2 : FFSState}
    (hpt : PatchOk st.media.trace)
    (hfds : st.FileDescriptors = [openDesc name false NULLSEC 0, zeroDescriptor])
    (hfl : st.media.flash = List.replicate N (virginSector S))
    (hbuf : ∀ b ∈ buf, b < 256)
    (hsz : buf.length < SZ32)
    (hrun : FFSWrite N S st 0 buf = some (rc, st2)) :
    PatchOk st2.media.trace ∧
    (rc = Int.ofNat buf.length → SessionInv N S name buf st2) := by
  rw [FFSWrite, hfds, descriptorCheck_zero rfl] at hrun
  simp only [] at hrun
  rw [show (([openDesc name false NULLSEC 0, zeroDescriptor].get?
      (Int.toNat 0)).getD zeroDescriptor) = openDesc name false NULLSEC 0
    from rfl] at hrun
  rw [if_pos (show (openDesc name false NULLSEC 0).FnodeSector = NULLSEC
    from rfl)] at hrun
  rw [AllocateSectorWithFilenode_fresh hN0 (by omega) hfl] at hrun
  simp only [] at hrun
  cases hloop : WriteLoopAux N S (buf.length + 2)
      { flash := st.media.flash.set 0 (writeAt (List.replicate S 255) 0
          (encodeHeader (allocFnodeHeader S NULLSEC)))
        trace := st.media.trace ++ [.erase 0,
          .write 0 0 (encodeHeader (allocFnodeHeader S NULLSEC))] }
      buf 0 (allocFnodeHeader S NULLSEC) (HDRSIZE + FNODESIZE)
      { openDesc name false NULLSEC 0 with
          WriteFnode := true
          FnodeSector := 0 } 0 with
  | none =>
      rw [hloop] at hrun
      cases hrun
  | some trip =>
      obtain ⟨r, m2, Fd2⟩ := trip
      rw [hloop] at hrun
      simp only [Option.some.injEq, Prod.mk.injEq] at hrun
      obtain ⟨hr1, hst2⟩ := hrun
      subst hr1
      subst hst2
      rw [show ({ openDesc name false NULLSEC 0 with
          WriteFnode := true
          FnodeSector := 0 } : FFS_FILE_DESCRIPTOR) = openDesc name true 0 0
        from rfl] at hloop
      have hm1len : (st.media.flash.set 0 (writeAt (List.replicate S 255) 0
          (encodeHeader (allocFnodeHeader S NULLSEC)))).length = N := by
        rw [hfl]
        simp
      have hsok : SectorOk N S (st.media.flash.set 0
          (writeAt (List.replicate S 255) 0
            (encodeHeader (allocFnodeHeader S NULLSEC)))) 0 true NULLSEC := by
        rw [hfl]
        exact SectorOk_alloc_fnode (by omega) (by omega)
          (by simp) hN0
      have h104 : hOff true = 104 := rfl
      obtain ⟨hpatch, hsucc⟩ := WriteLoopAux_spec hS1 hS2 hN (buf.length + 2)
        buf _ [] 0 (allocFnodeHeader S NULLSEC) (HDRSIZE + FNODESIZE)
        (openDesc name true 0 0) 0 r m2 Fd2 hloop trivial hsok (by simp)
        hm1len rfl hbuf
        (Nat.le_refl 0)
        (show (0:Nat) < S - hOff true + 0 from by omega)
        rfl rfl
        (show (0:Nat) + buf.length < SZ32 from by omega)
      have hm1patch : PatchOk (st.media.trace ++ [Ev.erase 0,
          Ev.write 0 0 (encodeHeader (allocFnodeHeader S NULLSEC))]) := by
        refine patchOk_append hpt (patchOk_of_no_patch ?_)
        intro e he s v
        simp only [List.mem_cons, List.not_mem_nil, or_false] at he
        rcases he with h | h <;> subst h <;> intro hc
        · cases hc
        · simp only [Ev.write.injEq] at hc
          omega
      refine ⟨hpatch hm1patch, ?_⟩
      intro hrc
      obtain ⟨hrEq, xs2, last2, ext, heq, hseg2, hlast2, hnd2, hlen2, hframe2,
        hlow2, hhigh2, htake2, hdesc2⟩ :=
        hsucc (by rw [hrc]; exact Int.ofNat_nonneg buf.length)
      simp only [openDesc, Nat.zero_add, List.nil_append, List.take_zero]
        at hlow2 hhigh2 htake2 hdesc2
      have hhead : headOr last2 xs2 = 0 := headOr_eq_head heq
      have h0mem : 0 ∈ xs2 ++ [last2] := by
        rw [heq]
        simp
      refine ⟨hpatch hm1patch, hlen2, Or.inr ⟨xs2, last2, ?_, hseg2, hlast2,
        hnd2, hlow2, hhigh2, ?_, ?_⟩⟩
      · show [Fd2, zeroDescriptor] =
          [openDesc name true (headOr last2 xs2) buf.length, zeroDescriptor]
        rw [hhead, hdesc2]
        simp [openDesc]
      · exact htake2
      · intro s hsN hsnot
        rw [hframe2 s hsnot]
        have hs0 : s ≠ 0 := by
          intro h
          rw [h] at hsnot
          exact hsnot h0mem
        rw [getSector_set_ne (fun h => hs0 h.symm), hfl,
          getSector_replicate hsN]

/-- A write through the slot-0 descriptor once the chain exists: the
cursor sector is located, the loop runs, the trace stays patch-ordered,
and a full-count return re-establishes the invariant with the written
bytes appended. -/
theorem session_step_chain {N S : Nat} (hS1 : 104 < S) (hS2 : S + 104 < SZ32)
    (hN : N ≤ NULLSEC) {name data buf : Bytes} {st : FFSState}
    {rc : Int} {st2 : FFSState} {xs : List Nat} {lastS : Nat}
    (hpt : PatchOk st.media.trace)
    (hflen : st.media.flash.length = N)
    (hfds : st.FileDescriptors =
      [openDesc name true (headOr lastS xs) data.length, zeroDescriptor])
    (hseg : ChainSeg N S st.media.flash xs true lastS)
    (hlast : SectorOk N S st.media.flash lastS xs.isEmpty NULLSEC)
    (hnd : (xs ++ [lastS]).Nodup)
    (hlow : capSum S xs true ≤ data.length)
    (hhigh : data.length ≤ capSum S (xs ++ [lastS]) true)
    (htake : (chainData S st.media.flash (xs ++ [lastS]) true).take data.length
      = data)
    (hvirgin : ∀ s, s < N → s ∉ xs ++ [lastS] →
      getSector st.media.flash s = virginSector S)
    (hbuf : ∀ b ∈ buf, b < 256)
    (hsz : data.length + buf.length < SZ32)
    (hszS : data.length + S < SZ32)
    (hrun : FFSWrite N S st 0 buf = some (rc, st2)) :
    PatchOk st2.media.trace ∧
    (rc = Int.ofNat buf.length → SessionInv N S name (data ++ buf) st2) := by
  have hSlt : S < SZ32 := by omega
  have hfull : ChainSeg N S st.media.flash (xs ++ [lastS]) true NULLSEC :=
    ChainSeg_snoc_intro hseg hlast
  have hmemlt : ∀ s ∈ xs ++ [lastS], s < N := ChainSeg_mem_lt hfull
  have hhdlt : headOr lastS xs < N := hmemlt _ (headOr_mem lastS xs)
  have hcap : capSum S (xs ++ [lastS]) true =
      capSum S xs true + (S - hOff xs.isEmpty) := capSum_snoc S xs lastS
  have hchainlen : (xs ++ [lastS]).length ≤ N := nodup_lt_length_le hnd hmemlt
  have hxslen : xs.length < N := by
    simp only [List.length_append, List.length_singleton] at hchainlen
    omega
  rw [FFSWrite, hfds, descriptorCheck_zero rfl] at hrun
  simp only [] at hrun
  rw [show (([openDesc name true (headOr lastS xs) data.length,
      zeroDescriptor].get? (Int.toNat 0)).getD zeroDescriptor) =
      openDesc name true (headOr lastS xs) data.length from rfl] at hrun
  rw [if_neg (show ¬((openDesc name true (headOr lastS xs)
      data.length).FnodeSector = NULLSEC) from by
    show ¬(headOr lastS xs = NULLSEC)
    omega)] at hrun
  rw [show LocatePosition N S st.media.flash
      (openDesc name true (headOr lastS xs) data.length).FnodeSector
      (openDesc name true (headOr lastS xs) data.length).Position =
      LocatePositionAux N S st.media.flash data.length (N + 1)
        (headOr lastS xs) 0 from rfl] at hrun
  by_cases hcase : data.length < capSum S (xs ++ [lastS]) true
  · have hloc := LocatePositionAux_last hS1 hSlt xs true xs.isEmpty lastS
      NULLSEC st.media.flash data.length 0 (N + 1) hseg hlast
      (fun h => by subst h; rfl) (fun h => isEmpty_false_of_ne_nil h)
      (by omega) (by omega) (by
        have := hOff_ge xs.isEmpty
        omega) (by omega)
    rw [hloc] at hrun
    simp only [] at hrun
    cases hloop : WriteLoopAux N S (buf.length + 2) st.media buf lastS
        (decodeHeader (getSector st.media.flash lastS))
        (hOff xs.isEmpty + (data.length - (0 + capSum S xs true)))
        (openDesc name true (headOr lastS xs) data.length) 0 with
    | none =>
        rw [hloop] at hrun
        cases hrun
    | some trip =>
        obtain ⟨r, m2, Fd2⟩ := trip
        rw [hloop] at hrun
        simp only [Option.some.injEq, Prod.mk.injEq] at hrun
        obtain ⟨hr1, hst2⟩ := hrun
        subst hr1
        subst hst2
        obtain ⟨hpatch, hsucc⟩ := WriteLoopAux_spec hS1 hS2 hN
          (buf.length + 2) buf st.media xs lastS
          (decodeHeader (getSector st.media.flash lastS))
          (hOff xs.isEmpty + (data.length - (0 + capSum S xs true)))
          (openDesc name true (headOr lastS xs) data.length) 0 r m2 Fd2
          hloop hseg hlast hnd hflen hlast.2.2.2.2.2.2.1 hbuf
          hlow hcase
          (show hOff xs.isEmpty + (data.length - (0 + capSum S xs true)) =
            hOff xs.isEmpty + (data.length - capSum S xs true) from by
            norm_num)
          rfl
          (show data.length + buf.length < SZ32 from hsz)
        refine ⟨hpatch hpt, ?_⟩
        intro hrc
        obtain ⟨hrEq, xs2, last2, ext, heq, hseg2, hlast2, hnd2, hlen2,
          hframe2, hlow2, hhigh2, htake2, hdesc2⟩ :=
          hsucc (by rw [hrc]; exact Int.ofNat_nonneg buf.length)
        have hmem12 : ∀ s, s ∈ xs ++ [lastS] → s ∈ xs2 ++ [last2] := by
          intro s hs
          rw [heq]
          rcases List.mem_append.1 hs with h | h
          · simp [h]
          · simp only [List.mem_singleton] at h
            subst h
            simp
        refine ⟨hpatch hpt, hlen2, Or.inr ⟨xs2, last2, ?_, hseg2, hlast2,
          hnd2, ?_, ?_, ?_, ?_⟩⟩
        · show [Fd2, zeroDescriptor] =
            [openDesc name true (headOr last2 xs2) (data ++ buf).length,
             zeroDescriptor]
          rw [headOr_congr heq, hdesc2]
          simp [openDesc]
        · simp only [openDesc] at hlow2
          simp only [List.length_append]
          simpa using hlow2
        · simp only [openDesc] at hhigh2
          simp only [List.length_append]
          simpa using hhigh2
        · simp only [openDesc] at htake2
          simp only [List.length_append]
          rw [htake2, htake]
        · intro s hsN hsnot
          rw [hframe2 s hsnot]
          exact hvirgin s hsN (fun h => hsnot (hmem12 s h))
  · have hPeq : data.length = capSum S (xs ++ [lastS]) true := by omega
    have hstart : headOr NULLSEC (xs ++ [lastS]) = headOr lastS xs := by
      rw [headOr_append]
      rfl
    have hloc := LocatePositionAux_past hS1 hSlt hN (xs ++ [lastS]) true
      st.media.flash data.length 0 (N + 1) hfull (by omega) (by omega)
      (by omega)
    rw [hstart] at hloc
    rw [hloc] at hrun
    simp only [Option.some.injEq, Prod.mk.injEq] at hrun
    obtain ⟨hr1, hst2⟩ := hrun
    subst hr1
    subst hst2
    refine ⟨hpt, ?_⟩
    intro hrc
    have h0 : (0:Int) ≤ Int.ofNat buf.length := Int.ofNat_nonneg _
    rw [← hrc] at h0
    norm_num [FFS_RC_INVALID_SECTOR_NUMBER] at h0

theorem sessionStep_foldl_none (N S : Nat) (fd : Int) :
    ∀ (bufs : List Bytes), List.foldl (sessionStep N S fd) none bufs = none := by
  intro bufs
  induction bufs with
  | nil => rfl
  | cons b bs ih =>
      rw [List.foldl_cons]
      exact ih

/-- One write step of a create session preserves the invariant (and the
patch ordering of the trace holds whatever the return code). -/
theorem session_step_inv {N S : Nat} (hS1 : 104 < S) (hS2 : S + 104 < SZ32)
    (hN : N ≤ NULLSEC) (hN0 : 0 < N) {name data buf : Bytes} {st : FFSState}
    {rc : Int} {st2 : FFSState}
    (hinv : SessionInv N S name data st)
    (hbuf : ∀ b ∈ buf, b < 256)
    (hsz : data.length + buf.length < SZ32)
    (hszS : data.length + S < SZ32)
    (hrun : FFSWrite N S st 0 buf = some (rc, st2)) :
    PatchOk st2.media.trace ∧
    (rc = Int.ofNat buf.length → SessionInv N S name (data ++ buf) st2) := by
  obtain ⟨hpt, hflen, hphase⟩ := hinv
  rcases hphase with ⟨hfds, hfl, hdata⟩ |
    ⟨xs, lastS, hfds, hseg, hlast, hnd, hlow, hhigh, htake, hvirgin⟩
  · subst hdata
    exact session_step_fresh hS1 hS2 hN hN0 hpt hfds hfl hbuf
      (by simpa using hsz) hrun
  · exact session_step_chain hS1 hS2 hN hpt hflen hfds hseg hlast hnd hlow
      hhigh htake hvirgin hbuf hsz hszS hrun

/-- The write phase of a create session: if every write reports its full
byte count, the invariant accumulates the concatenation of the buffers. -/
theorem session_foldl {N S : Nat} (hS1 : 104 < S) (hS2 : S + 104 < SZ32)
    (hN : N ≤ NULLSEC) (hN0 : 0 < N) {name : Bytes} :
    ∀ (bufs : List Bytes) (data : Bytes) (st stF : FFSState),
      SessionInv N S name data st →
      (∀ buf ∈ bufs, ∀ b ∈ buf, b < 256) →
      data.length + (bufs.map List.length).sum + S < SZ32 →
      List.foldl (sessionStep N S 0) (some st) bufs = some stF →
      SessionInv N S name (data ++ bufs.join) stF := by
  intro bufs
  induction bufs with
  | nil =>
      intro data st stF hinv _ _ hfold
      simp only [List.foldl_nil, Option.some.injEq] at hfold
      subst hfold
      simpa using hinv
  | cons buf rest ih =>
      intro data st stF hinv hbufs hsz hfold
      rw [List.foldl_cons] at hfold
      have hstepdef : sessionStep N S 0 (some st) buf =
          match FFSWrite N S st 0 buf with
          | some (rc, st2) =>
              if rc = Int.ofNat buf.length then some st2 else none
          | none => none := rfl
      cases hw : FFSWrite N S st 0 buf with
      | none =>
          rw [hstepdef, hw] at hfold
          simp only [] at hfold
          rw [sessionStep_foldl_none N S 0 rest] at hfold
          cases hfold
      | some p =>
          obtain ⟨rc, st2⟩ := p
          rw [hstepdef, hw] at hfold
          simp only [] at hfold
          by_cases hrc : rc = Int.ofNat buf.length
          · rw [if_pos hrc] at hfold
            have hstep := session_step_inv hS1 hS2 hN hN0 hinv
              (hbufs buf (by simp))
              (by simp only [List.map_cons, List.sum_cons] at hsz; omega)
              (by simp only [List.map_cons, List.sum_cons] at hsz; omega) hw
            have hinv2 := hstep.2 hrc
            have hres := ih (data ++ buf) st2 stF hinv2
              (fun b hb => hbufs b (by simp [hb]))
              (by simp only [List.map_cons, List.sum_cons,
                    List.length_append] at hsz ⊢
                  omega) hfold
            simpa [List.append_assoc] using hres
          · rw [if_neg hrc] at hfold
            rw [sessionStep_foldl_none N S 0 rest] at hfold
            cases hfold

/-- Opening a file with CREATE on a factory-fresh volume takes slot 0
and yields the fresh-session descriptor. -/
theorem FFSOpen_fresh {N S : Nat} (hN0 : 0 < N) (hS : 104 ≤ S)
    (name : Bytes) :
    FFSOpen N S (freshState N S) name FFS_CREATE 0 =
      ((0 : Int),
       { media := (freshState N S).media
         FileDescriptors := [openDesc name false NULLSEC 0,
           zeroDescriptor] }) := by
  rw [FFSOpen]
  rw [show GetDescriptor (freshState N S).FileDescriptors =
    some (0, [{ zeroDescriptor with InUse := true }, zeroDescriptor])
    from rfl]
  simp only []
  rw [show LocateFileNode N S (freshState N S).media.flash name =
      LocateFileNodeAux N S (freshState N S).media.flash name (N + 1) 0
      from rfl]
  rw [LocateFileNodeAux_none (N + 1) 0 (by omega) (by
    intro s _ hsN hst
    exfalso
    rw [show getSector (freshState N S).media.flash s =
        virginSector S from getSector_replicate hsN, virgin_status hS] at hst
    norm_num [FFS_SECTOR_HEADER_INUSE_FILENODE] at hst)]
  simp only []
  rw [if_neg (show ¬(FFS_CREATE &&& FFS_CREATE = 0 ∧ _) from
    fun h => absurd h.1 (by decide))]
  rw [if_pos (show FFS_CREATE ≠ 0 from by decide)]
  rw [if_neg (show ¬(NULLSEC ≠ NULLSEC) from fun h => h rfl)]
  rfl

/-! Closing the session and reading the written file back. -/

/-- Closing descriptor 0 of an open create session writes the filenode
into the head sector's fnode region and releases the descriptor. -/
theorem FFSClose_session {N S : Nat} {name : Bytes} {hd L : Nat}
    {st : FFSState}
    (hfds : st.FileDescriptors = [openDesc name true hd L, zeroDescriptor]) :
    FFSClose N S st 0 = some (0,
      { media := WriteSectorIgn N S st.media hd HDRSIZE
          (encodeFnode (openDesc name true hd L).Fnode)
        FileDescriptors := [{ openDesc name true hd L with InUse := false },
          zeroDescriptor] }) := by
  rw [FFSClose, hfds, descriptorCheck_zero rfl]
  rfl

/-- Rewriting the fnode region of a chain sector preserves its header
well-formedness. -/
theorem SectorOk_fnode_write {N S : Nat} {fl : List Bytes} {A : Nat}
    {fn : FFS_FILE_NODE} {f : Bool} {nxt : Nat}
    (hS : 104 ≤ S)
    (hok : SectorOk N S fl A f nxt)
    (hfn : ∀ b ∈ encodeFnode fn, b < 256)
    (hlen : A < fl.length) :
    SectorOk N S (fl.set A (writeAt (getSector fl A) HDRSIZE
      (encodeFnode fn))) A f nxt := by
  obtain ⟨hN', hL, hB, hK, hNx, hSt, hSL, hDO⟩ := hok
  have hg : getSector (fl.set A (writeAt (getSector fl A) HDRSIZE
      (encodeFnode fn))) A =
      writeAt (getSector fl A) HDRSIZE (encodeFnode fn) :=
    getSector_set_self hlen
  have hwl : (HDRSIZE : Nat) + (encodeFnode fn).length ≤
      (getSector fl A).length := by
    simp only [length_encodeFnode, HDRSIZE]
    omega
  have hdec : decodeHeader (writeAt (getSector fl A) HDRSIZE
      (encodeFnode fn)) = decodeHeader (getSector fl A) :=
    decodeHeader_writeAt_data (by norm_num [HDRSIZE]) hwl
  refine ⟨hN', ?_, ?_, ?_, ?_, ?_, ?_, ?_⟩
  · rw [hg, length_writeAt hwl, hL]
  · rw [hg]
    exact writeAt_lt hB hfn
  · rw [hg, hdec]
    exact hK
  · rw [hg, hdec]
    exact hNx
  · rw [hg, hdec]
    exact hSt
  · rw [hg, hdec]
    exact hSL
  · rw [hg, hdec]
    exact hDO

/-- Descriptor produced by opening an existing file of size sz with head
sector hd (stored filename buffer fname) under flags RDONLY. -/
def rdDesc (fname : Bytes) (hd sz : Nat) : FFS_FILE_DESCRIPTOR :=
  { zeroDescriptor with
      InUse := true
      FnodeSector := hd
      Fnode := { Permissions := 0
                 Filename := fname
                 FileSize := sz
                 DataTime := 0
                 Count := 0 } }

/-- open(RDONLY) followed by read over a well-formed chain whose head
carries the session filenode returns exactly the recorded FileSize
prefix of the chain payload. -/
theorem readBack_chain {N S : Nat} (hS1 : 104 < S) (hS2 : S + 104 < SZ32)
    (hN : N ≤ NULLSEC) {name data : Bytes} {stC : FFSState}
    {hd : Nat} {tail : List Nat} {cd : FFS_FILE_DESCRIPTOR} {fname : Bytes}
    (hflen65 : fname.length = 65) (hmatch : namesEq fname name = true)
    (hfdsC : stC.FileDescriptors = [cd, zeroDescriptor])
    (hcd : cd.InUse = false)
    (hfull : ChainSeg N S stC.media.flash (hd :: tail) true NULLSEC)
    (hfnode : readAt (getSector stC.media.flash hd) HDRSIZE FNODESIZE =
      encodeFnode { Permissions := 0
                    Filename := fname
                    FileSize := data.length
                    DataTime := 0
                    Count := 0 })
    (htail : tail.length ≤ data.length)
    (hhigh : data.length ≤ capSum S (hd :: tail) true)
    (htake : (chainData S stC.media.flash (hd :: tail) true).take data.length =
      data)
    (hscan : ∀ s, s < N → s ∉ hd :: tail →
      (decodeHeader (getSector stC.media.flash s)).Status =
          FFS_SECTOR_HEADER_INUSE_FILENODE →
      namesEq (decodeFnode (readAt (getSector stC.media.flash s) HDRSIZE
        FNODESIZE)).Filename name = false)
    (hpos : 0 < data.length) (hsz : data.length < SZ32) :
    readBack N S stC name data.length =
      some (Int.ofNat data.length, data) := by
  obtain ⟨hhd, htl⟩ := hfull
  have hfull2 : ChainSeg N S stC.media.flash (hd :: tail) true NULLSEC :=
    ⟨hhd, htl⟩
  have hhdN : hd < N := hhd.1
  have hm1 : (decodeHeader (getSector stC.media.flash hd)).Status =
      FFS_SECTOR_HEADER_INUSE_FILENODE := by
    have h1 := hhd.2.2.2.2.2.1
    simpa using h1
  have hm2 : namesEq (decodeFnode (readAt (getSector stC.media.flash hd)
      HDRSIZE FNODESIZE)).Filename name = true := by
    rw [hfnode, decodeFnode_encodeFnode]
    show namesEq (pad65 fname) name = true
    rw [pad65_eq hflen65]
    exact hmatch
  have hno : ∀ s, 0 ≤ s → s < hd →
      (decodeHeader (getSector stC.media.flash s)).Status =
        FFS_SECTOR_HEADER_INUSE_FILENODE →
      namesEq (decodeFnode (readAt (getSector stC.media.flash s) HDRSIZE
        FNODESIZE)).Filename name = false := by
    intro s _ hsh hstat
    by_cases hmem : s ∈ hd :: tail
    · rcases List.mem_cons.1 hmem with h | h
      · omega
      · exfalso
        rw [ChainSeg_false_status htl s h] at hstat
        norm_num [FFS_SECTOR_HEADER_INUSE,
          FFS_SECTOR_HEADER_INUSE_FILENODE] at hstat
    · exact hscan s (by omega) hmem hstat
  have hloc : LocateFileNode N S stC.media.flash name =
      some ({ Permissions := 0
              Filename := fname
              FileSize := data.length
              DataTime := 0
              Count := 0 }, hd) := by
    rw [LocateFileNode,
      LocateFileNodeAux_find hhdN hm1 hm2 (N + 1) 0 (Nat.zero_le _)
        (by omega) hno]
    rw [hfnode, decodeFnode_encodeFnode]
    simp only []
    rw [pad65_eq hflen65, mod32_small hsz]
    norm_num
  have hgd : GetDescriptor stC.FileDescriptors =
      some (0, [{ zeroDescriptor with InUse := true }, zeroDescriptor]) := by
    rw [hfdsC, GetDescriptor,
      show GetDescriptorAux [cd, zeroDescriptor] 0 =
        if !cd.InUse then some 0 else GetDescriptorAux [zeroDescriptor] 1
      from rfl, hcd]
    rfl
  have hopen : FFSOpen N S stC name FFS_RDONLY 0 =
      ((0 : Int),
       { stC with FileDescriptors :=
           [rdDesc fname hd data.length, zeroDescriptor] }) := by
    rw [FFSOpen, hgd]
    simp only []
    rw [hloc]
    simp only []
    split
    · next hcon =>
        exfalso
        have h2 := hcon.2
        simp only [] at h2
        omega
    · rfl
  have hlocpos : LocatePositionAux N S stC.media.flash 0 (N + 1) hd 0 =
      some (.ok (hd, decodeHeader (getSector stC.media.flash hd),
        hOff true + 0)) :=
    LocatePositionAux_last hS1 (by omega) [] true true hd
      (headOr NULLSEC tail) stC.media.flash 0 0 (N + 1) trivial hhd
      (fun _ => rfl) (fun h => absurd rfl h)
      (show 0 + 0 ≤ 0 from Nat.le_refl 0)
      (show (0:Nat) < 0 + 0 + (S - 104) from by omega)
      (show 0 + 0 + (S - 104) < SZ32 from by omega)
      (show (0:Nat) < N + 1 from by omega)
  have hcap : (0:Nat) + data.length ≤ capSum S (hd :: tail) true := by
    simpa using hhigh
  have hloop := ReadLoopAux_spec hS1 (by omega) (hd :: tail) hd tail true
    stC.media.flash data.length 0 0 0 [] (data.length + 2) rfl hfull2 hpos
    hcap (show (0:Nat) < S - 104 from by omega)
    (show (hd :: tail).length < data.length + 2 from by
      simp only [List.length_cons]
      omega)
  rw [readBack]
  rw [hopen]
  simp only []
  rw [if_neg (show ¬((0 : Int) < 0) from by decide)]
  rw [FFSRead]
  simp only []
  rw [descriptorCheck_zero (show (rdDesc fname hd data.length).InUse = true
    from rfl)]
  simp only []
  rw [show (([rdDesc fname hd data.length, zeroDescriptor].get?
      (Int.toNat 0)).getD zeroDescriptor) = rdDesc fname hd data.length
    from rfl]
  rw [if_neg (show ¬((rdDesc fname hd data.length).Position ≥
      (rdDesc fname hd data.length).Fnode.FileSize) from by
    show ¬((0:Nat) ≥ data.length)
    omega)]
  rw [show LocatePosition N S stC.media.flash
      (rdDesc fname hd data.length).FnodeSector
      (rdDesc fname hd data.length).Position =
    LocatePositionAux N S stC.media.flash 0 (N + 1) hd 0 from rfl]
  rw [hlocpos]
  simp only []
  rw [show ((rdDesc fname hd data.length).Fnode.FileSize -
      (rdDesc fname hd data.length).Position) = data.length from rfl]
  rw [if_neg (show ¬(data.length > data.length) from by omega)]
  rw [show (rdDesc fname hd data.length).Position = 0 from rfl]
  rw [hloop]
  simp only []
  simp only [List.drop_zero, List.nil_append, Nat.zero_add]
  rw [htake]

/-- C1 (amended): on a fresh volume, a create session — open(CREATE),
any sequence of writes each reporting its full byte count, close — of at
least one byte in total round-trips: open(RDONLY) followed by read
returns exactly the concatenation of the written buffers, and the read's
return value is the total byte count.  (The zero-byte session is the
counterexample to the unamended claim: read then rejects the position.) -/
theorem C1_round_trip (N S : Nat) (hS1 : 104 < S) (hS2 : S + 104 < SZ32)
    (hN : N ≤ NULLSEC) (hN0 : 0 < N) (name : Bytes) (bufs : List Bytes)
    (hname1 : name.length ≤ 64) (hnz : ∀ b ∈ name, b ≠ 0)
    (hnlt : ∀ b ∈ name, b < 256)
    (hbufs : ∀ buf ∈ bufs, ∀ b ∈ buf, b < 256)
    (hsz : (bufs.map List.length).sum + S < SZ32)
    (hpos : 0 < bufs.join.length)
    (st : FFSState) (hrun : createSession N S name bufs = some st) :
    readBack N S st name bufs.join.length =
      some (Int.ofNat bufs.join.length, bufs.join) := by
  have hjoin : bufs.join.length = (bufs.map List.length).sum :=
    List.length_join bufs
  rw [createSession] at hrun
  rw [FFSOpen_fresh hN0 (by omega) name] at hrun
  simp only [] at hrun
  rw [if_neg (show ¬((0:Int) < 0) from by decide)] at hrun
  split at hrun
  · cases hrun
  · rename_i stM hfold
    have hinv0 : SessionInv N S name []
        { media := (freshState N S).media
          FileDescriptors := [openDesc name false NULLSEC 0,
            zeroDescriptor] } :=
      ⟨patchOk_nil, by simp [freshState], Or.inl ⟨rfl, rfl, rfl⟩⟩
    have hinvM := session_foldl hS1 hS2 hN hN0 bufs [] _ stM hinv0 hbufs
      (by simpa using hsz) hfold
    simp only [List.nil_append] at hinvM
    obtain ⟨hpt, hflen, hphase⟩ := hinvM
    rcases hphase with ⟨hfds, hfl, hdata⟩ | ⟨xs, lastS, hfds, hseg, hlast,
      hnd, hlow, hhigh, htake, hvirgin⟩
    · rw [hdata] at hpos
      exact absurd hpos (by simp)
    · obtain ⟨tail, hct⟩ : ∃ t, xs ++ [lastS] = headOr lastS xs :: t := by
        cases xs with
        | nil => exact ⟨[], rfl⟩
        | cons y ys => exact ⟨ys ++ [lastS], rfl⟩
      set A := headOr lastS xs with hA
      have hchain : ChainSeg N S stM.media.flash (A :: tail) true NULLSEC := by
        rw [← hct]
        exact ChainSeg_snoc_intro hseg hlast
      obtain ⟨hhd, htl⟩ := hchain
      have hhdN : A < N := hhd.1
      have hndc : A ∉ tail := by
        have h1 := hnd
        rw [hct] at h1
        exact (List.nodup_cons.1 h1).1
      rw [FFSClose_session hfds, WriteSectorIgn_valid hhdN] at hrun
      simp only [if_true, Option.some.injEq] at hrun
      subst hrun
      have hAlt : A < stM.media.flash.length := by
        rw [hflen]
        exact hhdN
      have hfb : ∀ b ∈ encodeFnode (openDesc name true A
          bufs.join.length).Fnode, b < 256 :=
        encodeFnode_lt (storeFilename_lt hname1 hnlt)
      have hle : HDRSIZE + (encodeFnode (openDesc name true A
          bufs.join.length).Fnode).length ≤
          (getSector stM.media.flash A).length := by
        rw [length_encodeFnode, hhd.2.1]
        show 24 + 80 ≤ S
        omega
      have hhd2 : SectorOk N S (stM.media.flash.set A
          (writeAt (getSector stM.media.flash A) HDRSIZE
            (encodeFnode (openDesc name true A bufs.join.length).Fnode)))
          A true (headOr NULLSEC tail) :=
        SectorOk_fnode_write (by omega) hhd hfb hAlt
      have htl2 : ChainSeg N S (stM.media.flash.set A
          (writeAt (getSector stM.media.flash A) HDRSIZE
            (encodeFnode (openDesc name true A bufs.join.length).Fnode)))
          tail false NULLSEC :=
        ChainSeg_congr
          (fun r hr => getSector_set_ne (fun he => hndc (he ▸ hr))) htl
      have hfnode2 : readAt (getSector (stM.media.flash.set A
          (writeAt (getSector stM.media.flash A) HDRSIZE
            (encodeFnode (openDesc name true A bufs.join.length).Fnode)))
          A) HDRSIZE FNODESIZE =
          encodeFnode (openDesc name true A bufs.join.length).Fnode := by
        rw [getSector_set_self hAlt]
        have h1 := readAt_writeAt_self hle
        rw [length_encodeFnode] at h1
        exact h1
      have htail2 : tail.length ≤ bufs.join.length := by
        have h1 : xs.length ≤ capSum S xs true :=
          capSum_ge_length (by omega) xs true
        have h2 : xs.length + 1 = tail.length + 1 := by
          have h3 := congrArg List.length hct
          simpa using h3
        omega
      have hhigh2 : bufs.join.length ≤ capSum S (A :: tail) true := by
        rw [← hct]
        exact hhigh
      have hpay : payload1 S (stM.media.flash.set A
          (writeAt (getSector stM.media.flash A) HDRSIZE
            (encodeFnode (openDesc name true A bufs.join.length).Fnode)))
          A true = payload1 S stM.media.flash A true := by
        rw [payload1, payload1, getSector_set_self hAlt]
        exact readAt_writeAt_right hle (by
          rw [length_encodeFnode]
          norm_num [HDRSIZE, hOff, FNODESIZE])
      have hcd2 : chainData S (stM.media.flash.set A
          (writeAt (getSector stM.media.flash A) HDRSIZE
            (encodeFnode (openDesc name true A bufs.join.length).Fnode)))
          tail false = chainData S stM.media.flash tail false :=
        chainData_congr
          (fun r hr => getSector_set_ne (fun he => hndc (he ▸ hr)))
      have htake2 : (chainData S (stM.media.flash.set A
          (writeAt (getSector stM.media.flash A) HDRSIZE
            (encodeFnode (openDesc name true A bufs.join.length).Fnode)))
          (A :: tail) true).take bufs.join.length = bufs.join := by
        rw [show chainData S (stM.media.flash.set A
            (writeAt (getSector stM.media.flash A) HDRSIZE
              (encodeFnode (openDesc name true A bufs.join.length).Fnode)))
            (A :: tail) true =
          payload1 S (stM.media.flash.set A
            (writeAt (getSector stM.media.flash A) HDRSIZE
              (encodeFnode (openDesc name true A bufs.join.length).Fnode)))
            A true ++
          chainData S (stM.media.flash.set A
            (writeAt (getSector stM.media.flash A) HDRSIZE
              (encodeFnode (openDesc name true A bufs.join.length).Fnode)))
            tail false from rfl]
        rw [hpay, hcd2]
        rw [show payload1 S stM.media.flash A true ++
            chainData S stM.media.flash tail false =
          chainData S stM.media.flash (A :: tail) true from rfl]
        rw [← hct]
        exact htake
      have hscan2 : ∀ s, s < N → s ∉ A :: tail →
          (decodeHeader (getSector (stM.media.flash.set A
            (writeAt (getSector stM.media.flash A) HDRSIZE
              (encodeFnode (openDesc name true A bufs.join.length).Fnode)))
            s)).Status = FFS_SECTOR_HEADER_INUSE_FILENODE →
          namesEq (decodeFnode (readAt (getSector (stM.media.flash.set A
            (writeAt (getSector stM.media.flash A) HDRSIZE
              (encodeFnode (openDesc name true A bufs.join.length).Fnode)))
            s) HDRSIZE FNODESIZE)).Filename name = false := by
        intro s hsN hsmem hstat
        exfalso
        rw [getSector_set_ne
            (fun he => hsmem (by rw [← he]; exact List.mem_cons_self A tail)),
          hvirgin s hsN (by rw [hct]; exact hsmem),
          virgin_status (by omega)] at hstat
        norm_num [FFS_SECTOR_HEADER_INUSE_FILENODE] at hstat
      exact readBack_chain hS1 hS2 hN (length_storeFilename hname1)
        (namesEq_store hname1 hnz) rfl rfl ⟨hhd2, htl2⟩
        hfnode2 htail2 hhigh2 htake2 hscan2 hpos (by omega)

/-- The state left by the concrete session open("a", CREATE),
write [1, 2, 3], close on a fresh 2-sector volume. -/
def c1st : FFSState :=
  (createSession 2 120 [97] [[1, 2, 3]]).getD (freshState 2 120)

set_option maxRecDepth 100000 in
theorem C1_witness :
    createSession 2 120 [97] [[1, 2, 3]] = some c1st ∧
    readBack 2 120 c1st [97] (List.join [[1, 2, 3]]).length =
      some (Int.ofNat (List.join [[1, 2, 3]]).length, List.join [[1, 2, 3]]) :=
  ⟨by decide,
   C1_round_trip 2 120 (by decide) (by decide) (by decide) (by decide)
     [97] [[1, 2, 3]] (by decide) (by decide) (by decide) (by decide)
     (by decide) (by decide) c1st (by decide)⟩

/-- C9 (amended): on any live create session, every write keeps the
driver trace patch-ordered — whenever the predecessor's Next field is
patched (a 4-byte driver write at offset 4 naming a new sector), the
new sector's header write (at offset 0) already appears earlier in the
trace.  The claim's stronger requirement — header and data before the
patch — fails: the new sector's data bytes are written only after the
patch, as the counterexample shows. -/
theorem C9_patch_ordering (N S : Nat) (hS1 : 104 < S) (hS2 : S + 104 < SZ32)
    (hN : N ≤ NULLSEC) (hN0 : 0 < N) (name data buf : Bytes)
    (st st2 : FFSState) (rc : Int)
    (hinv : SessionInv N S name data st)
    (hbuf : ∀ b ∈ buf, b < 256)
    (hsz : data.length + buf.length < SZ32)
    (hszS : data.length + S < SZ32)
    (hrun : FFSWrite N S st 0 buf = some (rc, st2)) :
    PatchOk st2.media.trace :=
  (session_step_inv hS1 hS2 hN hN0 hinv hbuf hsz hszS hrun).1

/-- Result state of the spanning 20-byte write on the freshly opened
2-sector volume. -/
def c9st : FFSState := ((spanningWrite).getD (0, freshState 2 120)).2

/-! Helpers for the rename development: byte-store algebra, filename
stores over a reused buffer, the first-free-sector walk, the payload
copy loop, and the missing-file open result. -/

theorem writeAt_nil {l : Bytes} {o : Nat} : writeAt l o [] = l := by
  simp [writeAt]

theorem writeAt_writeAt_append {l v1 v2 : Bytes} {o n : Nat}
    (hn : v1.length = n) (h : o + v1.length + v2.length ≤ l.length) :
    writeAt (writeAt l o v1) (o + n) v2 = writeAt l o (v1 ++ v2) := by
  subst hn
  apply List.ext_get?
  intro i
  have h1 : o + v1.length ≤ l.length := by omega
  have h2 : (writeAt l o v1).length = l.length := length_writeAt h1
  rw [@get?_writeAt (writeAt l o v1) v2 (o + v1.length) i (by rw [h2]; omega),
    @get?_writeAt l (v1 ++ v2) o i
      (by simp only [List.length_append]; omega),
    @get?_writeAt l v1 o i h1]
  by_cases hi2 : o + v1.length ≤ i ∧ i < o + v1.length + v2.length
  · rw [if_pos hi2, if_pos (by simp only [List.length_append]; omega),
      List.get?_append_right (by omega)]
    congr 1
    omega
  · rw [if_neg hi2]
    by_cases hi1 : o ≤ i ∧ i < o + v1.length
    · rw [if_pos hi1, if_pos (by simp only [List.length_append]; omega),
        List.get?_append (by omega)]
    · rw [if_neg hi1, if_neg (by simp only [List.length_append]; omega)]

/-- strcpy of a short name over an arbitrary 65-byte buffer: the stored
bytes are the name, its NUL, and the stale tail of the buffer. -/
theorem storeFilename_any_eq {buf nm : Bytes} (h : nm.length ≤ 64) :
    storeFilename buf nm = nm ++ 0 :: buf.drop (nm.length + 1) := by
  rw [storeFilename, if_neg (by omega), strcpyBuf, writeAt]
  simp [List.append_assoc]

theorem length_storeFilename_any {buf nm : Bytes} (h : nm.length ≤ 64)
    (hb : nm.length + 1 ≤ buf.length) :
    (storeFilename buf nm).length = buf.length := by
  rw [storeFilename_any_eq h]
  simp only [List.length_append, List.length_cons, List.length_drop]
  omega

theorem storeFilename_any_lt {buf nm : Bytes} (h : nm.length ≤ 64)
    (hbuf : ∀ b ∈ buf, b < 256) (hn : ∀ b ∈ nm, b < 256) :
    ∀ b ∈ storeFilename buf nm, b < 256 := by
  rw [storeFilename_any_eq h]
  intro b hb
  rcases List.mem_append.1 hb with h1 | h1
  · exact hn b h1
  · rcases List.mem_cons.1 h1 with h2 | h2
    · subst h2
      norm_num
    · exact hbuf b (List.mem_of_mem_drop h2)

/-- The case-insensitive comparison sees only the C-string prefix, which
is the stored name whatever the buffer previously held. -/
theorem namesEq_store_any {buf nm other : Bytes} (h : nm.length ≤ 64)
    (hz : ∀ b ∈ nm, b ≠ 0) :
    namesEq (storeFilename buf nm) other = namesEq nm other := by
  rw [namesEq, namesEq, storeFilename_any_eq h, cstr_append_zero hz,
    cstr_all hz]

theorem beq_comm_bytes (x y : Bytes) : (x == y) = (y == x) := by
  by_cases h : x = y
  · subst h
    rfl
  · rw [beq_eq_false_iff_ne.2 h, beq_eq_false_iff_ne.2 (Ne.symm h)]

theorem namesEq_symm (a b : Bytes) : namesEq a b = namesEq b a := by
  rw [namesEq, namesEq, beq_comm_bytes]

/-- Rewriting the 4 bytes at the Version field sets the Status byte. -/
theorem status_patch_status {b : Bytes} {p : FFS_SECTOR_HEADER}
    (h : 16 ≤ b.length) :
    (decodeHeader (writeAt b 12 (statusPatchBytes p))).Status =
      p.Status % 256 := by
  show de (readAt (writeAt b 12 (statusPatchBytes p)) 13 1) = p.Status % 256
  rw [@readAt_writeAt_inside b (statusPatchBytes p) 12 13 1
    (by simp only [length_statusPatchBytes]; omega) (by omega)
    (by simp only [length_statusPatchBytes]; omega)]
  show de [p.Status % 256] = p.Status % 256
  rw [de_cons, de_nil]
  omega

/-- A data write at or past the header keeps a chain sector well-formed. -/
theorem SectorOk_data_write {N S : Nat} {fl : List Bytes} {A o : Nat}
    {v : Bytes} {f : Bool} {nxt : Nat}
    (ho : 24 ≤ o) (hov : o + v.length ≤ S)
    (hok : SectorOk N S fl A f nxt)
    (hv : ∀ b ∈ v, b < 256)
    (hlen : A < fl.length) :
    SectorOk N S (fl.set A (writeAt (getSector fl A) o v)) A f nxt := by
  obtain ⟨hN', hL, hB, hK, hNx, hSt, hSL, hDO⟩ := hok
  have hg : getSector (fl.set A (writeAt (getSector fl A) o v)) A =
      writeAt (getSector fl A) o v := getSector_set_self hlen
  have hwl : o + v.length ≤ (getSector fl A).length := by omega
  have hdec : decodeHeader (writeAt (getSector fl A) o v) =
      decodeHeader (getSector fl A) := decodeHeader_writeAt_data ho hwl
  refine ⟨hN', ?_, ?_, ?_, ?_, ?_, ?_, ?_⟩
  · rw [hg, length_writeAt hwl, hL]
  · rw [hg]
    exact writeAt_lt hB hv
  · rw [hg, hdec]
    exact hK
  · rw [hg, hdec]
    exact hNx
  · rw [hg, hdec]
    exact hSt
  · rw [hg, hdec]
    exact hSL
  · rw [hg, hdec]
    exact hDO

/-- The free-sector scan returns the first sector whose key fails the
sanity check, skipping in-use sectors before it. -/
theorem FindFreeSectorAux_at {N S : Nat} {fl : List Bytes} {a0 : Nat}
    (ha0 : a0 < N)
    (hvir : (decodeHeader (getSector fl a0)).Key ≠ FFS_SECTOR_HEADER_KEY) :
    ∀ (fuel Sector : Nat), Sector ≤ a0 → a0 - Sector < fuel →
      (∀ s, Sector ≤ s → s < a0 →
        (decodeHeader (getSector fl s)).Key = FFS_SECTOR_HEADER_KEY ∧
        ¬((decodeHeader (getSector fl s)).Status = FFS_SECTOR_HEADER_FREE ∨
          (decodeHeader (getSector fl s)).Status =
            FFS_SECTOR_HEADER_FREE_DIRTY)) →
      FindFreeSectorAux N S fl fuel Sector =
        some (a0, decodeHeader (getSector fl a0)) := by
  intro fuel
  induction fuel with
  | zero => intro Sector h1 h2 _; omega
  | succ k ih =>
      intro Sector h1 h2 hno
      rw [FindFreeSectorAux,
        if_pos (by rw [getFlashSectionEntry_single,
          if_pos (by omega : Sector < N)]; rfl)]
      by_cases hsh : Sector = a0
      · subst hsh
        rw [if_neg hvir]
      · obtain ⟨hkey, hst⟩ := hno Sector (le_refl _) (by omega)
        rw [if_pos hkey, if_neg hst]
        exact ih (Sector + 1) (by omega) (by omega)
          (fun s hs1 hs2 => hno s (by omega) hs2)

/-- Allocation on a volume whose first non-file sector a0 is still
virgin: a0 is erased and given the filenode header. -/
theorem AllocateSectorWithFilenode_at {N S : Nat} {m : Media} {a0 : Nat}
    (hS : 104 ≤ S) (ha0 : a0 < N) (hflen : m.flash.length = N)
    (hvir : getSector m.flash a0 = virginSector S)
    (hbelow : ∀ s, s < a0 →
      (decodeHeader (getSector m.flash s)).Key = FFS_SECTOR_HEADER_KEY ∧
      ¬((decodeHeader (getSector m.flash s)).Status = FFS_SECTOR_HEADER_FREE ∨
        (decodeHeader (getSector m.flash s)).Status =
          FFS_SECTOR_HEADER_FREE_DIRTY)) :
    AllocateSectorWithFilenode N S m = .ok (a0, allocFnodeHeader S NULLSEC,
      { flash := m.flash.set a0 (writeAt (List.replicate S 255) 0
          (encodeHeader (allocFnodeHeader S NULLSEC)))
        trace := m.trace ++ [.erase a0,
          .write a0 0 (encodeHeader (allocFnodeHeader S NULLSEC))] }) := by
  have hfind : FindFreeSector N S m.flash =
      some (a0, decodeHeader (getSector m.flash a0)) :=
    FindFreeSectorAux_at ha0
      (by rw [hvir, virgin_key hS]; norm_num [FFS_SECTOR_HEADER_KEY])
      (N + 1) 0 (Nat.zero_le _) (by omega)
      (fun s _ hs2 => hbelow s hs2)
  rw [AllocateSectorWithFilenode, hfind]
  simp only [hvir, virgin_eraseCount hS]
  rw [EraseSectorIgn_valid ha0, WriteSectorIgn_valid ha0]
  simp only [Except.ok.injEq, Prod.mk.injEq, true_and]
  refine ⟨by rw [allocFnodeHeader], ?_⟩
  rw [getSector_set_self (by omega), List.set_set]
  simp only [Media.mk.injEq]
  constructor
  · rw [allocFnodeHeader]
  · rw [allocFnodeHeader]
    simp [List.append_assoc]

/-- The rename copy loop splices the source window into the destination
sector in one go; no other sector changes. -/
theorem CopyLoopAux_spec {N S : Nat} {src dst : Nat}
    (hsrc : src < N) (hdst : dst < N) (hne : src ≠ dst) (hSlt : S < SZ32) :
    ∀ (fuel L O : Nat) (m : Media),
      m.flash.length = N →
      (getSector m.flash dst).length = S →
      (getSector m.flash src).length = S →
      O + L ≤ S →
      L < fuel →
      ∃ t2, CopyLoopAux N S fuel m src dst O L =
        some { flash := m.flash.set dst (writeAt (getSector m.flash dst) O
                 (readAt (getSector m.flash src) O L))
               trace := m.trace ++ t2 } := by
  intro fuel
  induction fuel with
  | zero => intro L O m _ _ _ _ h; omega
  | succ k ih =>
      intro L O m hmlen hdlen hslen hOL hfuel
      by_cases hL : L = 0
      · subst hL
        refine ⟨[], ?_⟩
        rw [CopyLoopAux, if_pos rfl]
        rw [show readAt (getSector m.flash src) O 0 = [] from by
          simp [readAt]]
        rw [writeAt_nil, set_getSector_self, List.append_nil]
      · rw [CopyLoopAux, if_neg hL]
        simp only []
        set n := if L < 100 then L else 100 with hn
        have hn1 : 1 ≤ n := by rw [hn]; split <;> omega
        have hnL : n ≤ L := by rw [hn]; split <;> omega
        rw [show ReadSector N S m.flash src O n =
            .ok (readAt (getSector m.flash src) O n)
          from by rw [ReadSector, getFlashSectionEntry_single, if_pos hsrc]]
        simp only []
        rw [WriteSectorIgn_valid hdst]
        rw [mod32_small (show O + n < SZ32 from by omega)]
        have hdln : dst < m.flash.length := by omega
        have hc1len : (readAt (getSector m.flash src) O n).length = n :=
          length_readAt (by omega)
        have hc2len : (readAt (getSector m.flash src) (O + n)
              (L - n)).length = L - n :=
          length_readAt (by omega)
        have hg1 : getSector (m.flash.set dst (writeAt (getSector m.flash dst)
            O (readAt (getSector m.flash src) O n))) dst =
            writeAt (getSector m.flash dst) O
              (readAt (getSector m.flash src) O n) :=
          getSector_set_self hdln
        have hg2 : getSector (m.flash.set dst (writeAt (getSector m.flash dst)
            O (readAt (getSector m.flash src) O n))) src =
            getSector m.flash src := getSector_set_ne (Ne.symm hne)
        have hrec := ih (L - n) (O + n)
          { flash := m.flash.set dst (writeAt (getSector m.flash dst) O
              (readAt (getSector m.flash src) O n))
            trace := m.trace ++ [.write dst O
              (readAt (getSector m.flash src) O n)] }
          (show (m.flash.set dst (writeAt (getSector m.flash dst) O
              (readAt (getSector m.flash src) O n))).length = N from by
            simp only [List.length_set]
            exact hmlen)
          (show (getSector (m.flash.set dst (writeAt (getSector m.flash dst) O
              (readAt (getSector m.flash src) O n))) dst).length = S from by
            rw [hg1, length_writeAt (by rw [hdlen, hc1len]; omega), hdlen])
          (show (getSector (m.flash.set dst (writeAt (getSector m.flash dst) O
              (readAt (getSector m.flash src) O n))) src).length = S from by
            rw [hg2]
            exact hslen)
          (show O + n + (L - n) ≤ S from by omega)
          (show L - n < k from by omega)
        obtain ⟨t2, hrec2⟩ := hrec
        simp only [] at hrec2
        rw [hrec2]
        refine ⟨Ev.write dst O (readAt (getSector m.flash src) O n) :: t2, ?_⟩
        simp only [Option.some.injEq, Media.mk.injEq]
        constructor
        · rw [hg2, hg1, List.set_set]
          rw [writeAt_writeAt_append hc1len
            (show O + (readAt (getSector m.flash src) O n).length +
              (readAt (getSector m.flash src) (O + n) (L - n)).length ≤
              (getSector m.flash dst).length from by
                rw [hc1len, hc2len, hdlen]
                omega)]
          rw [show readAt (getSector m.flash src) O n ++
              readAt (getSector m.flash src) (O + n) (L - n) =
            readAt (getSector m.flash src) O L from by
              nth_rewrite 2 [show L = n + (L - n) from by omega]
              exact (readAt_split (show O + n + (L - n) ≤
                (getSector m.flash src).length from by omega)).symm]
        · simp [List.append_assoc]

/-- open of a name the scan does not find, with flags RDONLY, reports
FILE_DOES_NOT_EXIST. -/
theorem FFSOpen_missing {N S : Nat} {st : FFSState} {name : Bytes}
    {fd : Nat} {fds1 : List FFS_FILE_DESCRIPTOR}
    (hgd : GetDescriptor st.FileDescriptors = some (fd, fds1))
    (hloc : LocateFileNode N S st.media.flash name = none) :
    (FFSOpen N S st name FFS_RDONLY 0).1 = FFS_RC_FILE_DOES_NOT_EXIST := by
  rw [FFSOpen, hgd]
  simp only []
  rw [hloc]
  simp only []
  split
  · rfl
  · next hcon => exact absurd ⟨by decide, trivial⟩ hcon

/-- Equal-sounding names compare equally against any third name. -/
theorem namesEq_trans_ne {a b c : Bytes} (h1 : namesEq a b = true)
    (h2 : namesEq b c = false) : namesEq a c = false := by
  rw [namesEq] at h1 h2 ⊢
  rw [eq_of_beq h1]
  exact h2

/-- Renaming the single-sector file oldN to newN: a fresh filenode
sector a0 is allocated, the head payload is copied, the filenode is
rewritten with the new name (stale name-buffer tail included), and the
old head is marked FREE_DIRTY. -/
theorem FFSRename_single {N S : Nat} (hS1 : 104 < S) (hS2 : S + 104 < SZ32)
    {oldN newN data : Bytes} {stC : FFSState}
    {hd a0 : Nat} {fname : Bytes}
    (hnew1 : newN.length ≤ 64)
    (hdiff : namesEq oldN newN = false)
    (hflen : stC.media.flash.length = N)
    (hhd : SectorOk N S stC.media.flash hd true NULLSEC)
    (hflen65 : fname.length = 65)
    (hmatch : namesEq fname oldN = true)
    (hfnode : readAt (getSector stC.media.flash hd) HDRSIZE FNODESIZE =
      encodeFnode { Permissions := 0
                    Filename := fname
                    FileSize := data.length
                    DataTime := 0
                    Count := 0 })
    (hvirgin : ∀ s, s < N → s ≠ hd →
      getSector stC.media.flash s = virginSector S)
    (ha0N : a0 < N) (ha0hd : a0 ≠ hd)
    (hbelow : ∀ s, s < a0 → s = hd)
    (hsz : data.length < SZ32) :
    ∃ t5, FFSRename N S stC oldN newN = some (0,
      { stC with media :=
        { flash := (stC.media.flash.set a0
            (writeAt (writeAt (writeAt (List.replicate S 255) 0
                (encodeHeader (allocFnodeHeader S NULLSEC)))
              (hOff true) (readAt (getSector stC.media.flash hd) (hOff true)
                (S - hOff true)))
              HDRSIZE (encodeFnode { Permissions := 0
                                     Filename := storeFilename fname newN
                                     FileSize := data.length
                                     DataTime := 0
                                     Count := 0 }))).set hd
            (writeAt (getSector stC.media.flash hd) 12
              (statusPatchBytes { allocFnodeHeader S NULLSEC with
                Status := FFS_SECTOR_HEADER_FREE_DIRTY }))
          trace := stC.media.trace ++ t5 } }) := by
  obtain ⟨hhdN, hbl, hbb, hK, hNx, hSt, hSL, hDO⟩ := hhd
  have hm1 : (decodeHeader (getSector stC.media.flash hd)).Status =
      FFS_SECTOR_HEADER_INUSE_FILENODE := by
    simpa using hSt
  have hm2 : namesEq (decodeFnode (readAt (getSector stC.media.flash hd)
      HDRSIZE FNODESIZE)).Filename oldN = true := by
    rw [hfnode, decodeFnode_encodeFnode]
    show namesEq (pad65 fname) oldN = true
    rw [pad65_eq hflen65]
    exact hmatch
  have hno : ∀ s, 0 ≤ s → s < hd →
      (decodeHeader (getSector stC.media.flash s)).Status =
        FFS_SECTOR_HEADER_INUSE_FILENODE →
      namesEq (decodeFnode (readAt (getSector stC.media.flash s) HDRSIZE
        FNODESIZE)).Filename oldN = false := by
    intro s _ hsh hstat
    exfalso
    rw [hvirgin s (by omega) (by omega), virgin_status (by omega)] at hstat
    norm_num [FFS_SECTOR_HEADER_INUSE_FILENODE] at hstat
  have hlocOld : LocateFileNode N S stC.media.flash oldN =
      some ({ Permissions := 0
              Filename := fname
              FileSize := data.length
              DataTime := 0
              Count := 0 }, hd) := by
    rw [LocateFileNode,
      LocateFileNodeAux_find hhdN hm1 hm2 (N + 1) 0 (Nat.zero_le _)
        (by omega) hno]
    rw [hfnode, decodeFnode_encodeFnode]
    simp only []
    rw [pad65_eq hflen65, mod32_small hsz]
    norm_num
  have hlocNew : LocateFileNode N S stC.media.flash newN = none := by
    rw [LocateFileNode]
    apply LocateFileNodeAux_none (N + 1) 0 (by omega)
    intro s _ hsN hstat
    by_cases hsh : s = hd
    · subst hsh
      rw [hfnode, decodeFnode_encodeFnode]
      show namesEq (pad65 fname) newN = false
      rw [pad65_eq hflen65]
      exact namesEq_trans_ne hmatch hdiff
    · exfalso
      rw [hvirgin s hsN hsh, virgin_status (by omega)] at hstat
      norm_num [FFS_SECTOR_HEADER_INUSE_FILENODE] at hstat
  have hbelow2 : ∀ s, s < a0 →
      (decodeHeader (getSector stC.media.flash s)).Key =
        FFS_SECTOR_HEADER_KEY ∧
      ¬((decodeHeader (getSector stC.media.flash s)).Status =
          FFS_SECTOR_HEADER_FREE ∨
        (decodeHeader (getSector stC.media.flash s)).Status =
          FFS_SECTOR_HEADER_FREE_DIRTY) := by
    intro s hs
    rw [hbelow s hs]
    refine ⟨hK, ?_⟩
    rw [hSt]
    norm_num [FFS_SECTOR_HEADER_INUSE_FILENODE, FFS_SECTOR_HEADER_FREE,
      FFS_SECTOR_HEADER_FREE_DIRTY]
  rw [FFSRename, hlocOld]
  simp only []
  rw [hlocNew]
  simp only []
  rw [readHdr_valid hhdN]
  simp only []
  rw [decodeHeader_hdr]
  rw [hSL, hDO, hNx]
  rw [sub32_small (by have := hOff_le true; omega) (by omega)]
  rw [AllocateSectorWithFilenode_at (by omega) ha0N hflen
    (hvirgin a0 ha0N ha0hd) hbelow2]
  simp only []
  split
  · next hne =>
      exfalso
      apply hne
      exact (sub32_small (by have := hOff_le true; omega) (by omega)).symm
  · have hga0 : getSector (stC.media.flash.set a0
        (writeAt (List.replicate S 255) 0
          (encodeHeader (allocFnodeHeader S NULLSEC)))) a0 =
        writeAt (List.replicate S 255) 0
          (encodeHeader (allocFnodeHeader S NULLSEC)) :=
      getSector_set_self (by omega)
    have hghd : getSector (stC.media.flash.set a0
        (writeAt (List.replicate S 255) 0
          (encodeHeader (allocFnodeHeader S NULLSEC)))) hd =
        getSector stC.media.flash hd := getSector_set_ne ha0hd
    have hcopy := CopyLoopAux_spec hhdN ha0N (fun h => ha0hd h.symm)
      (by omega) (S - hOff true + 1) (S - hOff true) (hOff true)
      { flash := stC.media.flash.set a0
          (writeAt (List.replicate S 255) 0
            (encodeHeader (allocFnodeHeader S NULLSEC)))
        trace := stC.media.trace ++ [.erase a0,
          .write a0 0 (encodeHeader (allocFnodeHeader S NULLSEC))] }
      (show (stC.media.flash.set a0 (writeAt (List.replicate S 255) 0
          (encodeHeader (allocFnodeHeader S NULLSEC)))).length = N from by
        simp only [List.length_set]
        exact hflen)
      (show (getSector (stC.media.flash.set a0
          (writeAt (List.replicate S 255) 0
            (encodeHeader (allocFnodeHeader S NULLSEC)))) a0).length = S
        from by
        rw [hga0]
        exact allocBytes_length (by omega) _)
      (show (getSector (stC.media.flash.set a0
          (writeAt (List.replicate S 255) 0
            (encodeHeader (allocFnodeHeader S NULLSEC)))) hd).length = S
        from by
        rw [hghd]
        exact hbl)
      (show hOff true + (S - hOff true) ≤ S from by
        have := hOff_le true
        omega)
      (by omega)
    obtain ⟨t2, hcopy2⟩ := hcopy
    simp only [] at hcopy2
    rw [hga0, hghd, List.set_set] at hcopy2
    rw [show (allocFnodeHeader S NULLSEC).DataOffset = hOff true from rfl]
    rw [hcopy2]
    simp only []
    rw [if_neg (show ¬(NULLSEC ≠ NULLSEC) from fun h => h rfl)]
    rw [WriteSectorIgn_valid ha0N]
    rw [show getSector (stC.media.flash.set a0
        (writeAt (writeAt (List.replicate S 255) 0
            (encodeHeader (allocFnodeHeader S NULLSEC)))
          (hOff true) (readAt (getSector stC.media.flash hd) (hOff true)
            (S - hOff true)))) a0 =
      writeAt (writeAt (List.replicate S 255) 0
          (encodeHeader (allocFnodeHeader S NULLSEC)))
        (hOff true) (readAt (getSector stC.media.flash hd) (hOff true)
          (S - hOff true)) from getSector_set_self (by omega)]
    rw [List.set_set]
    rw [WriteSectorIgn_valid hhdN]
    rw [show getSector (stC.media.flash.set a0
        (writeAt (writeAt (writeAt (List.replicate S 255) 0
              (encodeHeader (allocFnodeHeader S NULLSEC)))
            (hOff true) (readAt (getSector stC.media.flash hd) (hOff true)
              (S - hOff true)))
          HDRSIZE (encodeFnode { Permissions := 0
                                 Filename := storeFilename fname newN
                                 FileSize := data.length
                                 DataTime := 0
                                 Count := 0 }))) hd =
      getSector stC.media.flash hd from getSector_set_ne ha0hd]
    refine ⟨[.erase a0, .write a0 0 (encodeHeader (allocFnodeHeader S
        NULLSEC))] ++ t2 ++
      [.write a0 HDRSIZE (encodeFnode { Permissions := 0
                                        Filename := storeFilename fname newN
                                        FileSize := data.length
                                        DataTime := 0
                                        Count := 0 }),
       .write hd 12 (statusPatchBytes { allocFnodeHeader S NULLSEC with
         Status := FFS_SECTOR_HEADER_FREE_DIRTY })], ?_⟩
    simp [List.append_assoc]
    rfl

/-- On the renamed volume — new filenode sector a0, old head hd marked
FREE_DIRTY — open of the old name misses every sector and read-back of
the new name returns the copied payload prefix. -/
theorem rename_state_facts {N S : Nat} (hS1 : 104 < S) (hS2 : S + 104 < SZ32)
    (hN : N ≤ NULLSEC) {oldN newN data fname : Bytes} {stC st2 : FFSState}
    {hd a0 : Nat} {cd : FFS_FILE_DESCRIPTOR}
    (hnew1 : newN.length ≤ 64) (hnewz : ∀ b ∈ newN, b ≠ 0)
    (hnewlt : ∀ b ∈ newN, b < 256)
    (hdiff : namesEq oldN newN = false)
    (hcd : cd.InUse = false)
    (hflen : stC.media.flash.length = N)
    (hhd : SectorOk N S stC.media.flash hd true NULLSEC)
    (hflen65 : fname.length = 65)
    (hflt : ∀ b ∈ fname, b < 256)
    (hcap : data.length ≤ S - 104)
    (htake : (payload1 S stC.media.flash hd true).take data.length = data)
    (hvirgin : ∀ s, s < N → s ≠ hd →
      getSector stC.media.flash s = virginSector S)
    (ha0N : a0 < N) (ha0hd : a0 ≠ hd)
    (hpos : 0 < data.length) (hsz : data.length < SZ32)
    (hfds2 : st2.FileDescriptors = [cd, zeroDescriptor])
    (hfl2 : st2.media.flash = (stC.media.flash.set a0
        (writeAt (writeAt (writeAt (List.replicate S 255) 0
            (encodeHeader (allocFnodeHeader S NULLSEC)))
          (hOff true) (readAt (getSector stC.media.flash hd) (hOff true)
            (S - hOff true)))
          HDRSIZE (encodeFnode { Permissions := 0
                                 Filename := storeFilename fname newN
                                 FileSize := data.length
                                 DataTime := 0
                                 Count := 0 }))).set hd
        (writeAt (getSector stC.media.flash hd) 12
          (statusPatchBytes { allocFnodeHeader S NULLSEC with
            Status := FFS_SECTOR_HEADER_FREE_DIRTY }))) :
    ((0 : Int), (FFSOpen N S st2 oldN FFS_RDONLY 0).1,
      readBack N S st2 newN data.length) =
    ((0 : Int), FFS_RC_FILE_DOES_NOT_EXIST,
      some (Int.ofNat data.length, data)) := by
  obtain ⟨hhdN, hbl, hbb, hK, hNx, hSt, hSL, hDO⟩ := hhd
  have hpaylen : (readAt (getSector stC.media.flash hd) (hOff true)
      (S - hOff true)).length = S - hOff true :=
    length_readAt (by have := hOff_le true; omega)
  have hvlen : (writeAt (List.replicate S 255) 0
      (encodeHeader (allocFnodeHeader S NULLSEC))).length = S :=
    allocBytes_length (by omega) _
  have hB2len : (writeAt (writeAt (List.replicate S 255) 0
      (encodeHeader (allocFnodeHeader S NULLSEC)))
      (hOff true) (readAt (getSector stC.media.flash hd) (hOff true)
        (S - hOff true))).length = S := by
    rw [length_writeAt (by rw [hpaylen, hvlen]; have := hOff_le true; omega),
      hvlen]
  have hg4hd : getSector st2.media.flash hd =
      writeAt (getSector stC.media.flash hd) 12
        (statusPatchBytes { allocFnodeHeader S NULLSEC with
          Status := FFS_SECTOR_HEADER_FREE_DIRTY }) := by
    rw [hfl2]
    exact getSector_set_self (by simp only [List.length_set]; omega)
  have hg4a0 : getSector st2.media.flash a0 =
      writeAt (writeAt (writeAt (List.replicate S 255) 0
          (encodeHeader (allocFnodeHeader S NULLSEC)))
        (hOff true) (readAt (getSector stC.media.flash hd) (hOff true)
          (S - hOff true)))
        HDRSIZE (encodeFnode { Permissions := 0
                               Filename := storeFilename fname newN
                               FileSize := data.length
                               DataTime := 0
                               Count := 0 }) := by
    rw [hfl2, getSector_set_ne (Ne.symm ha0hd)]
    exact getSector_set_self (by omega)
  have hg4other : ∀ s, s ≠ hd → s ≠ a0 →
      getSector st2.media.flash s = getSector stC.media.flash s := by
    intro s h1 h2
    rw [hfl2, getSector_set_ne (Ne.symm h1), getSector_set_ne (Ne.symm h2)]
  have hstHdne : (decodeHeader (getSector st2.media.flash hd)).Status ≠
      FFS_SECTOR_HEADER_INUSE_FILENODE := by
    rw [hg4hd, status_patch_status (by omega)]
    norm_num [FFS_SECTOR_HEADER_FREE_DIRTY, FFS_SECTOR_HEADER_INUSE_FILENODE]
  have sok1 : SectorOk N S (stC.media.flash.set a0
      (writeAt (List.replicate S 255) 0
        (encodeHeader (allocFnodeHeader S NULLSEC)))) a0 true NULLSEC :=
    SectorOk_alloc_fnode (by omega) (by omega) hflen ha0N
  have sok2 := @SectorOk_data_write N S
    (stC.media.flash.set a0 (writeAt (List.replicate S 255) 0
      (encodeHeader (allocFnodeHeader S NULLSEC))))
    a0 (hOff true)
    (readAt (getSector stC.media.flash hd) (hOff true) (S - hOff true))
    true NULLSEC
    (by have := hOff_ge true; omega)
    (by rw [hpaylen]; have := hOff_le true; omega) sok1
    (readAt_lt hbb (hOff true) (S - hOff true))
    (by simp only [List.length_set]; omega)
  rw [getSector_set_self (show a0 < stC.media.flash.length from by omega),
    List.set_set] at sok2
  have sok3 := @SectorOk_data_write N S
    (stC.media.flash.set a0 (writeAt (writeAt (List.replicate S 255) 0
        (encodeHeader (allocFnodeHeader S NULLSEC)))
      (hOff true) (readAt (getSector stC.media.flash hd) (hOff true)
        (S - hOff true))))
    a0 HDRSIZE
    (encodeFnode { Permissions := 0
                   Filename := storeFilename fname newN
                   FileSize := data.length
                   DataTime := 0
                   Count := 0 })
    true NULLSEC
    (by norm_num [HDRSIZE])
    (by rw [length_encodeFnode]; norm_num [HDRSIZE]; omega) sok2
    (encodeFnode_lt (storeFilename_any_lt hnew1 hflt hnewlt))
    (by simp only [List.length_set]; omega)
  rw [getSector_set_self (show a0 < stC.media.flash.length from by omega),
    List.set_set] at sok3
  have sok4 : SectorOk N S st2.media.flash a0 true NULLSEC :=
    SectorOk_congr (by
      rw [hg4a0]
      exact (getSector_set_self (by omega)).symm) sok3
  have h65 : (storeFilename fname newN).length = 65 := by
    rw [length_storeFilename_any hnew1 (by omega)]
    exact hflen65
  have hfnodeA0 : readAt (getSector st2.media.flash a0) HDRSIZE FNODESIZE =
      encodeFnode { Permissions := 0
                    Filename := storeFilename fname newN
                    FileSize := data.length
                    DataTime := 0
                    Count := 0 } := by
    rw [hg4a0]
    have h1 := @readAt_writeAt_self
      (writeAt (writeAt (List.replicate S 255) 0
          (encodeHeader (allocFnodeHeader S NULLSEC)))
        (hOff true) (readAt (getSector stC.media.flash hd) (hOff true)
          (S - hOff true)))
      (encodeFnode { Permissions := 0
                     Filename := storeFilename fname newN
                     FileSize := data.length
                     DataTime := 0
                     Count := 0 })
      HDRSIZE
      (by rw [length_encodeFnode, hB2len]; norm_num [HDRSIZE]; omega)
    rw [length_encodeFnode] at h1
    exact h1
  have hlocNone : LocateFileNode N S st2.media.flash oldN = none := by
    rw [LocateFileNode]
    apply LocateFileNodeAux_none (N + 1) 0 (by omega)
    intro s _ hsN hstat
    by_cases h1 : s = hd
    · subst h1
      exact absurd hstat hstHdne
    · by_cases h2 : s = a0
      · subst h2
        rw [hfnodeA0, decodeFnode_encodeFnode]
        show namesEq (pad65 (storeFilename fname newN)) oldN = false
        rw [pad65_eq h65, namesEq_store_any hnew1 hnewz,
          namesEq_symm newN oldN]
        exact hdiff
      · exfalso
        rw [hg4other s h1 h2, hvirgin s hsN h1,
          virgin_status (by omega)] at hstat
        norm_num [FFS_SECTOR_HEADER_INUSE_FILENODE] at hstat
  have hgd2 : GetDescriptor st2.FileDescriptors =
      some (0, [{ zeroDescriptor with InUse := true }, zeroDescriptor]) := by
    rw [hfds2, GetDescriptor,
      show GetDescriptorAux [cd, zeroDescriptor] 0 =
        if !cd.InUse then some 0 else GetDescriptorAux [zeroDescriptor] 1
      from rfl, hcd]
    rfl
  have hopen1 : (FFSOpen N S st2 oldN FFS_RDONLY 0).1 =
      FFS_RC_FILE_DOES_NOT_EXIST := FFSOpen_missing hgd2 hlocNone
  have hmatchNew : namesEq (storeFilename fname newN) newN = true := by
    rw [namesEq_store_any hnew1 hnewz, namesEq]
    exact beq_self_eq_true _
  have htake2 : (chainData S st2.media.flash (a0 :: []) true).take
      data.length = data := by
    rw [show chainData S st2.media.flash (a0 :: []) true =
      payload1 S st2.media.flash a0 true ++
        chainData S st2.media.flash [] false from rfl]
    rw [show chainData S st2.media.flash ([] : List Nat) false = [] from rfl,
      List.append_nil]
    rw [payload1, hg4a0]
    rw [readAt_writeAt_right
      (by rw [length_encodeFnode, hB2len]; norm_num [HDRSIZE]; omega)
      (by rw [length_encodeFnode]; have := hOff_ge true
          norm_num [HDRSIZE, hOff, FNODESIZE])]
    have h1 := @readAt_writeAt_self
      (writeAt (List.replicate S 255) 0
        (encodeHeader (allocFnodeHeader S NULLSEC)))
      (readAt (getSector stC.media.flash hd) (hOff true) (S - hOff true))
      (hOff true)
      (by rw [hpaylen, hvlen]; have := hOff_le true; omega)
    rw [hpaylen] at h1
    rw [h1]
    exact htake
  have hscan2 : ∀ s, s < N → s ∉ (a0 :: []) →
      (decodeHeader (getSector st2.media.flash s)).Status =
          FFS_SECTOR_HEADER_INUSE_FILENODE →
      namesEq (decodeFnode (readAt (getSector st2.media.flash s) HDRSIZE
        FNODESIZE)).Filename newN = false := by
    intro s hsN hmem hstat
    by_cases h1 : s = hd
    · subst h1
      exact absurd hstat hstHdne
    · exfalso
      have h2 : s ≠ a0 := by
        intro he
        apply hmem
        rw [he]
        exact List.mem_cons_self _ _
      rw [hg4other s h1 h2, hvirgin s hsN h1,
        virgin_status (by omega)] at hstat
      norm_num [FFS_SECTOR_HEADER_INUSE_FILENODE] at hstat
  have hrb := readBack_chain hS1 hS2 hN h65 hmatchNew hfds2 hcd
    (show ChainSeg N S st2.media.flash (a0 :: []) true NULLSEC from
      ⟨sok4, trivial⟩)
    hfnodeA0 (Nat.zero_le _)
    (show data.length ≤ S - 104 + 0 from by omega) htake2 hscan2 hpos hsz
  rw [hopen1, hrb]

/-- C6 (amended): renaming a volume's single file succeeds and preserves
its content — open(new) followed by read returns the pre-rename bytes —
and open of the old name afterwards fails with FILE_DOES_NOT_EXIST (-2),
not the FILE_NOT_FOUND (-7) the claim states. -/
theorem C6_rename_round_trip (N S : Nat) (hS1 : 104 < S)
    (hS2 : S + 104 < SZ32) (hN : N ≤ NULLSEC)
    (oldN newN data fname : Bytes) (stC : FFSState) (hd a0 : Nat)
    (cd : FFS_FILE_DESCRIPTOR)
    (hnew1 : newN.length ≤ 64) (hnewz : ∀ b ∈ newN, b ≠ 0)
    (hnewlt : ∀ b ∈ newN, b < 256)
    (hdiff : namesEq oldN newN = false)
    (hfds : stC.FileDescriptors = [cd, zeroDescriptor])
    (hcd : cd.InUse = false)
    (hflen : stC.media.flash.length = N)
    (hhd : SectorOk N S stC.media.flash hd true NULLSEC)
    (hflen65 : fname.length = 65)
    (hflt : ∀ b ∈ fname, b < 256)
    (hmatch : namesEq fname oldN = true)
    (hfnode : readAt (getSector stC.media.flash hd) HDRSIZE FNODESIZE =
      encodeFnode { Permissions := 0
                    Filename := fname
                    FileSize := data.length
                    DataTime := 0
                    Count := 0 })
    (hcap : data.length ≤ S - 104)
    (htake : (payload1 S stC.media.flash hd true).take data.length = data)
    (hvirgin : ∀ s, s < N → s ≠ hd →
      getSector stC.media.flash s = virginSector S)
    (ha0N : a0 < N) (ha0hd : a0 ≠ hd) (hbelow : ∀ s, s < a0 → s = hd)
    (hpos : 0 < data.length) (hsz : data.length < SZ32) :
    (FFSRename N S stC oldN newN).map (fun p => (p.1,
        (FFSOpen N S p.2 oldN FFS_RDONLY 0).1,
        readBack N S p.2 newN data.length)) =
      some ((0 : Int), FFS_RC_FILE_DOES_NOT_EXIST,
        some (Int.ofNat data.length, data)) := by
  obtain ⟨t5, hrn⟩ := FFSRename_single hS1 hS2 hnew1 hdiff hflen hhd
    hflen65 hmatch hfnode hvirgin ha0N ha0hd hbelow hsz
  rw [hrn]
  simp only [Option.map_some']
  exact congrArg some (rename_state_facts hS1 hS2 hN hnew1 hnewz hnewlt
    hdiff hcd hflen hhd hflen65 hflt hcap htake hvirgin ha0N ha0hd hpos hsz
    hfds rfl)

set_option maxRecDepth 1000000 in
theorem C6_witness :
    (FFSRename 2 120 c1st [97] [98]).map (fun p => (p.1,
        (FFSOpen 2 120 p.2 [97] FFS_RDONLY 0).1,
        readBack 2 120 p.2 [98] ([1, 2, 3] : Bytes).length)) =
      some ((0 : Int), FFS_RC_FILE_DOES_NOT_EXIST,
        some (Int.ofNat ([1, 2, 3] : Bytes).length, [1, 2, 3])) :=
  C6_rename_round_trip 2 120 (by decide) (by decide) (by decide)
    [97] [98] [1, 2, 3] (storeFilename (List.replicate 65 0) [97]) c1st 0 1
    { openDesc [97] true 0 3 with InUse := false }
    (by decide) (by decide) (by decide) (by decide) (by decide) (by decide)
    (by decide)
    ⟨by decide, by decide, by decide, by decide, by decide, by decide,
     by decide, by decide⟩
    (by decide) (by decide) (by decide) (by decide) (by decide) (by decide)
    (by decide) (by decide) (by decide) (by decide) (by decide) (by decide)

set_option maxRecDepth 100000 in
theorem C9_witness :
    FFSWrite 2 120 (FFSOpen 2 120 (freshState 2 120) [97] FFS_CREATE 0).2 0
        (List.replicate 20 7) = some (20, c9st) ∧
    PatchOk c9st.media.trace :=
  ⟨by decide,
   C9_patch_ordering 2 120 (by decide) (by decide) (by decide) (by decide)
     [97] [] (List.replicate 20 7)
     (FFSOpen 2 120 (freshState 2 120) [97] FFS_CREATE 0).2 c9st 20
     ⟨patchOk_nil, by decide, Or.inl ⟨by decide, by decide, rfl⟩⟩
     (by decide) (by decide) (by decide) (by decide)⟩

end Myffs
